import Mathlib

/-!
# The course-content RAG backend: chunker, ranking, retrieval, handlers and ingestion

A shallow embedding of the functions of the repository that the specification speaks
about, with the properties it states about them:

* `splitIntoChunks` (src/content-indexer.js, the same text in src/indexer.js,
  src/web-embedder.js and src/sitemap-embedder.js);
* the keyword-overlap ranking of the `/api/rag` handler of src/rag-api-gemini.js;
* `retrieveFromPinecone`, `performRAGRetrieval` and the handlers of src/server.js;
* the pseudo-embeddings, `readCourseContent` and `indexContent`;
* `filterAndCleanUrls`, `embedURL` and `embedSitemapContent`.

A JavaScript string is a sequence of UTF-16 code units; `length`, `split`, `trim`,
`match` and the regular expressions used here (none has the `u` flag) all work on
code units, so a string is modelled as the list of its code units.
-/

namespace HumanoidBook

/-- A JavaScript string: its UTF-16 code units. -/
abbrev JSString := List Nat

/-- Code units of a string literal whose characters are all in the Basic Multilingual
Plane, where a character is one code unit (for writing examples). -/
def js (s : String) : JSString := s.toList.map Char.toNat

/-- ECMAScript `LineTerminator`: LF, CR, LS, PS. The regex `.` (no `s` flag) matches
every code unit except these. -/
def isLineTerminator (c : Nat) : Bool :=
  c == 0x0A || c == 0x0D || c == 0x2028 || c == 0x2029

/-- ECMAScript `WhiteSpace` or `LineTerminator`: the set of regex `\s` and the set
stripped by `String.prototype.trim`. -/
def isWhiteSpace (c : Nat) : Bool :=
  c == 0x09 || c == 0x0A || c == 0x0B || c == 0x0C || c == 0x0D || c == 0x20 ||
  c == 0xA0 || c == 0x1680 || (0x2000 ≤ c && c ≤ 0x200A) || c == 0x2028 ||
  c == 0x2029 || c == 0x202F || c == 0x205F || c == 0x3000 || c == 0xFEFF

/-- `String.prototype.trim`. -/
def trim (s : JSString) : JSString :=
  (s.rdropWhile isWhiteSpace).dropWhile isWhiteSpace

/-- Put a code unit in front of the first piece of a list of pieces. -/
def consHead (c : Nat) : List JSString → List JSString
  | [] => [[c]]
  | p :: ps => (c :: p) :: ps

/-- `content.split('\n\n')`: the pieces between successive, non-overlapping
occurrences of the two-code-unit separator LF LF, found from the left. -/
def splitParagraphs : JSString → List JSString
  | [] => [[]]
  | [c] => [[c]]
  | c :: d :: rest =>
    if c = 10 ∧ d = 10 then [] :: splitParagraphs rest
    else consHead c (splitParagraphs (d :: rest))

/-- The class `[.!?]` of the sentence regex. -/
def isSentenceEnd (c : Nat) : Bool :=
  c == 46 || c == 33 || c == 63

/-- Scanner for `split(/(?<=[.!?])\s+/)`. `inSep` says that the scan is inside a
separator match (a maximal whitespace run that started right after `.`, `!` or `?`),
`prevEnd` that the previous code unit is one of `.`, `!`, `?`. -/
def splitSentencesAux : Bool → Bool → JSString → List JSString
  | _, _, [] => [[]]
  | inSep, prevEnd, c :: rest =>
    if isWhiteSpace c then
      if inSep then splitSentencesAux true false rest
      else if prevEnd then [] :: splitSentencesAux true false rest
      else consHead c (splitSentencesAux false false rest)
    else consHead c (splitSentencesAux false (isSentenceEnd c) rest)

/-- `s.split(/(?<=[.!?])\s+/)`: a separator is a maximal run of whitespace that
directly follows `.`, `!` or `?`. -/
def splitSentences (s : JSString) : List JSString :=
  splitSentencesAux false false s

/-- Scanner for `match(/.{1,L}/g)`: `cur` is the match in progress (shorter than `L`).
A line terminator ends the match in progress and is itself skipped. -/
def matchPartsAux (L : Nat) : JSString → JSString → List JSString
  | cur, [] => if cur = [] then [] else [cur]
  | cur, c :: rest =>
    if isLineTerminator c then
      (if cur = [] then [] else [cur]) ++ matchPartsAux L [] rest
    else if cur.length + 1 = L then (cur ++ [c]) :: matchPartsAux L [] rest
    else matchPartsAux L (cur ++ [c]) rest

/-- The parts of `s.match(new RegExp(".{1,L}", "g")) || []`: greedy runs of at most
`L` code units none of which is a line terminator. For `L = 0` the pattern `.{1,0}`
is a SyntaxError of the RegExp constructor, modelled as `none`. -/
def matchParts (L : Nat) (s : JSString) : Option (List JSString) :=
  if L = 0 then none else some (matchPartsAux L [] s)

/-- The two variables of `splitIntoChunks`. -/
structure ChunkState where
  chunks : List JSString
  currentChunk : JSString
deriving DecidableEq, Repr

/-- The guarded push `if (currentChunk.trim()) chunks.push(currentChunk.trim())`. -/
def pushTrimmed (st : ChunkState) : List JSString :=
  if trim st.currentChunk ≠ [] then st.chunks ++ [trim st.currentChunk] else st.chunks

/-- A `for ... of` loop whose body may throw: `none` is a thrown exception. -/
def runLoop (body : ChunkState → JSString → Option ChunkState) :
    ChunkState → List JSString → Option ChunkState
  | st, [] => some st
  | st, x :: xs =>
    match body st x with
    | none => none
    | some st' => runLoop body st' xs

/-- Body of the loop over sentences (lines 67-85). -/
def sentenceStep (maxLength : Nat) (st : ChunkState) (sentence : JSString) :
    Option ChunkState :=
  if st.currentChunk.length + sentence.length ≤ maxLength then
    some { chunks := st.chunks, currentChunk := st.currentChunk ++ sentence ++ [32] }
  else
    let chunks := pushTrimmed st
    let currentChunk := sentence ++ [32]
    if currentChunk.length > maxLength then
      match matchParts maxLength currentChunk with
      | none => none
      | some parts =>
        some { chunks := chunks ++ parts.dropLast,
               currentChunk := parts.getLast?.getD [] }
    else some { chunks := chunks, currentChunk := currentChunk }

/-- Body of the loop over paragraphs (lines 53-88). -/
def paragraphStep (maxLength : Nat) (st : ChunkState) (paragraph : JSString) :
    Option ChunkState :=
  if st.currentChunk.length + paragraph.length ≤ maxLength then
    some { chunks := st.chunks, currentChunk := st.currentChunk ++ paragraph ++ [10, 10] }
  else
    let chunks := pushTrimmed st
    let currentChunk := paragraph ++ [10, 10]
    if currentChunk.length > maxLength then
      runLoop (sentenceStep maxLength) { chunks := chunks, currentChunk := [] }
        (splitSentences currentChunk)
    else some { chunks := chunks, currentChunk := currentChunk }

/-- The function `splitIntoChunks(content, maxLength)` of src/content-indexer.js;
`none` is a thrown exception. -/
def splitIntoChunks (content : JSString) (maxLength : Nat) : Option (List JSString) :=
  match runLoop (paragraphStep maxLength) { chunks := [], currentChunk := [] }
      (splitParagraphs content) with
  | none => none
  | some st => some (pushTrimmed st)


/-! ## Keyword-overlap ranking (src/rag-api-gemini.js) -/

/-- `String.prototype.toLowerCase` on strings of ASCII code units, on which it maps
`A`-`Z` to `a`-`z` and changes nothing else. The ranking below takes the lowering
function as a parameter; this one instantiates it in examples. -/
def asciiToLowerCase (s : JSString) : JSString :=
  s.map (fun c => if 65 ≤ c ∧ c ≤ 90 then c + 32 else c)

/-- Scanner for `split(/\s+/)`; `inSep` says that the scan is inside a separator (a
maximal run of whitespace). -/
def splitWhitespaceAux : Bool → JSString → List JSString
  | _, [] => [[]]
  | inSep, c :: rest =>
    if isWhiteSpace c then
      if inSep then splitWhitespaceAux true rest else [] :: splitWhitespaceAux true rest
    else consHead c (splitWhitespaceAux false rest)

/-- `s.split(/\s+/)`. -/
def splitWhitespace (s : JSString) : List JSString := splitWhitespaceAux false s

/-- Whether `s` begins with `term`. -/
def startsWith : JSString → JSString → Bool
  | _, [] => true
  | [], _ :: _ => false
  | c :: s, d :: term => c == d && startsWith s term

/-- `s.includes(term)`: `term` occurs in `s` as a substring. -/
def includes : JSString → JSString → Bool
  | [], term => startsWith [] term
  | c :: s, term => startsWith (c :: s) term || includes s term

/-- JavaScript truthiness of a payload field that is a string or missing: present and
not the empty string. -/
def truthy : Option JSString → Bool
  | some (_ :: _) => true
  | _ => false

/-- The payload of a stored point. -/
structure Payload where
  content : Option JSString
  module : Option JSString
  source : Option JSString
deriving DecidableEq, Repr

/-- A point returned by the scroll. -/
structure Point where
  id : Nat
  payload : Option Payload
deriving DecidableEq, Repr

/-- The constant `queryTerms` (lines 86-87). -/
def queryTerms (toLowerCase : JSString → JSString) (query : JSString) : List JSString :=
  (splitWhitespace (toLowerCase query)).filter (fun term => term.length > 2)

/-- `field ? field.toLowerCase() : ''` (lines 94-95). -/
def lowerOrEmpty (toLowerCase : JSString → JSString) (field : Option JSString) : JSString :=
  if truthy field then toLowerCase (field.getD []) else []

/-- The constant `matches` of the filter callback (lines 93-102), for a payload whose
content is `content`. -/
def matchCount (toLowerCase : JSString → JSString) (queryTerms : List JSString)
    (content : JSString) (pl : Payload) : Nat :=
  let content := toLowerCase content
  let moduleRef := lowerOrEmpty toLowerCase pl.module
  let sourceRef := lowerOrEmpty toLowerCase pl.source
  (queryTerms.filter (fun term =>
    includes content term || includes moduleRef term || includes sourceRef term)).length

/-- The filter callback (lines 90-106). -/
def isRelevant (toLowerCase : JSString → JSString) (queryTerms : List JSString)
    (point : Point) : Bool :=
  match point.payload with
  | none => false
  | some pl =>
    match pl.content with
    | none => false
    | some content =>
      if content = [] then false
      else decide (matchCount toLowerCase queryTerms content pl > 0)

/-- The array `relevantResults` after the filter. -/
def relevantResults (toLowerCase : JSString → JSString) (queryTerms : List JSString)
    (points : List Point) : List Point :=
  points.filter (isRelevant toLowerCase queryTerms)

/-- `field && field.toLowerCase().includes(term)` (lines 112-113), as a condition. -/
def andIncludes (toLowerCase : JSString → JSString) (field : Option JSString)
    (term : JSString) : Bool :=
  truthy field && includes (toLowerCase (field.getD [])) term

/-- The constants `aMatches` and `bMatches` of the comparator (lines 110-120). Reading
`payload.content` of a point without payload or content would raise; the comparator
only ever sees retained points, which have both, so those cases are given 0. -/
def aMatches (toLowerCase : JSString → JSString) (queryTerms : List JSString)
    (a : Point) : Nat :=
  match a.payload with
  | none => 0
  | some pl =>
    match pl.content with
    | none => 0
    | some content =>
      (queryTerms.filter (fun term =>
        includes (toLowerCase content) term || andIncludes toLowerCase pl.module term ||
          andIncludes toLowerCase pl.source term)).length

/-- The comparator `(a, b) => bMatches - aMatches`. -/
def compareMatches (toLowerCase : JSString → JSString) (queryTerms : List JSString)
    (a b : Point) : Int :=
  (aMatches toLowerCase queryTerms b : Int) - (aMatches toLowerCase queryTerms a : Int)

/-- Insert `a` in front of the first element that must not precede it. -/
def insertSorted (cmp : Point → Point → Int) (a : Point) : List Point → List Point
  | [] => [a]
  | b :: l => if cmp a b ≤ 0 then a :: b :: l else b :: insertSorted cmp a l

/-- `Array.prototype.sort(cmp)`, which ECMAScript specifies to be stable: for a
consistent comparator the result is the one stable ordering, computed here by
insertion from the right. -/
def sortStable (cmp : Point → Point → Int) : List Point → List Point
  | [] => []
  | a :: l => insertSorted cmp a (sortStable cmp l)

/-- The array `topResults` (line 126) for a query and the scrolled points. -/
def topResults (toLowerCase : JSString → JSString) (query : JSString)
    (points : List Point) : List Point :=
  let queryTerms := queryTerms toLowerCase query
  let relevantResults := relevantResults toLowerCase queryTerms points
  (sortStable (compareMatches toLowerCase queryTerms) relevantResults).take 5

/-- One element of `retrievedDocs`. -/
structure Doc where
  content : Option JSString
  source : Option JSString
  module : Option JSString
deriving DecidableEq, Repr

/-- The array `retrievedDocs` (lines 129-133); `none` is the TypeError of reading a
field of a missing payload. -/
def retrievedDocs : List Point → Option (List Doc)
  | [] => some []
  | hit :: rest =>
    match hit.payload with
    | none => none
    | some pl =>
      match retrievedDocs rest with
      | none => none
      | some docs =>
        some ({ content := pl.content, source := pl.source, module := pl.module } :: docs)

/-- From the specification's words: the query term occurs as a substring of the
lower-cased content, module or source of the payload. -/
def TermOccurs (toLowerCase : JSString → JSString) (pl : Payload) (term : JSString) : Prop :=
  (∃ c ∈ pl.content, term <:+: toLowerCase c) ∨ (∃ m ∈ pl.module, term <:+: toLowerCase m) ∨
    (∃ s ∈ pl.source, term <:+: toLowerCase s)

instance (toLowerCase : JSString → JSString) (pl : Payload) (term : JSString) :
    Decidable (TermOccurs toLowerCase pl term) := by
  unfold TermOccurs
  infer_instance

/-! ## Retrieval and the HTTP handlers

The functions of src/pinecone-retriever.js and src/retriever.js and the handlers of
src/server.js and src/rag-api-gemini.js. An awaited call of an external service either
returns or raises; it is modelled by a function into `Except`, the error being the
message of the raised error, and every function that makes such calls returns, next to
its result, the list of the calls it made, in order. The embedding vectors (type `V`)
and the similarity scores (type `S`) are only passed on, never computed with. -/

/-- `Array.prototype.join(sep)` on an array of strings. -/
def joinWith (sep : JSString) : List JSString → JSString
  | [] => []
  | [x] => x
  | x :: y :: rest => x ++ sep ++ joinWith sep (y :: rest)

/-- The metadata stored with a vector: every ingestion path of the repository writes
`content` and `source` as strings. -/
structure Metadata where
  content : JSString
  source : JSString
deriving DecidableEq, Repr

/-- One entry of `queryResponse.matches`; the query is made with
`includeMetadata: true`. -/
structure Match (S : Type) where
  id : JSString
  metadata : Metadata
  score : S
deriving DecidableEq, Repr

/-- A call of an external service: `cohere.embed`, `index.query`, the chat completion
or `generateContent`, and `qdrant.scroll`. -/
inductive Call (V : Type) where
  | embed (text : JSString)
  | vectorQuery (vector : V) (topK : Nat)
  | generate (prompt : JSString)
  | scroll
deriving DecidableEq, Repr

/-- The external services as the handlers see them. -/
structure Services (V S : Type) where
  embed : JSString → Except JSString V
  vectorQuery : V → Nat → Except JSString (List (Match S))
  generate : JSString → Except JSString JSString
  scroll : Except JSString (List Point)

/-- One element of `results` in `retrieveFromPinecone`. -/
structure RetrievalResult (S : Type) where
  id : JSString
  content : JSString
  source : JSString
  score : S
  rank : Nat
deriving DecidableEq, Repr

/-- The object returned by `retrieveFromPinecone`. -/
structure Retrieval (S : Type) where
  results : List (RetrievalResult S)
  query : JSString
  retrievedCount : Nat
deriving DecidableEq, Repr

/-- The callback of `queryResponse.matches.map((match, index) => ...)` (lines 42-48 of
src/pinecone-retriever.js), applied from position `index` on. -/
def formatMatches {S : Type} (index : Nat) : List (Match S) → List (RetrievalResult S)
  | [] => []
  | m :: rest =>
    { id := m.id, content := m.metadata.content, source := m.metadata.source,
      score := m.score, rank := index + 1 } :: formatMatches (index + 1) rest

/-- The function `retrieveFromPinecone(query, topK)` of src/pinecone-retriever.js; its
`catch` logs and rethrows. -/
def retrieveFromPinecone {V S : Type} (sv : Services V S) (query : JSString) (topK : Nat) :
    Except JSString (Retrieval S) × List (Call V) :=
  match sv.embed query with
  | .error e => (.error e, [.embed query])
  | .ok queryEmbedding =>
    match sv.vectorQuery queryEmbedding topK with
    | .error e => (.error e, [.embed query, .vectorQuery queryEmbedding topK])
    | .ok queryMatches =>
      let results := formatMatches 0 queryMatches
      (.ok { results := results, query := query, retrievedCount := results.length },
        [.embed query, .vectorQuery queryEmbedding topK])

/-- The JSON bodies the handlers send. A key whose value is `undefined` is left out by
`res.json`, hence the optional `details`. -/
inductive Body (S : Type) where
  | error (error : JSString) (details : Option JSString)
  | retrieved (results : List (RetrievalResult S)) (query : JSString) (retrievedCount : Nat)
  | answer (response : JSString) (sources : List JSString) (retrieved_docs_count : Nat)
      (fallback_context : Option JSString)
  | geminiAnswer (response : JSString) (sources : List (Option JSString))
      (retrieved_docs_count : Nat) (query : JSString)
deriving DecidableEq, Repr

/-- What a handler sends: `res.status(status).json(body)`. -/
structure Response (S : Type) where
  status : Nat
  body : Body S
deriving DecidableEq, Repr

/-- The handler of `POST /api/retrieve` (lines 62-106 of src/server.js). `development`
stands for `process.env.NODE_ENV === 'development'`, `query` for `req.body.query`. -/
def retrieveHandler {V S : Type} (sv : Services V S) (development : Bool)
    (query : Option JSString) : Response S × List (Call V) :=
  if !truthy query then
    ({ status := 400, body := .error (js "Query is required") none }, [])
  else
    let query := query.getD []
    match retrieveFromPinecone sv query 5 with
    | (.error message, calls) =>
      ({ status := 500,
         body := .error (js "Internal server error during document retrieval")
           (if development then some message else none) }, calls)
    | (.ok retrievalResult, calls) =>
      let formattedResults := retrievalResult.results.map (fun result =>
        ({ id := result.id, content := result.content, source := result.source,
           score := result.score, rank := result.rank } : RetrievalResult S))
      ({ status := 200,
         body := .retrieved formattedResults query retrievalResult.retrievedCount }, calls)

/-- The constant `contextText` of the `/api/rag` handler (lines 126-128 of
src/server.js). -/
def contextText {S : Type} (results : List (RetrievalResult S)) : JSString :=
  joinWith (js "\n\n---\n\n")
    (results.map (fun result =>
      js "Source: " ++ result.source ++ js "\nContent: " ++ result.content))

/-- The constant `prompt` of the `/api/rag` handler (line 134 of src/server.js). -/
def ragPrompt (contextText query : JSString) : JSString :=
  js "Context: " ++ contextText ++ js "\n\nQuestion: " ++ query ++
    js "\n\nPlease provide a helpful answer based on the context. If the context doesn\x27t contain relevant information, please say so and suggest where the user might find the information in the course."

/-- The notice sent when the generation call fails (line 174 of src/server.js). -/
def generationNotice : JSString :=
  js "Could not generate a response due to an API error, but here are some relevant documents:"

/-- The handler of `POST /api/rag` in src/server.js (lines 109-191). -/
def ragHandler {V S : Type} (sv : Services V S) (development : Bool)
    (query : Option JSString) : Response S × List (Call V) :=
  if !truthy query then
    ({ status := 400, body := .error (js "Query is required") none }, [])
  else
    let query := query.getD []
    match retrieveFromPinecone sv query 5 with
    | (.error message, calls) =>
      ({ status := 500,
         body := .error (js "Internal server error during RAG processing")
           (if development then some message else none) }, calls)
    | (.ok retrievalResult, calls) =>
      let prompt := ragPrompt (contextText retrievalResult.results) query
      match sv.generate prompt with
      | .ok text =>
        ({ status := 200,
           body := .answer text (retrievalResult.results.map (fun r => r.source))
             retrievalResult.retrievedCount none }, calls ++ [.generate prompt])
      | .error _ =>
        ({ status := 200,
           body := .answer generationNotice
             (retrievalResult.results.map (fun r => r.source))
             retrievalResult.retrievedCount
             (some (joinWith (js "\n\n") (retrievalResult.results.map (fun r => r.content)))) },
          calls ++ [.generate prompt])

/-- The constant `prompt` of the `/api/rag` handler of src/rag-api-gemini.js (lines
140-149). -/
def geminiPrompt (contextText query : JSString) : JSString :=
  js "You are an AI assistant for the Physical AI & Humanoid Robotics course. \n    Use the following context to answer the question:\n\n    CONTEXT: " ++
    contextText ++ js "\n\n    QUESTION: " ++ query ++
    js "\n\n    Please provide a helpful, detailed answer based on the context. \n    If the context doesn\x27t contain relevant information, acknowledge this and provide guidance on where the user might find the information in the course.\n    Include specific module references if possible."

/-- The handler of `POST /api/rag` in src/rag-api-gemini.js (lines 61-171). The vector
of `generateEmbeddingsForQuery`, a local computation, is never used. A missing payload
among the top results would raise a TypeError, caught like every other error. -/
def geminiRagHandler {V S : Type} (toLowerCase : JSString → JSString) (sv : Services V S)
    (development : Bool) (query : Option JSString) : Response S × List (Call V) :=
  if !truthy query then
    ({ status := 400, body := .error (js "Query is required") none }, [])
  else
    let query := query.getD []
    match sv.scroll with
    | .error message =>
      ({ status := 500,
         body := .error (js "Internal server error during RAG processing")
           (if development then some message else none) }, [.scroll])
    | .ok points =>
      match retrievedDocs (topResults toLowerCase query points) with
      | none =>
        ({ status := 500,
           body := .error (js "Internal server error during RAG processing")
             (if development then
               some (js "Cannot read properties of undefined (reading \x27content\x27)")
              else none) }, [.scroll])
      | some retrievedDocs =>
        let contextText := joinWith (js "\n\n")
          (retrievedDocs.map (fun doc => doc.content.getD []))
        let sources := retrievedDocs.map (fun doc => doc.source)
        let prompt := geminiPrompt contextText query
        match sv.generate prompt with
        | .error message =>
          ({ status := 500,
             body := .error (js "Internal server error during RAG processing")
               (if development then some message else none) },
            [.scroll, .generate prompt])
        | .ok text =>
          ({ status := 200,
             body := .geminiAnswer text sources retrievedDocs.length query },
            [.scroll, .generate prompt])

/-- One element of `results` in `retrieveDocuments` (src/retriever.js). -/
structure Document (S : Type) where
  content : JSString
  source : JSString
  score : S
deriving DecidableEq, Repr

/-- The function `generateQueryEmbedding(text)` of src/retriever.js; its `catch` logs
and rethrows. -/
def generateQueryEmbedding {V S : Type} (sv : Services V S) (text : JSString) :
    Except JSString V × List (Call V) :=
  (sv.embed text, [.embed text])

/-- The function `retrieveDocuments(query, topK)` of src/retriever.js; its `catch` logs
and rethrows. -/
def retrieveDocuments {V S : Type} (sv : Services V S) (query : JSString) (topK : Nat) :
    Except JSString (List (Document S)) × List (Call V) :=
  match generateQueryEmbedding sv query with
  | (.error e, calls) => (.error e, calls)
  | (.ok queryEmbedding, calls) =>
    match sv.vectorQuery queryEmbedding topK with
    | .error e => (.error e, calls ++ [.vectorQuery queryEmbedding topK])
    | .ok queryMatches =>
      (.ok (queryMatches.map (fun m =>
          ({ content := m.metadata.content, source := m.metadata.source,
             score := m.score } : Document S))),
        calls ++ [.vectorQuery queryEmbedding topK])

/-- The function `formatContext(documents)` of src/retriever.js. -/
def formatContext {S : Type} (documents : List (Document S)) : JSString :=
  if documents.length = 0 then js "No relevant content found in the knowledge base."
  else
    joinWith (js "\n\n---\n\n")
      (documents.map (fun doc => js "Source: " ++ doc.source ++ js "\nContent: " ++ doc.content))

/-- The object returned by `performRAGRetrieval`. -/
structure RAGRetrieval where
  context : JSString
  sources : List JSString
  retrieved_docs_count : Nat
deriving DecidableEq, Repr

/-- The function `performRAGRetrieval(query, topK)` of src/retriever.js. -/
def performRAGRetrieval {V S : Type} (sv : Services V S) (query : JSString) (topK : Nat) :
    RAGRetrieval × List (Call V) :=
  match retrieveDocuments sv query topK with
  | (.ok documents, calls) =>
    ({ context := formatContext documents,
       sources := documents.map (fun doc => doc.source),
       retrieved_docs_count := documents.length }, calls)
  | (.error _, calls) =>
    ({ context := js "An error occurred while retrieving information. Using fallback response.",
       sources := [],
       retrieved_docs_count := 0 }, calls)

/-- Services for instantiating the statements at concrete inputs: each call fails or
not as the flags say; the embedding is `7`, the vector-store query returns
`queryMatches`, the generation returns `"ok"`, the scroll returns nothing. -/
def exampleServices (embedFails queryFails generateFails : Bool)
    (queryMatches : List (Match Nat)) : Services Nat Nat :=
  { embed := fun _ => if embedFails then .error (js "embed failed") else .ok 7,
    vectorQuery := fun _ _ =>
      if queryFails then .error (js "query failed") else .ok queryMatches,
    generate := fun _ => if generateFails then .error (js "generate failed") else .ok (js "ok"),
    scroll := .ok [] }

/-! ## Ingestion: pseudo-embeddings, points and batches

The functions of src/content-indexer.js and src/indexer.js that prepare the points and
send them to the vector store. -/

/-- The vector size declared by `createCollection` (`size: 1536`, line 140 of
src/content-indexer.js). -/
def collectionVectorSize : Nat := 1536

/-- The loop of `generateDummyEmbedding` (lines 193-197 of src/content-indexer.js) from
position `i` on: `vector[idx] = (vector[idx] + charCode) % 2 - 1` with `idx = i % 1536`.
All values are small integers, on which the arithmetic of JavaScript numbers is exact;
`%` takes the sign of the dividend (`Int.tmod`). -/
def dummyLoop : Nat → JSString → List Int → List Int
  | _, [], vector => vector
  | i, charCode :: rest, vector =>
    let idx := i % 1536
    dummyLoop (i + 1) rest
      (vector.set idx (Int.tmod (vector.getD idx 0 + (charCode : Int)) 2 - 1))

/-- The function `generateDummyEmbedding(text)` of src/content-indexer.js. -/
def generateDummyEmbedding (text : JSString) : List Int :=
  if text = [] then List.replicate 1536 0
  else dummyLoop 0 text (List.replicate 1536 0)

/-- The floating-point operations of `generateEmbeddingsForQuery`, taken as parameters:
the conversion of an integer, `Math.sqrt` of an integer, the test `magnitude > 0` and
the division `val / magnitude` of an integer by a number. -/
structure FloatOps (F : Type) where
  ofNat : Nat → F
  sqrt : Nat → F
  isPositive : F → Bool
  div : Nat → F → F

/-- The loop of `generateEmbeddingsForQuery` (lines 45-49 of src/rag-api-gemini.js) from
position `i` on: `vector[idx] = ((vector[idx] * 31) + charCode) % 2`. -/
def queryLoop : Nat → JSString → List Nat → List Nat
  | _, [], vector => vector
  | i, charCode :: rest, vector =>
    let idx := i % 1536
    queryLoop (i + 1) rest (vector.set idx ((vector.getD idx 0 * 31 + charCode) % 2))

/-- The function `generateEmbeddingsForQuery(text)` of src/rag-api-gemini.js. The sum of
the squares is a sum of integers, hence exact. -/
def generateEmbeddingsForQuery {F : Type} (ops : FloatOps F) (text : JSString) : List F :=
  if text = [] then (List.replicate 1536 0).map ops.ofNat
  else
    let vector := queryLoop 0 text (List.replicate 1536 0)
    let magnitude := ops.sqrt (vector.foldl (fun sum val => sum + val * val) 0)
    if ops.isPositive magnitude then vector.map (fun val => ops.div val magnitude)
    else vector.map ops.ofNat

/-- The batch loop `for (let i = 0; i < points.length; i += batchSize)` with
`batch = points.slice(i, i + batchSize)`, run for at most `fuel` rounds from index `i`:
the batches in order. -/
def batchLoop {α : Type} (points : List α) (batchSize : Nat) : Nat → Nat → List (List α)
  | 0, _ => []
  | fuel + 1, i =>
    if i < points.length then
      (points.drop i).take batchSize :: batchLoop points batchSize fuel (i + batchSize)
    else []

/-- The batches the ingestion loops form: `points.length` rounds are enough, since every
round moves `i` forward by `batchSize ≥ 1`. -/
def batches {α : Type} (points : List α) (batchSize : Nat) : List (List α) :=
  batchLoop points batchSize points.length 0

/-- One element of `allContent`, as `readCourseContent` returns it. -/
structure CourseDocument where
  id : JSString
  content : JSString
  source : JSString
  module : JSString
deriving DecidableEq, Repr

/-- The payload (src/content-indexer.js) or metadata (src/indexer.js) of a prepared
point. -/
structure PointPayload where
  content : JSString
  source : JSString
  module : JSString
  original_id : JSString
deriving DecidableEq, Repr

/-- A prepared point: its id, its vector and its payload. -/
structure IndexPoint (I : Type) where
  id : I
  vector : List Int
  payload : PointPayload
deriving DecidableEq, Repr

/-- The point pushed for `chunk` of `doc` in src/content-indexer.js (lines 113-124):
the id is the number `pointId`, the vector the pseudo-embedding of the first 100 code
units of the chunk. -/
def qdrantPoint (pointId : Nat) (chunk : JSString) (doc : CourseDocument) : IndexPoint Nat :=
  { id := pointId,
    vector := generateDummyEmbedding (chunk.take 100),
    payload := { content := chunk, source := doc.source, module := doc.module,
                 original_id := doc.id } }

/-- `String(n)` of a non-negative integer: its decimal digits. -/
def numberToString (n : Nat) : JSString :=
  if n = 0 then [48] else ((Nat.digits 10 n).reverse).map (fun d => d + 48)

/-- The point pushed for `chunk` of `doc` in src/indexer.js (lines 135-145): the id is
the string `doc_` followed by `pointId`, the values are filled in later. -/
def pineconePoint (pointId : Nat) (chunk : JSString) (doc : CourseDocument) :
    IndexPoint JSString :=
  { id := js "doc_" ++ numberToString pointId,
    vector := [],
    payload := { content := chunk, source := doc.source, module := doc.module,
                 original_id := doc.id } }

/-- The inner loop `for (const chunk of chunks)` of `indexContent`, starting with the
counter at `pointId`. -/
def pushChunks {P : Type} (mkPoint : Nat → JSString → CourseDocument → P)
    (doc : CourseDocument) : Nat → List JSString → List P
  | _, [] => []
  | pointId, chunk :: rest =>
    mkPoint pointId chunk doc :: pushChunks mkPoint doc (pointId + 1) rest

/-- The outer loop `for (const doc of documents)` of `indexContent`, starting with the
counter at `pointId`: the array `points`; `none` when `splitIntoChunks` raises. -/
def preparePoints {P : Type} (mkPoint : Nat → JSString → CourseDocument → P) :
    Nat → List CourseDocument → Option (List P)
  | _, [] => some []
  | pointId, doc :: docs =>
    match splitIntoChunks doc.content 1000 with
    | none => none
    | some chunks =>
      match preparePoints mkPoint (pointId + chunks.length) docs with
      | none => none
      | some points => some (pushChunks mkPoint doc pointId chunks ++ points)

/-- Scanner for the first occurrence of `---`: the text before it and the text after
it, if there is one. -/
def splitAtDashes : JSString → Option (JSString × JSString)
  | [] => none
  | c :: rest =>
    if startsWith (c :: rest) [45, 45, 45] then some ([], rest.drop 2)
    else
      match splitAtDashes rest with
      | none => none
      | some (before, after) => some (c :: before, after)

/-- The replacement `content.replace(/---[\s\S]*?---/, '')` of `readCourseContent`
(line 28 of src/content-indexer.js): the leftmost `---` that is followed, after any
text, by another `---` is deleted together with the text up to and including the
nearest such `---`; without such a pair the content is unchanged. -/
def removeFrontmatter (content : JSString) : JSString :=
  match splitAtDashes content with
  | none => content
  | some (before, afterOpening) =>
    match splitAtDashes afterOpening with
    | none => content
    | some (_, afterClosing) => before ++ afterClosing

/-- Whether `s` ends with `suffix`: `s.endsWith(suffix)`. -/
def endsWith (s suffix : JSString) : Bool :=
  startsWith s.reverse suffix.reverse

/-- The directory of course files as `readCourseContent` reads it: the file names of a
module directory and the text of a file of a module; either may raise. -/
structure FileSystem where
  readdir : JSString → Except JSString (List JSString)
  readFile : JSString → JSString → Except JSString JSString

/-- The loop over the files of one module (lines 22-37 of src/content-indexer.js); when
reading a file raises the loop is left, with what was pushed so far. -/
def readModuleFiles (fs : FileSystem) (module : JSString) :
    List JSString → List CourseDocument → List CourseDocument
  | [], allContent => allContent
  | file :: rest, allContent =>
    if endsWith file (js ".md") then
      match fs.readFile module file with
      | .error _ => allContent
      | .ok content =>
        readModuleFiles fs module rest
          (allContent ++ [{ id := module ++ js "/" ++ file,
                            content := removeFrontmatter content,
                            source := js "/docs/" ++ module ++ js "/" ++ file,
                            module := module }])
    else readModuleFiles fs module rest allContent

/-- The loop over the modules of `readCourseContent`; an error while reading a module is
logged and the next module is read. -/
def readModules (fs : FileSystem) : List JSString → List CourseDocument → List CourseDocument
  | [], allContent => allContent
  | module :: rest, allContent =>
    match fs.readdir module with
    | .error _ => readModules fs rest allContent
    | .ok files => readModules fs rest (readModuleFiles fs module files allContent)

/-- The function `readCourseContent()` of src/content-indexer.js. -/
def readCourseContent (fs : FileSystem) : List CourseDocument :=
  readModules fs [js "module-1", js "module-2", js "module-3", js "module-4"] []

/-- A directory with the single file `module-1/intro.md` holding `content`. -/
def exampleFileSystem (content : JSString) : FileSystem :=
  { readdir := fun module =>
      if module = js "module-1" then .ok [js "intro.md"] else .error (js "ENOENT"),
    readFile := fun _ _ => .ok content }

/-- A request sent to Qdrant by src/content-indexer.js. -/
inductive QdrantCall where
  | getCollections
  | createCollection (name : JSString) (size : Nat)
  | upsert (collection : JSString) (points : List (IndexPoint Nat))
deriving DecidableEq, Repr

/-- The Qdrant client over a store of state `σ`: a request returns or raises, and leaves
the store in some state. -/
structure QdrantClient (σ : Type) where
  getCollections : σ → Except JSString (List JSString) × σ
  createCollection : JSString → Nat → σ → Except JSString Unit × σ
  upsert : JSString → List (IndexPoint Nat) → σ → Except JSString Unit × σ

/-- The collection-creation step of `indexContent` (lines 130-163 of
src/content-indexer.js): list the collections and create `course_content` if no
collection has that name; its `catch` logs and rethrows. -/
def ensureCollection {σ : Type} (client : QdrantClient σ) (store : σ) :
    Except JSString Unit × σ × List QdrantCall :=
  match client.getCollections store with
  | (.error e, store) => (.error e, store, [.getCollections])
  | (.ok collections, store) =>
    let collectionExists := collections.any (fun name => name == js "course_content")
    if !collectionExists then
      match client.createCollection (js "course_content") 1536 store with
      | (.error e, store) =>
        (.error e, store, [.getCollections, .createCollection (js "course_content") 1536])
      | (.ok _, store) =>
        (.ok (), store, [.getCollections, .createCollection (js "course_content") 1536])
    else (.ok (), store, [.getCollections])

/-- The loop over the batches of `indexContent` (lines 167-180 of
src/content-indexer.js): an upsert that raises is logged and the loop goes on. -/
def upsertBatches {σ : Type} (client : QdrantClient σ) :
    List (List (IndexPoint Nat)) → σ → σ × List QdrantCall
  | [], store => (store, [])
  | batch :: rest, store =>
    match client.upsert (js "course_content") batch store with
    | (.ok _, store) =>
      let (store, calls) := upsertBatches client rest store
      (store, .upsert (js "course_content") batch :: calls)
    | (.error _, store) =>
      let (store, calls) := upsertBatches client rest store
      (store, .upsert (js "course_content") batch :: calls)

/-- The function `indexContent()` of src/content-indexer.js, on the documents that
`readCourseContent` returned. With the default limit `splitIntoChunks` does not raise;
the error of that case is the one of the RegExp constructor. -/
def indexContent {σ : Type} (client : QdrantClient σ) (documents : List CourseDocument)
    (store : σ) : Except JSString Unit × σ × List QdrantCall :=
  match preparePoints qdrantPoint 0 documents with
  | none => (.error (js "Invalid regular expression"), store, [])
  | some points =>
    match ensureCollection client store with
    | (.error e, store, calls) => (.error e, store, calls)
    | (.ok _, store, calls) =>
      let (store, upsertCalls) := upsertBatches client (batches points 10) store
      (.ok (), store, calls ++ upsertCalls)

/-- The vector store as a set of collection names, listed without repetition: listing
returns the names, creating a collection raises if the name is taken and adds it
otherwise, an upsert changes no name. -/
def setStoreClient : QdrantClient (List JSString) :=
  { getCollections := fun store => (.ok store, store),
    createCollection := fun name _ store =>
      if name ∈ store then (.error (js "Collection already exists"), store)
      else (.ok (), store ++ [name]),
    upsert := fun _ _ store => (.ok (), store) }

/-- A record upserted to Pinecone: the id, the embedding `embeddings[j]` if there is one,
and the metadata. -/
structure PineconeVector (E : Type) where
  id : JSString
  values : Option E
  metadata : PointPayload
deriving DecidableEq, Repr

/-- A call made by the batch loop of src/indexer.js. -/
inductive PineconeCall (E : Type) where
  | embedTexts (texts : List JSString)
  | upsert (vectors : List (PineconeVector E))
deriving DecidableEq, Repr

/-- The services of src/indexer.js: `cohere.embed` and `index.upsert`. -/
structure PineconeServices (E : Type) where
  embedTexts : List JSString → Except JSString (List E)
  upsert : List (PineconeVector E) → Except JSString Unit

/-- The loop `for (let j = 0; j < batch.length; j++) batch[j].values = embeddings[j]`
(lines 163-165 of src/indexer.js), from position `j` on. -/
def assignValues {E : Type} (embeddings : List E) :
    Nat → List (IndexPoint JSString) → List (PineconeVector E)
  | _, [] => []
  | j, point :: rest =>
    { id := point.id, values := embeddings[j]?, metadata := point.payload } ::
      assignValues embeddings (j + 1) rest

/-- The loop over the batches of `indexContent` in src/indexer.js (lines 152-174): the
embedding call is outside the `try`, so its error ends the loop and is raised; an upsert
that raises is logged and the loop goes on. -/
def indexBatches {E : Type} (sv : PineconeServices E) :
    List (List (IndexPoint JSString)) → Except JSString Unit × List (PineconeCall E)
  | [] => (.ok (), [])
  | batch :: rest =>
    let texts := batch.map (fun point => point.payload.content)
    match sv.embedTexts texts with
    | .error e => (.error e, [.embedTexts texts])
    | .ok embeddings =>
      let vectors := assignValues embeddings 0 batch
      match sv.upsert vectors with
      | .ok _ =>
        let (result, calls) := indexBatches sv rest
        (result, .embedTexts texts :: .upsert vectors :: calls)
      | .error _ =>
        let (result, calls) := indexBatches sv rest
        (result, .embedTexts texts :: .upsert vectors :: calls)

/-- The set store with every upsert raising, for instantiating statements. -/
def failingUpsertClient : QdrantClient (List JSString) :=
  { getCollections := setStoreClient.getCollections,
    createCollection := setStoreClient.createCollection,
    upsert := fun _ _ store => (.error (js "upsert failed"), store) }

/-! ## Sitemap ingestion

The functions of src/sitemap-parser.js, src/web-embedder.js and
src/sitemap-embedder.js. `new URL(url).hostname` is taken as the parameter `hostname`
(`none` when the constructor raises), the cheerio queries as services. -/

/-- The spread of a Set, `[...new Set(urls)]`: the distinct elements in the order of
their first occurrence. -/
def uniqueUrls : List JSString → List JSString
  | [] => []
  | url :: rest => url :: (uniqueUrls rest).filter (fun other => other != url)

/-- The callback of the content filter (lines 64-71 of src/sitemap-parser.js, lines
68-75 of src/sitemap-embedder.js). -/
def isContentUrl (toLowerCase : JSString → JSString) (url : JSString) : Bool :=
  !includes (toLowerCase url) (js "sitemap") &&
  !endsWith (toLowerCase url) (js ".xml") &&
  !endsWith (toLowerCase url) (js ".json") &&
  !endsWith (toLowerCase url) (js ".pdf") &&
  !includes (toLowerCase url) (js "tag") &&
  !includes (toLowerCase url) (js "category")

/-- The callback of the domain filter (lines 53-61 of src/sitemap-parser.js): `false`
when either URL constructor raises. -/
def sameHostname (hostname : JSString → Option JSString) (baseUrl url : JSString) : Bool :=
  match hostname url with
  | none => false
  | some urlHost =>
    match hostname baseUrl with
    | none => false
    | some baseHost => urlHost == baseHost

/-- The function `filterAndCleanUrls(urls, baseUrl)` of src/sitemap-parser.js. -/
def filterAndCleanUrls (toLowerCase : JSString → JSString)
    (hostname : JSString → Option JSString) (urls : List JSString) (baseUrl : JSString) :
    List JSString :=
  let uniqueUrls := uniqueUrls urls
  let domainUrls := uniqueUrls.filter (sameHostname hostname baseUrl)
  domainUrls.filter (isContentUrl toLowerCase)

/-- The function `filterAndCleanUrls(urls, baseUrl)` of src/sitemap-embedder.js, which
has no domain filter. -/
def filterAndCleanUrlsEmbedder (toLowerCase : JSString → JSString) (urls : List JSString)
    (_baseUrl : JSString) : List JSString :=
  (uniqueUrls urls).filter (isContentUrl toLowerCase)

/-- What `parseSitemap` reads in the parsed XML: the `loc[0]` of the entries of
`urlset.url`, or of `sitemapindex.sitemap`, or neither. -/
inductive SitemapDocument where
  | urlset (locs : List (Option JSString))
  | sitemapindex (locs : List (Option JSString))
  | other
deriving DecidableEq, Repr

/-- A record upserted by `embedURL`: the number `i + index` that ends its id (the id
also holds the clock reading `Date.now()`), the embedding `embeddings[index]` if there
is one, the chunk and the source. -/
structure WebVector (E : Type) where
  idIndex : Nat
  values : Option E
  content : JSString
  source : JSString
deriving DecidableEq, Repr

/-- A call made during sitemap ingestion. -/
inductive WebCall (E : Type) where
  | fetchSitemap (url : JSString)
  | fetchPage (url : JSString)
  | embedTexts (texts : List JSString)
  | upsert (vectors : List (WebVector E))
deriving DecidableEq, Repr

/-- The services of sitemap ingestion: fetching and parsing the sitemap, fetching a
page, the cheerio text of the body and of the main containers of a page, `cohere.embed`
and `index.upsert`. -/
structure WebServices (E : Type) where
  fetchSitemap : JSString → Except JSString SitemapDocument
  fetchPage : JSString → Except JSString JSString
  bodyText : JSString → Except JSString JSString
  mainText : JSString → Except JSString JSString
  embedTexts : List JSString → Except JSString (List E)
  upsert : List (WebVector E) → Except JSString Unit

/-- The entries whose `loc[0]` is a non-empty string, in order. -/
def pushLocs : List (Option JSString) → List JSString
  | [] => []
  | loc :: rest => if truthy loc then loc.getD [] :: pushLocs rest else pushLocs rest

/-- The function `parseSitemap(sitemapUrl)` of src/sitemap-parser.js and
src/sitemap-embedder.js; its `catch` logs and rethrows. -/
def parseSitemap {E : Type} (sv : WebServices E) (sitemapUrl : JSString) :
    Except JSString (List JSString) × List (WebCall E) :=
  match sv.fetchSitemap sitemapUrl with
  | .error e => (.error e, [.fetchSitemap sitemapUrl])
  | .ok (.urlset locs) => (.ok (pushLocs locs), [.fetchSitemap sitemapUrl])
  | .ok (.sitemapindex locs) => (.ok (pushLocs locs), [.fetchSitemap sitemapUrl])
  | .ok .other => (.ok [], [.fetchSitemap sitemapUrl])

/-- Scanner for `text.replace(/\s+/g, ' ')`; `inRun` says that the scan is inside a run
of whitespace. -/
def collapseWhitespaceAux : Bool → JSString → JSString
  | _, [] => []
  | inRun, c :: rest =>
    if isWhiteSpace c then
      if inRun then collapseWhitespaceAux true rest
      else 32 :: collapseWhitespaceAux true rest
    else c :: collapseWhitespaceAux false rest

/-- The clean-up of `extractTextFromHTML`: collapse the whitespace, trim, and keep at
most 10000 code units. -/
def cleanText (text : JSString) : JSString :=
  let text := trim (collapseWhitespaceAux false text)
  if text.length > 10000 then text.take 10000 else text

/-- The function `extractTextFromHTML(html, url)` of src/web-embedder.js: its
`content`. -/
def extractTextFromHTML {E : Type} (sv : WebServices E) (html : JSString) :
    Except JSString JSString :=
  match sv.bodyText html with
  | .error e => .error e
  | .ok text => .ok (cleanText text)

/-- The function `extractTextFromHTML(html, url)` of src/sitemap-embedder.js: the text
of the main containers, or of the body when that is blank. -/
def extractTextFromHTMLEmbedder {E : Type} (sv : WebServices E) (html : JSString) :
    Except JSString JSString :=
  match sv.mainText html with
  | .error e => .error e
  | .ok text =>
    if trim text = [] then
      match sv.bodyText html with
      | .error e => .error e
      | .ok text => .ok (cleanText text)
    else .ok (cleanText text)

/-- The callback of `batch.map((chunk, index) => ...)` of `embedURL`, from position
`index` on. -/
def webVectors {E : Type} (embeddings : List E) (sourceUrl : JSString) (i : Nat) :
    Nat → List JSString → List (WebVector E)
  | _, [] => []
  | index, chunk :: rest =>
    { idIndex := i + index, values := embeddings[index]?, content := chunk,
      source := sourceUrl } :: webVectors embeddings sourceUrl i (index + 1) rest

/-- The loop over the batches of `embedURL` (lines 148-173 of src/web-embedder.js), the
counter at `i`: the embedding call is outside the inner `try`, an upsert that raises is
logged and the loop goes on. -/
def embedBatches {E : Type} (sv : WebServices E) (sourceUrl : JSString) :
    Nat → List (List JSString) → Except JSString Unit × List (WebCall E)
  | _, [] => (.ok (), [])
  | i, batch :: rest =>
    match sv.embedTexts batch with
    | .error e => (.error e, [.embedTexts batch])
    | .ok embeddings =>
      let vectors := webVectors embeddings sourceUrl i 0 batch
      match sv.upsert vectors with
      | .ok _ =>
        let (result, calls) := embedBatches sv sourceUrl (i + 10) rest
        (result, .embedTexts batch :: .upsert vectors :: calls)
      | .error _ =>
        let (result, calls) := embedBatches sv sourceUrl (i + 10) rest
        (result, .embedTexts batch :: .upsert vectors :: calls)

/-- The `try` block of `embedURL`, after the page was fetched from `url` and its text
extracted. -/
def embedContent {E : Type} (sv : WebServices E) (url : JSString)
    (extracted : Except JSString JSString) : Except JSString Unit × List (WebCall E) :=
  match extracted with
  | .error e => (.error e, [])
  | .ok content =>
    if trim content = [] then (.ok (), [])
    else
      match splitIntoChunks content 1000 with
      | none => (.error (js "Invalid regular expression"), [])
      | some chunks => embedBatches sv url 0 (batches chunks 10)

/-- The function `embedURL(url)` of src/web-embedder.js: whatever its `try` block
raises is caught and logged, and the function returns. -/
def embedURL {E : Type} (sv : WebServices E) (url : JSString) :
    Except JSString Unit × List (WebCall E) :=
  match sv.fetchPage url with
  | .error _ => (.ok (), [.fetchPage url])
  | .ok html =>
    match embedContent sv url (extractTextFromHTML sv html) with
    | (.ok _, calls) => (.ok (), .fetchPage url :: calls)
    | (.error _, calls) => (.ok (), .fetchPage url :: calls)

/-- `s.replace(pattern, replacement)` with a string pattern and a replacement without
`$`: the first occurrence of `pattern` is replaced. -/
def replaceFirst (pattern replacement : JSString) : JSString → JSString
  | [] => if pattern = [] then replacement else []
  | c :: rest =>
    if startsWith (c :: rest) pattern then replacement ++ (c :: rest).drop pattern.length
    else c :: replaceFirst pattern replacement rest

/-- The constant `fixedUrl` of `embedURL` in src/sitemap-embedder.js (line 201). -/
def fixedUrl (url : JSString) : JSString :=
  replaceFirst (js "https://humanoid-book.vercel.app")
    (js "https://humanoid-book-oaf3.vercel.app") url

/-- The function `embedURL(url)` of src/sitemap-embedder.js. -/
def embedURLEmbedder {E : Type} (sv : WebServices E) (url : JSString) :
    Except JSString Unit × List (WebCall E) :=
  match sv.fetchPage (fixedUrl url) with
  | .error _ => (.ok (), [.fetchPage (fixedUrl url)])
  | .ok html =>
    match embedContent sv (fixedUrl url) (extractTextFromHTMLEmbedder sv html) with
    | (.ok _, calls) => (.ok (), .fetchPage (fixedUrl url) :: calls)
    | (.error _, calls) => (.ok (), .fetchPage (fixedUrl url) :: calls)

/-- The function `embedMultipleURLs(urls)` of src/web-embedder.js (the delay between two
URLs is not modelled). -/
def embedMultipleURLs {E : Type} (sv : WebServices E) :
    List JSString → Except JSString Unit × List (WebCall E)
  | [] => (.ok (), [])
  | url :: rest =>
    match embedURL sv url with
    | (.error e, calls) => (.error e, calls)
    | (.ok _, calls) =>
      let (result, more) := embedMultipleURLs sv rest
      (result, calls ++ more)

/-- The loop over `limitedUrls` of `embedSitemapContent`: whatever `embedOne` raises for
a URL is caught and logged, and the loop goes on. -/
def processUrls {E : Type} (embedOne : JSString → Except JSString Unit × List (WebCall E)) :
    List JSString → List (WebCall E)
  | [] => []
  | url :: rest =>
    match embedOne url with
    | (.ok _, calls) => calls ++ processUrls embedOne rest
    | (.error _, calls) => calls ++ processUrls embedOne rest

/-- The function `embedSitemapContent(sitemapUrl, maxUrls)` of src/sitemap-parser.js. -/
def embedSitemapContent {E : Type} (toLowerCase : JSString → JSString)
    (hostname : JSString → Option JSString) (sv : WebServices E) (sitemapUrl : JSString)
    (maxUrls : Nat) : Except JSString Nat × List (WebCall E) :=
  match parseSitemap sv sitemapUrl with
  | (.error e, calls) => (.error e, calls)
  | (.ok urls, calls) =>
    let cleanUrls := filterAndCleanUrls toLowerCase hostname urls sitemapUrl
    let limitedUrls := cleanUrls.take maxUrls
    (.ok limitedUrls.length,
      calls ++ processUrls (fun url => embedMultipleURLs sv [url]) limitedUrls)

/-- The function `embedSitemapContent(sitemapUrl, maxUrls)` of
src/sitemap-embedder.js. -/
def embedSitemapContentEmbedder {E : Type} (toLowerCase : JSString → JSString)
    (sv : WebServices E) (sitemapUrl : JSString) (maxUrls : Nat) :
    Except JSString Nat × List (WebCall E) :=
  match parseSitemap sv sitemapUrl with
  | (.error e, calls) => (.error e, calls)
  | (.ok urls, calls) =>
    let cleanUrls := filterAndCleanUrlsEmbedder toLowerCase urls sitemapUrl
    let limitedUrls := cleanUrls.take maxUrls
    (.ok limitedUrls.length, calls ++ processUrls (embedURLEmbedder sv) limitedUrls)

/-- The URLs of the page fetches among the calls, in order. -/
def fetchedPages {E : Type} : List (WebCall E) → List JSString
  | [] => []
  | .fetchPage url :: rest => url :: fetchedPages rest
  | _ :: rest => fetchedPages rest

/-- Services for instantiating the statements: the sitemap holds `sitemap`, fetching a
page raises for the URLs in `broken`, every page has the text `"ROS 2 is a framework"`,
embedding raises when `embedFails`, and every upsert raises. -/
def exampleWebServices (sitemap : SitemapDocument) (broken : List JSString)
    (embedFails : Bool) : WebServices Nat :=
  { fetchSitemap := fun _ => .ok sitemap,
    fetchPage := fun url => if url ∈ broken then .error (js "404") else .ok (js "<html>"),
    bodyText := fun _ => .ok (js "ROS 2 is a framework"),
    mainText := fun _ => .ok (js "ROS 2 is a framework"),
    embedTexts := fun texts =>
      if embedFails then .error (js "embed failed") else .ok (texts.map (fun _ => 7)),
    upsert := fun _ => .error (js "upsert failed") }

/-- The host name of the example URLs, which are of the form `https://host/path`: the
text between the eighth code unit and the next `/`. -/
def exampleHostname (url : JSString) : Option JSString :=
  if startsWith url (js "https://") then some ((url.drop 8).takeWhile (fun c => c != 47))
  else none

/-! ## Notions used in the statements -/

/-- The code units of `s` that are not whitespace, in order. -/
def nonWhite (s : JSString) : JSString := s.filter (fun c => !isWhiteSpace c)

/-- Loop invariant of both loops of `splitIntoChunks`: every chunk pushed so far and the
trimmed buffer fit the limit, and chunks plus buffer hold the non-whitespace content
`g` read so far. -/
def ChunkInv (L : Nat) (g : JSString) (st : ChunkState) : Prop :=
  (∀ c ∈ st.chunks, c.length ≤ L) ∧ (trim st.currentChunk).length ≤ L ∧
    nonWhite (st.chunks.flatten ++ st.currentChunk) = g

/-! ## Basic facts about trimming and whitespace -/

theorem isWhiteSpace_of_isLineTerminator {c : Nat} (h : isLineTerminator c = true) :
    isWhiteSpace c = true := by
  simp only [isLineTerminator, Bool.or_eq_true, beq_iff_eq] at h
  rcases h with ((h | h) | h) | h <;> subst h <;> decide

theorem trim_append_white (s : JSString) {c : Nat} (h : isWhiteSpace c = true) :
    trim (s ++ [c]) = trim s := by
  unfold trim
  rw [List.rdropWhile_concat_pos _ _ _ h]

theorem trim_append_nn (s : JSString) : trim (s ++ [10, 10]) = trim s := by
  have : s ++ [10, 10] = (s ++ [10]) ++ [10] := by simp
  rw [this, trim_append_white _ (by decide), trim_append_white _ (by decide)]

theorem trim_length_le (s : JSString) : (trim s).length ≤ s.length := by
  unfold trim
  exact le_trans (List.dropWhile_sublist _).length_le (List.rdropWhile_prefix _ _).length_le

theorem nonWhite_append (s t : JSString) : nonWhite (s ++ t) = nonWhite s ++ nonWhite t := by
  simp [nonWhite]

theorem nonWhite_dropWhile (s : JSString) : nonWhite (s.dropWhile isWhiteSpace) = nonWhite s := by
  induction s with
  | nil => rfl
  | cons c s ih =>
    by_cases h : isWhiteSpace c = true
    · simp [List.dropWhile_cons, h, nonWhite] at ih ⊢
      exact ih
    · simp [List.dropWhile_cons, h]

theorem nonWhite_reverse (s : JSString) : nonWhite s.reverse = (nonWhite s).reverse := by
  simp [nonWhite, List.filter_reverse]

theorem nonWhite_trim (s : JSString) : nonWhite (trim s) = nonWhite s := by
  unfold trim
  rw [nonWhite_dropWhile, List.rdropWhile, nonWhite_reverse, nonWhite_dropWhile,
    nonWhite_reverse, List.reverse_reverse]

theorem nonWhite_eq_nil_of_trim {s : JSString} (h : trim s = []) : nonWhite s = [] := by
  rw [← nonWhite_trim, h]; rfl

/-! ## Loops with an invariant -/

/-- A loop whose body never throws from a state satisfying `P` and re-establishes `P`
for the ghost value advanced by `upd`, never throws and ends in a state satisfying
`P` for the fully advanced ghost value. -/
theorem runLoop_ghost {G : Type} (body : ChunkState → JSString → Option ChunkState)
    (P : G → ChunkState → Prop) (upd : G → JSString → G)
    (hbody : ∀ g st x, P g st → ∃ st', body st x = some st' ∧ P (upd g x) st') :
    ∀ (xs : List JSString) (g : G) (st : ChunkState), P g st →
      ∃ st', runLoop body st xs = some st' ∧ P (xs.foldl upd g) st' := by
  intro xs
  induction xs with
  | nil => intro g st h; exact ⟨st, rfl, h⟩
  | cons x xs ih =>
    intro g st h
    obtain ⟨st1, h1, hP1⟩ := hbody g st x h
    obtain ⟨st2, h2, hP2⟩ := ih (upd g x) st1 hP1
    exact ⟨st2, by simp [runLoop, h1, h2], hP2⟩

theorem foldl_nonWhite (xs : List JSString) (g : JSString) :
    xs.foldl (fun acc x => acc ++ nonWhite x) g = g ++ nonWhite xs.flatten := by
  induction xs generalizing g with
  | nil => simp [nonWhite]
  | cons x xs ih => simp [ih, nonWhite_append]

/-! ## The three splitters -/

theorem flatten_consHead (c : Nat) (l : List JSString) :
    (consHead c l).flatten = c :: l.flatten := by
  cases l <;> simp [consHead]

theorem nonWhite_cons_white {c : Nat} (h : isWhiteSpace c = true) (s : JSString) :
    nonWhite (c :: s) = nonWhite s := by
  simp [nonWhite, h]

theorem nonWhite_cons_not_white {c : Nat} (h : ¬ isWhiteSpace c = true) (s : JSString) :
    nonWhite (c :: s) = c :: nonWhite s := by
  simp [nonWhite, h]

theorem nonWhite_cons_congr (c : Nat) {s t : JSString} (h : nonWhite s = nonWhite t) :
    nonWhite (c :: s) = nonWhite (c :: t) := by
  by_cases hc : isWhiteSpace c = true
  · rw [nonWhite_cons_white hc, nonWhite_cons_white hc, h]
  · rw [nonWhite_cons_not_white hc, nonWhite_cons_not_white hc, h]

/-- Splitting into paragraphs loses only whitespace (the separators). -/
theorem nonWhite_splitParagraphs :
    ∀ s : JSString, nonWhite (splitParagraphs s).flatten = nonWhite s
  | [] => rfl
  | [c] => by simp [splitParagraphs]
  | c :: d :: rest => by
    unfold splitParagraphs
    split
    · rename_i h
      obtain ⟨rfl, rfl⟩ := h
      rw [List.flatten_cons, List.nil_append, nonWhite_splitParagraphs rest,
        nonWhite_cons_white (by decide), nonWhite_cons_white (by decide)]
    · rw [flatten_consHead]
      exact nonWhite_cons_congr c (nonWhite_splitParagraphs (d :: rest))

/-- Splitting into sentences loses only whitespace (the separators). -/
theorem nonWhite_splitSentencesAux (s : JSString) :
    ∀ inSep prevEnd : Bool,
      nonWhite (splitSentencesAux inSep prevEnd s).flatten = nonWhite s := by
  induction s with
  | nil => intro _ _; rfl
  | cons c rest ih =>
    intro inSep prevEnd
    unfold splitSentencesAux
    by_cases hc : isWhiteSpace c = true
    · rw [if_pos hc, nonWhite_cons_white hc]
      by_cases h1 : inSep = true
      · rw [if_pos h1]; exact ih _ _
      · rw [if_neg h1]
        by_cases h2 : prevEnd = true
        · rw [if_pos h2, List.flatten_cons, List.nil_append]; exact ih _ _
        · rw [if_neg h2, flatten_consHead, nonWhite_cons_white hc]; exact ih _ _
    · rw [if_neg hc, flatten_consHead, nonWhite_cons_not_white hc,
        nonWhite_cons_not_white hc, ih]

theorem nonWhite_splitSentences (s : JSString) :
    nonWhite (splitSentences s).flatten = nonWhite s :=
  nonWhite_splitSentencesAux s false false

/-- The hard cut keeps every code unit except the line terminators. -/
theorem flatten_matchPartsAux (L : Nat) (s : JSString) :
    ∀ cur : JSString, (matchPartsAux L cur s).flatten =
      cur ++ s.filter (fun c => !isLineTerminator c) := by
  induction s with
  | nil => intro cur; by_cases h : cur = [] <;> simp [matchPartsAux, h]
  | cons c rest ih =>
    intro cur
    unfold matchPartsAux
    by_cases hc : isLineTerminator c = true
    · rw [if_pos hc, List.flatten_append, ih]
      by_cases h : cur = [] <;> simp [h, hc]
    · rw [if_neg hc]
      by_cases hlen : cur.length + 1 = L
      · rw [if_pos hlen, List.flatten_cons, ih]; simp [hc]
      · rw [if_neg hlen, ih]; simp [hc]

theorem nonWhite_filter_lineTerminator (s : JSString) :
    nonWhite (s.filter (fun c => !isLineTerminator c)) = nonWhite s := by
  induction s with
  | nil => rfl
  | cons c s ih =>
    by_cases hc : isLineTerminator c = true
    · rw [List.filter_cons_of_neg (by simp [hc]), ih,
        nonWhite_cons_white (isWhiteSpace_of_isLineTerminator hc)]
    · rw [List.filter_cons_of_pos (by simp [hc])]
      exact nonWhite_cons_congr c ih

/-- Every part of the hard cut has at most `L` code units. -/
theorem length_le_of_mem_matchPartsAux (L : Nat) (s : JSString) :
    ∀ cur : JSString, cur.length < L → ∀ p ∈ matchPartsAux L cur s, p.length ≤ L := by
  induction s with
  | nil =>
    intro cur hcur p hp
    by_cases h : cur = [] <;> simp [matchPartsAux, h] at hp
    subst hp; omega
  | cons c rest ih =>
    intro cur hcur p hp
    have hL : 0 < L := by omega
    unfold matchPartsAux at hp
    by_cases hc : isLineTerminator c = true
    · rw [if_pos hc, List.mem_append] at hp
      rcases hp with hp | hp
      · by_cases h : cur = [] <;> simp [h] at hp
        subst hp; omega
      · exact ih [] (by simpa using hL) p hp
    · rw [if_neg hc] at hp
      by_cases hlen : cur.length + 1 = L
      · rw [if_pos hlen, List.mem_cons] at hp
        rcases hp with hp | hp
        · subst hp; simp; omega
        · exact ih [] (by simpa using hL) p hp
      · rw [if_neg hlen] at hp
        exact ih (cur ++ [c]) (by simp; omega) p hp

theorem flatten_dropLast_append_getLast (parts : List JSString) :
    parts.dropLast.flatten ++ parts.getLast?.getD [] = parts.flatten := by
  induction parts with
  | nil => rfl
  | cons p ps ih =>
    cases ps with
    | nil => simp
    | cons q qs =>
      rw [List.dropLast_cons₂, List.getLast?_cons_cons, List.flatten_cons, List.append_assoc,
        ih]
      simp

/-! ## The invariant of the chunker -/

theorem pushTrimmed_of_inv {L : Nat} {g : JSString} {st : ChunkState}
    (h : ChunkInv L g st) :
    (∀ c ∈ pushTrimmed st, c.length ≤ L) ∧ nonWhite (pushTrimmed st).flatten = g := by
  obtain ⟨h1, h2, h3⟩ := h
  rw [nonWhite_append] at h3
  unfold pushTrimmed
  by_cases ht : trim st.currentChunk = []
  · rw [if_neg (by simpa using ht)]
    refine ⟨h1, ?_⟩
    rw [← h3, nonWhite_eq_nil_of_trim ht, List.append_nil]
  · rw [if_pos ht]
    refine ⟨?_, ?_⟩
    · intro c hc
      rcases List.mem_append.1 hc with hc | hc
      · exact h1 c hc
      · rw [List.mem_singleton.1 hc]; exact h2
    · rw [List.flatten_append, nonWhite_append, ← h3]
      simp [nonWhite_trim]

theorem sentenceStep_inv {L : Nat} (hL : 1 ≤ L) (g : JSString) (st : ChunkState)
    (x : JSString) (h : ChunkInv L g st) :
    ∃ st', sentenceStep L st x = some st' ∧ ChunkInv L (g ++ nonWhite x) st' := by
  have hpush := pushTrimmed_of_inv h
  obtain ⟨h1, h2, h3⟩ := h
  unfold sentenceStep
  by_cases hfit : st.currentChunk.length + x.length ≤ L
  · rw [if_pos hfit]
    refine ⟨_, rfl, h1, ?_, ?_⟩
    · show (trim (st.currentChunk ++ x ++ [32])).length ≤ L
      rw [trim_append_white _ (by decide)]
      exact le_trans (trim_length_le _) (by simpa using hfit)
    · show nonWhite (st.chunks.flatten ++ (st.currentChunk ++ x ++ [32])) = g ++ nonWhite x
      rw [← h3]
      simp [nonWhite_append, nonWhite_cons_white (show isWhiteSpace 32 = true by decide)]
      rfl
  · rw [if_neg hfit]
    by_cases hlong : (x ++ [32]).length > L
    · have hparts : matchParts L (x ++ [32]) = some (matchPartsAux L [] (x ++ [32])) := by
        unfold matchParts
        rw [if_neg (by omega)]
      simp only [hlong, if_true, hparts]
      refine ⟨_, rfl, ?_, ?_, ?_⟩
      · intro c hc
        rcases List.mem_append.1 hc with hc | hc
        · exact hpush.1 c hc
        · exact length_le_of_mem_matchPartsAux L _ [] (by simpa using hL) c
            (List.mem_of_mem_dropLast hc)
      · refine le_trans (trim_length_le _) ?_
        cases hlast : (matchPartsAux L [] (x ++ [32])).getLast? with
        | none => simp
        | some p =>
          exact length_le_of_mem_matchPartsAux L _ [] (by simpa using hL) p
            (List.mem_of_getLast?_eq_some hlast)
      · show nonWhite ((pushTrimmed st ++ (matchPartsAux L [] (x ++ [32])).dropLast).flatten
          ++ (matchPartsAux L [] (x ++ [32])).getLast?.getD []) = g ++ nonWhite x
        rw [List.flatten_append, List.append_assoc, flatten_dropLast_append_getLast,
          flatten_matchPartsAux, nonWhite_append, hpush.2, List.nil_append,
          nonWhite_filter_lineTerminator, nonWhite_append]
        simp [nonWhite_cons_white (show isWhiteSpace 32 = true by decide)]
        rfl
    · simp only [hlong, if_false]
      refine ⟨_, rfl, hpush.1, ?_, ?_⟩
      · exact le_trans (trim_length_le _) (not_lt.1 hlong)
      · show nonWhite ((pushTrimmed st).flatten ++ (x ++ [32])) = g ++ nonWhite x
        rw [nonWhite_append, hpush.2, nonWhite_append]
        simp [nonWhite_cons_white (show isWhiteSpace 32 = true by decide)]
        rfl

theorem paragraphStep_inv {L : Nat} (hL : 1 ≤ L) (g : JSString) (st : ChunkState)
    (x : JSString) (h : ChunkInv L g st) :
    ∃ st', paragraphStep L st x = some st' ∧ ChunkInv L (g ++ nonWhite x) st' := by
  have hpush := pushTrimmed_of_inv h
  obtain ⟨h1, h2, h3⟩ := h
  have hnn : nonWhite (x ++ [10, 10]) = nonWhite x := by
    rw [nonWhite_append]
    simp [nonWhite_cons_white (show isWhiteSpace 10 = true by decide)]
    rfl
  unfold paragraphStep
  by_cases hfit : st.currentChunk.length + x.length ≤ L
  · rw [if_pos hfit]
    refine ⟨_, rfl, h1, ?_, ?_⟩
    · show (trim (st.currentChunk ++ x ++ [10, 10])).length ≤ L
      rw [trim_append_nn]
      exact le_trans (trim_length_le _) (by simpa using hfit)
    · show nonWhite (st.chunks.flatten ++ (st.currentChunk ++ x ++ [10, 10])) =
        g ++ nonWhite x
      rw [← h3, List.append_assoc, ← List.append_assoc, nonWhite_append, hnn]
  · rw [if_neg hfit]
    by_cases hlong : (x ++ [10, 10]).length > L
    · simp only [hlong, if_true]
      have hinit : ChunkInv L g { chunks := pushTrimmed st, currentChunk := [] } :=
        ⟨hpush.1, by simp [trim], by simpa using hpush.2⟩
      obtain ⟨st', hrun, hinv⟩ := runLoop_ghost (sentenceStep L) (ChunkInv L)
        (fun acc s => acc ++ nonWhite s) (fun g st x h => sentenceStep_inv hL g st x h)
        (splitSentences (x ++ [10, 10])) g _ hinit
      refine ⟨st', hrun, ?_⟩
      rw [foldl_nonWhite, nonWhite_splitSentences, hnn] at hinv
      exact hinv
    · simp only [hlong, if_false]
      refine ⟨_, rfl, hpush.1, ?_, ?_⟩
      · exact le_trans (trim_length_le _) (not_lt.1 hlong)
      · show nonWhite ((pushTrimmed st).flatten ++ (x ++ [10, 10])) = g ++ nonWhite x
        rw [nonWhite_append, hpush.2, hnn]

/-- For a limit of at least 1 the chunker returns, every chunk fits the limit, and the
chunks hold the non-whitespace content of the input in order. -/
theorem splitIntoChunks_sound (s : JSString) {L : Nat} (hL : 1 ≤ L) :
    ∃ cs, splitIntoChunks s L = some cs ∧ (∀ c ∈ cs, c.length ≤ L) ∧
      nonWhite cs.flatten = nonWhite s := by
  have hinit : ChunkInv L [] { chunks := [], currentChunk := [] } :=
    ⟨by simp, by simp [trim], rfl⟩
  obtain ⟨st', hrun, hinv⟩ := runLoop_ghost (paragraphStep L) (ChunkInv L)
    (fun acc s => acc ++ nonWhite s) (fun g st x h => paragraphStep_inv hL g st x h)
    (splitParagraphs s) [] _ hinit
  rw [foldl_nonWhite, nonWhite_splitParagraphs, List.nil_append] at hinv
  refine ⟨pushTrimmed st', ?_, pushTrimmed_of_inv hinv⟩
  unfold splitIntoChunks
  rw [hrun]

/-! ## Content that fits the limit -/

theorem splitParagraphs_ne_nil : ∀ s : JSString, splitParagraphs s ≠ []
  | [] => by simp [splitParagraphs]
  | [c] => by simp [splitParagraphs]
  | c :: d :: rest => by
    unfold splitParagraphs
    split
    · simp
    · cases h : splitParagraphs (d :: rest) <;> simp [consHead]

/-- Re-joining the paragraphs, each followed by the separator, gives the content
followed by one separator. -/
theorem flatten_map_splitParagraphs :
    ∀ s : JSString,
      ((splitParagraphs s).map (fun p => p ++ [10, 10])).flatten = s ++ [10, 10]
  | [] => rfl
  | [c] => rfl
  | c :: d :: rest => by
    unfold splitParagraphs
    split
    · rename_i h
      obtain ⟨rfl, rfl⟩ := h
      rw [List.map_cons, List.flatten_cons, flatten_map_splitParagraphs rest]
      rfl
    · have ih := flatten_map_splitParagraphs (d :: rest)
      cases h : splitParagraphs (d :: rest) with
      | nil => exact absurd h (splitParagraphs_ne_nil _)
      | cons p ps =>
        rw [h] at ih
        simp only [consHead, List.map_cons, List.flatten_cons, List.cons_append] at ih ⊢
        rw [ih]

/-- While everything fits, the paragraph loop only appends to the buffer. -/
theorem runLoop_paragraphStep_fit (L : Nat) (chunks : List JSString) :
    ∀ (ps : List JSString) (cur : JSString),
      cur.length + (ps.map (fun p => p ++ [10, 10])).flatten.length ≤ L + 2 →
      runLoop (paragraphStep L) { chunks := chunks, currentChunk := cur } ps =
        some { chunks := chunks,
               currentChunk := cur ++ (ps.map (fun p => p ++ [10, 10])).flatten } := by
  intro ps
  induction ps with
  | nil => intro cur _; simp [runLoop]
  | cons p ps ih =>
    intro cur h
    simp only [List.map_cons, List.flatten_cons, List.length_append, List.length_cons,
      List.length_nil] at h
    have hfit : cur.length + p.length ≤ L := by omega
    have hstep : paragraphStep L { chunks := chunks, currentChunk := cur } p =
        some { chunks := chunks, currentChunk := cur ++ p ++ [10, 10] } := by
      unfold paragraphStep
      rw [if_pos hfit]
    unfold runLoop
    rw [hstep]
    simp only
    rw [ih (cur ++ p ++ [10, 10])
      (by simp only [List.length_append, List.length_cons, List.length_nil]; omega)]
    simp

theorem trim_eq_nil_iff (s : JSString) : trim s = [] ↔ ∀ c ∈ s, isWhiteSpace c = true := by
  constructor
  · intro h c hc
    have h2 := nonWhite_eq_nil_of_trim h
    by_contra hne
    have : c ∈ nonWhite s := by
      unfold nonWhite
      exact List.mem_filter.2 ⟨hc, by simpa using hne⟩
    rw [h2] at this
    exact absurd this (List.not_mem_nil c)
  · intro h
    unfold trim
    rw [List.rdropWhile_eq_nil_iff.2 h]
    rfl

/-- Content no longer than the limit is never split: the result is its trimmed text,
or nothing when that is empty. -/
theorem splitIntoChunks_of_length_le (s : JSString) (L : Nat) (h : s.length ≤ L) :
    splitIntoChunks s L = some (if trim s ≠ [] then [trim s] else []) := by
  unfold splitIntoChunks
  rw [runLoop_paragraphStep_fit L [] (splitParagraphs s) []
    (by rw [flatten_map_splitParagraphs]; simp; omega), flatten_map_splitParagraphs]
  simp only [pushTrimmed, List.nil_append, trim_append_nn]

/-! ## The hard cut of a run of one letter -/

theorem splitParagraphs_of_no_lf :
    ∀ s : JSString, (∀ c ∈ s, c ≠ 10) → splitParagraphs s = [s]
  | [], _ => rfl
  | [c], _ => rfl
  | c :: d :: rest, h => by
    unfold splitParagraphs
    have hc : c ≠ 10 := h c (by simp)
    rw [if_neg (fun hcd => hc hcd.1),
      splitParagraphs_of_no_lf (d :: rest) (fun x hx => h x (List.mem_cons_of_mem _ hx))]
    rfl

theorem splitSentencesAux_of_no_end (s : JSString) (h : ∀ c ∈ s, isSentenceEnd c = false) :
    splitSentencesAux false false s = [s] := by
  induction s with
  | nil => rfl
  | cons c rest ih =>
    have hrest := ih (fun x hx => h x (List.mem_cons_of_mem _ hx))
    have hc : isSentenceEnd c = false := h c (by simp)
    unfold splitSentencesAux
    by_cases hw : isWhiteSpace c = true
    · rw [if_pos hw]
      simp only [Bool.false_eq_true, if_false]
      rw [hrest]; rfl
    · rw [if_neg hw, hc, hrest]; rfl

/-- A block without line terminators that does not fill the match in progress is
absorbed into it. -/
theorem matchPartsAux_append_lt (L : Nat) (rest : JSString) :
    ∀ (w cur : JSString), (∀ c ∈ w, isLineTerminator c = false) →
      cur.length + w.length < L →
      matchPartsAux L cur (w ++ rest) = matchPartsAux L (cur ++ w) rest := by
  intro w
  induction w with
  | nil => intro cur _ _; simp
  | cons c w ih =>
    intro cur hw hlen
    simp only [List.length_cons] at hlen
    have hc : isLineTerminator c = false := hw c (by simp)
    rw [List.cons_append, matchPartsAux, hc]
    simp only [Bool.false_eq_true, if_false]
    rw [if_neg (by omega), ih (cur ++ [c]) (fun x hx => hw x (List.mem_cons_of_mem _ hx))
      (by simp only [List.length_append, List.length_cons, List.length_nil]; omega)]
    simp

/-- A non-empty block without line terminators that exactly fills the match in
progress completes one part. -/
theorem matchPartsAux_append_eq (L : Nat) (rest : JSString) :
    ∀ (w cur : JSString), (∀ c ∈ w, isLineTerminator c = false) → w ≠ [] →
      cur.length + w.length = L →
      matchPartsAux L cur (w ++ rest) = (cur ++ w) :: matchPartsAux L [] rest := by
  intro w
  induction w with
  | nil => intro cur _ h _; exact absurd rfl h
  | cons c w ih =>
    intro cur hw _ hlen
    simp only [List.length_cons] at hlen
    have hc : isLineTerminator c = false := hw c (by simp)
    rw [List.cons_append, matchPartsAux, hc]
    simp only [Bool.false_eq_true, if_false]
    by_cases hfull : cur.length + 1 = L
    · have hw0 : w = [] := List.length_eq_zero.1 (by omega)
      subst hw0
      rw [if_pos hfull]; rfl
    · have hwne : w ≠ [] := by
        intro h0; subst h0; simp at hlen; omega
      rw [if_neg hfull, ih (cur ++ [c]) (fun x hx => hw x (List.mem_cons_of_mem _ hx)) hwne
        (by simp only [List.length_append, List.length_cons, List.length_nil]; omega)]
      simp

/-- The hard cut of `q * L` copies of a letter followed by `rest`: `q` full parts, then
the cut of `rest`. -/
theorem matchPartsAux_replicate_mul {L : Nat} (hL : 1 ≤ L) {a : Nat}
    (ha : isLineTerminator a = false) (rest : JSString) :
    ∀ q : Nat, matchPartsAux L [] (List.replicate (q * L) a ++ rest) =
      List.replicate q (List.replicate L a) ++ matchPartsAux L [] rest := by
  intro q
  induction q with
  | zero => simp
  | succ q ih =>
    have hsplit : List.replicate ((q + 1) * L) a =
        List.replicate L a ++ List.replicate (q * L) a := by
      rw [← List.replicate_add]; congr 1; ring
    rw [hsplit, List.append_assoc,
      matchPartsAux_append_eq L _ (List.replicate L a) []
        (fun c hc => by rw [List.eq_of_mem_replicate hc]; exact ha)
        (by intro h0; have := congrArg List.length h0; simp at this; omega)
        (by simp),
      ih, List.nil_append, List.replicate_succ, List.cons_append]

/-- The parts of `"a".repeat(n) + "\n\n" + " "`: full parts, the remainder if any, and
the final blank. -/
theorem matchPartsAux_letters {L : Nat} (hL : 1 ≤ L) (n : Nat) :
    matchPartsAux L [] (List.replicate n 97 ++ [10, 10] ++ [32]) =
      (List.replicate (n / L) (List.replicate L 97) ++
        if n % L = 0 then [] else [List.replicate (n % L) 97]) ++ [[32]] := by
  have ha : isLineTerminator 97 = false := by decide
  have hn : List.replicate n 97 = List.replicate (n / L * L) 97 ++ List.replicate (n % L) 97 := by
    rw [← List.replicate_add, Nat.div_add_mod']
  have hr : n % L < L := Nat.mod_lt _ (by omega)
  have htail : matchPartsAux L [] [10, 32] = [[32]] := by
    by_cases h1 : L = 1
    · subst h1; rfl
    · simp [matchPartsAux, isLineTerminator, h1]
  rw [hn, List.append_assoc, List.append_assoc, matchPartsAux_replicate_mul hL ha,
    show List.replicate (n % L) 97 ++ ([10, 10] ++ [32]) =
      List.replicate (n % L) 97 ++ (10 :: [10, 32]) from rfl,
    matchPartsAux_append_lt L _ (List.replicate (n % L) 97) []
      (fun c hc => by rw [List.eq_of_mem_replicate hc]; exact ha) (by simpa using hr),
    List.nil_append, matchPartsAux, if_pos (by decide), htail, List.append_assoc]
  by_cases h0 : n % L = 0
  · simp [h0]
  · simp [h0]

theorem trim_of_no_white (s : JSString) (h : ∀ c ∈ s, isWhiteSpace c = false) :
    trim s = s := by
  have hdrop : ∀ l : JSString, (∀ c ∈ l, isWhiteSpace c = false) →
      l.dropWhile isWhiteSpace = l := by
    intro l hl
    cases l with
    | nil => rfl
    | cons c l => simp [List.dropWhile_cons, hl c (by simp)]
  unfold trim
  rw [List.rdropWhile, hdrop s.reverse (fun c hc => h c (List.mem_reverse.1 hc)),
    List.reverse_reverse, hdrop s h]

/-- The result of the chunker on `n ≥ 1` copies of the letter `a`, in closed form:
`n / L` full slices and the remainder, if any. -/
theorem splitIntoChunks_letters (n L : Nat) (hn : 1 ≤ n) (hL : 1 ≤ L) :
    splitIntoChunks (List.replicate n 97) L =
      some (List.replicate (n / L) (List.replicate L 97) ++
        if n % L = 0 then [] else [List.replicate (n % L) 97]) := by
  by_cases hfit : n ≤ L
  · rw [splitIntoChunks_of_length_le _ _ (by simpa using hfit),
      trim_of_no_white _ (fun c hc => by rw [List.eq_of_mem_replicate hc]; decide)]
    have hne : List.replicate n 97 ≠ [] := by
      intro h0; have := congrArg List.length h0; simp at this; omega
    rw [if_pos hne]
    rcases Nat.lt_or_eq_of_le hfit with hlt | heq
    · rw [Nat.div_eq_of_lt hlt, Nat.mod_eq_of_lt hlt, if_neg (by omega)]
      rfl
    · subst heq
      rw [Nat.div_self (by omega), Nat.mod_self, if_pos rfl]
      rfl
  · have hpar : splitParagraphs (List.replicate n 97) = [List.replicate n 97] :=
      splitParagraphs_of_no_lf _ (fun c hc => by rw [List.eq_of_mem_replicate hc]; decide)
    have hsen : splitSentences (List.replicate n 97 ++ [10, 10]) =
        [List.replicate n 97 ++ [10, 10]] := by
      apply splitSentencesAux_of_no_end
      intro c hc
      rcases List.mem_append.1 hc with hc | hc
      · rw [List.eq_of_mem_replicate hc]; decide
      · simp at hc; subst hc; decide
    have hempty : pushTrimmed { chunks := [], currentChunk := [] } = [] := rfl
    have hstep : sentenceStep L { chunks := [], currentChunk := [] }
        (List.replicate n 97 ++ [10, 10]) =
        some { chunks := List.replicate (n / L) (List.replicate L 97) ++
                 (if n % L = 0 then [] else [List.replicate (n % L) 97]),
               currentChunk := [32] } := by
      unfold sentenceStep
      rw [if_neg (by simp; omega)]
      simp only [hempty]
      rw [if_pos (by simp; omega)]
      unfold matchParts
      rw [if_neg (by omega), matchPartsAux_letters hL]
      simp
    have hpstep : paragraphStep L { chunks := [], currentChunk := [] }
        (List.replicate n 97) =
        some { chunks := List.replicate (n / L) (List.replicate L 97) ++
                 (if n % L = 0 then [] else [List.replicate (n % L) 97]),
               currentChunk := [32] } := by
      unfold paragraphStep
      rw [if_neg (by simp; omega)]
      simp only [hempty]
      rw [if_pos (by simp; omega), hsen]
      unfold runLoop
      rw [hstep]
      rfl
    unfold splitIntoChunks
    rw [hpar]
    unfold runLoop
    rw [hpstep]
    simp only [runLoop]
    have htrim : trim [32] = [] := by decide
    simp [pushTrimmed, htrim]

theorem ceil_div_eq (n L : Nat) (hL : 1 ≤ L) :
    (n + L - 1) / L = n / L + if n % L = 0 then 0 else 1 := by
  have hr : n % L < L := Nat.mod_lt _ (by omega)
  have hsplit : n + L - 1 = L * (n / L) + (n % L + L - 1) := by
    have := Nat.div_add_mod n L
    omega
  rw [hsplit, Nat.mul_add_div (by omega)]
  by_cases h0 : n % L = 0
  · rw [if_pos h0, h0, Nat.div_eq_of_lt (show 0 + L - 1 < L by omega)]
  · rw [if_neg h0]
    congr 1
    exact Nat.div_eq_of_lt_le (by omega) (by omega)

theorem flatten_replicate_replicate (q L a : Nat) :
    (List.replicate q (List.replicate L a)).flatten = List.replicate (q * L) a := by
  induction q with
  | zero => simp
  | succ q ih =>
    rw [List.replicate_succ, List.flatten_cons, ih, ← List.replicate_add]
    congr 1; ring

/-! ## The claims about the chunker -/

/-- C1: for every string `s` and every limit `L ≥ 1`, `splitIntoChunks(s, L)` returns and
every chunk it returns has at most `L` code units, the hard-cut slices included. -/
theorem splitIntoChunks_chunk_length_le (s : JSString) (L : Nat) (hL : 1 ≤ L) :
    ∃ cs, splitIntoChunks s L = some cs ∧ ∀ c ∈ cs, c.length ≤ L := by
  obtain ⟨cs, h1, h2, _⟩ := splitIntoChunks_sound s hL
  exact ⟨cs, h1, h2⟩

/-- C1 at the input `"aaaa bbbbbbb. cc"` with limit 3. -/
theorem splitIntoChunks_chunk_length_le_witness :
    1 ≤ 3 ∧ ∃ cs, splitIntoChunks (js "aaaa bbbbbbb. cc") 3 = some cs ∧
      ∀ c ∈ cs, c.length ≤ 3 :=
  ⟨by decide, splitIntoChunks_chunk_length_le (js "aaaa bbbbbbb. cc") 3 (by decide)⟩

/-- C2: for every string `s` and every limit `L ≥ 1`, `splitIntoChunks(s, L)` returns,
and deleting the whitespace from the concatenation of its chunks in output order gives
`s` with its whitespace deleted: no other code unit is lost, duplicated or reordered. -/
theorem splitIntoChunks_preserves_nonWhite (s : JSString) (L : Nat) (hL : 1 ≤ L) :
    ∃ cs, splitIntoChunks s L = some cs ∧ nonWhite cs.flatten = nonWhite s := by
  obtain ⟨cs, h1, _, h3⟩ := splitIntoChunks_sound s hL
  exact ⟨cs, h1, h3⟩

/-- C2 at the input `"ab. cd\n\nefghij k"` with limit 4. -/
theorem splitIntoChunks_preserves_nonWhite_witness :
    1 ≤ 4 ∧ ∃ cs, splitIntoChunks (js "ab. cd\n\nefghij k") 4 = some cs ∧
      nonWhite cs.flatten = nonWhite (js "ab. cd\n\nefghij k") :=
  ⟨by decide, splitIntoChunks_preserves_nonWhite (js "ab. cd\n\nefghij k") 4 (by decide)⟩

/-- C6: when `length(s) ≤ L`, `splitIntoChunks(s, L)` is `[trim(s)]` if `s` has a
non-whitespace code unit and `[]` otherwise; in particular `splitIntoChunks("", L) = []`
for every `L ≥ 0`. -/
theorem splitIntoChunks_fits :
    (∀ (s : JSString) (L : Nat), s.length ≤ L →
      ((∃ c ∈ s, isWhiteSpace c = false) → splitIntoChunks s L = some [trim s]) ∧
      ((∀ c ∈ s, isWhiteSpace c = true) → splitIntoChunks s L = some [])) ∧
    (∀ L : Nat, splitIntoChunks [] L = some []) := by
  refine ⟨fun s L h => ⟨?_, ?_⟩, fun L => ?_⟩
  · rintro ⟨c, hc, hw⟩
    have hne : trim s ≠ [] := by
      intro h0
      have := (trim_eq_nil_iff s).1 h0 c hc
      rw [hw] at this
      exact absurd this (by decide)
    rw [splitIntoChunks_of_length_le s L h, if_pos hne]
  · intro hall
    rw [splitIntoChunks_of_length_le s L h, if_neg (by simpa using (trim_eq_nil_iff s).2 hall)]
  · rw [splitIntoChunks_of_length_le [] L (by simp)]
    rfl

/-- C6 at the inputs `" ab\n\nc "` (limit 10) and `" \n "` (limit 3). -/
theorem splitIntoChunks_fits_witness :
    ((js " ab\n\nc ").length ≤ 10 ∧ (∃ c ∈ js " ab\n\nc ", isWhiteSpace c = false) ∧
      splitIntoChunks (js " ab\n\nc ") 10 = some [js "ab\n\nc"]) ∧
    ((js " \n ").length ≤ 3 ∧ (∀ c ∈ js " \n ", isWhiteSpace c = true) ∧
      splitIntoChunks (js " \n ") 3 = some []) :=
  ⟨⟨by decide, by decide,
      (splitIntoChunks_fits.1 (js " ab\n\nc ") 10 (by decide)).1 (by decide)⟩,
    ⟨by decide, by decide,
      (splitIntoChunks_fits.1 (js " \n ") 3 (by decide)).2 (by decide)⟩⟩

/-- C7 fails on the code: the three blanks `"   "` are whitespace only, yet with limit 2
`splitIntoChunks` returns the two chunks `"  "` and `" "`, because the hard cut pushes
its parts without the trimmed-and-non-empty test of the other pushes. -/
theorem splitIntoChunks_blanks_not_empty :
    (∀ c ∈ js "   ", isWhiteSpace c = true) ∧
      splitIntoChunks (js "   ") 2 = some [js "  ", js " "] := by
  decide

/-- C8: for `n ≥ 1` and `L ≥ 1`, `splitIntoChunks` on `n` copies of the letter `a`
returns exactly `⌈n / L⌉` chunks, each of at most `L` code units, whose concatenation
is the input; for `n = 5000` and `L = 1000` these are 5 chunks of 1000 letters. -/
theorem splitIntoChunks_letters_chunks :
    (∀ n L : Nat, 1 ≤ n → 1 ≤ L →
      ∃ cs, splitIntoChunks (List.replicate n 97) L = some cs ∧
        cs.length = (n + L - 1) / L ∧ (∀ c ∈ cs, c.length ≤ L) ∧
        cs.flatten = List.replicate n 97) ∧
    splitIntoChunks (List.replicate 5000 97) 1000 =
      some (List.replicate 5 (List.replicate 1000 97)) := by
  refine ⟨fun n L hn hL => ⟨_, splitIntoChunks_letters n L hn hL, ?_, ?_, ?_⟩, ?_⟩
  · rw [ceil_div_eq n L hL]
    by_cases h0 : n % L = 0 <;> simp [h0]
  · intro c hc
    rcases List.mem_append.1 hc with hc | hc
    · rw [List.eq_of_mem_replicate hc]; simp
    · by_cases h0 : n % L = 0
      · simp [h0] at hc
      · simp [h0] at hc
        subst hc
        simpa using (Nat.mod_lt n (by omega : L > 0)).le
  · rw [List.flatten_append, flatten_replicate_replicate]
    by_cases h0 : n % L = 0
    · simp only [h0, if_true, List.flatten_nil, List.append_nil]
      congr 1
      have := Nat.div_add_mod' n L
      omega
    · simp only [h0, if_false, List.flatten_cons, List.flatten_nil, List.append_nil]
      rw [← List.replicate_add, Nat.div_add_mod']
  · rw [splitIntoChunks_letters 5000 1000 (by decide) (by decide)]
    rfl

/-- C8 at `n = 7`, `L = 3`: three chunks. -/
theorem splitIntoChunks_letters_chunks_witness :
    1 ≤ 7 ∧ 1 ≤ 3 ∧ ∃ cs, splitIntoChunks (List.replicate 7 97) 3 = some cs ∧
      cs.length = (7 + 3 - 1) / 3 ∧ (∀ c ∈ cs, c.length ≤ 3) ∧
      cs.flatten = List.replicate 7 97 :=
  ⟨by decide, by decide, splitIntoChunks_letters_chunks.1 7 3 (by decide) (by decide)⟩

/-- C9 fails on the code: in `"x\n\na. b"` the paragraph `"a. b"` has 4 code units,
within the limit 5, yet it is split at its sentence boundary into the chunks `"a."` and
`"b"`; no chunk contains it. The test for the sentence level is made on the paragraph
with the two-code-unit separator appended. -/
theorem splitIntoChunks_short_paragraph_split :
    splitParagraphs (js "x\n\na. b") = [js "x", js "a. b"] ∧ (js "a. b").length ≤ 5 ∧
      splitIntoChunks (js "x\n\na. b") 5 = some [js "x", js "a.", js "b"] ∧
      ∀ c ∈ [js "x", js "a.", js "b"], ¬ (trim (js "a. b") <:+: c) := by
  decide

/-- C10 fails on the code: `"a\nbcd"` has no blank line and no sentence boundary and is
longer than the limit 3, yet its first chunk `"a"` has one code unit, not 3: the hard
cut's `.` does not match the line feed, which ends the slice and is dropped. -/
theorem splitIntoChunks_hard_cut_line_feed :
    splitParagraphs (js "a\nbcd") = [js "a\nbcd"] ∧
      splitSentences (js "a\nbcd" ++ [10, 10]) = [js "a\nbcd" ++ [10, 10]] ∧
      3 < (js "a\nbcd").length ∧
      splitIntoChunks (js "a\nbcd") 3 = some [js "a", js "bcd"] := by
  decide

/-! ## Facts about the ranking helpers -/

theorem startsWith_iff : ∀ s term : JSString, startsWith s term = true ↔ term <+: s
  | _, [] => by simp [startsWith]
  | [], d :: term => by simp [startsWith]
  | c :: s, d :: term => by
    rw [startsWith, Bool.and_eq_true, beq_iff_eq, startsWith_iff s term,
      List.cons_prefix_cons]
    exact ⟨fun h => ⟨h.1.symm, h.2⟩, fun h => ⟨h.1.symm, h.2⟩⟩

theorem includes_iff : ∀ s term : JSString, includes s term = true ↔ term <:+: s
  | [], term => by
    rw [includes, startsWith_iff, List.prefix_nil, List.infix_nil]
  | c :: s, term => by
    rw [includes, Bool.or_eq_true, startsWith_iff, includes_iff s term, List.infix_cons_iff]

theorem includes_nil_of_ne_nil {term : JSString} (h : term ≠ []) :
    includes [] term = false := by
  cases term with
  | nil => exact absurd rfl h
  | cons d term => rfl

theorem includes_lowerOrEmpty (toLowerCase : JSString → JSString)
    (hlower : toLowerCase [] = []) (field : Option JSString) {term : JSString}
    (h : term ≠ []) :
    includes (lowerOrEmpty toLowerCase field) term = true ↔
      ∃ m ∈ field, term <:+: toLowerCase m := by
  cases field with
  | none => simp [lowerOrEmpty, truthy, includes_nil_of_ne_nil h]
  | some m =>
    cases m with
    | nil => simp [lowerOrEmpty, truthy, includes_nil_of_ne_nil h, hlower, h]
    | cons c m => simp [lowerOrEmpty, truthy, includes_iff]

theorem andIncludes_iff (toLowerCase : JSString → JSString)
    (hlower : toLowerCase [] = []) (field : Option JSString) {term : JSString}
    (h : term ≠ []) :
    andIncludes toLowerCase field term = true ↔ ∃ m ∈ field, term <:+: toLowerCase m := by
  cases field with
  | none => simp [andIncludes, truthy]
  | some m =>
    cases m with
    | nil => simp [andIncludes, truthy, hlower, h]
    | cons c m => simp [andIncludes, truthy, includes_iff]

theorem length_of_mem_queryTerms {toLowerCase : JSString → JSString} {query term : JSString}
    (h : term ∈ queryTerms toLowerCase query) : 2 < term.length := by
  unfold queryTerms at h
  simpa using (List.mem_filter.1 h).2

theorem ne_nil_of_mem_queryTerms {toLowerCase : JSString → JSString} {query term : JSString}
    (h : term ∈ queryTerms toLowerCase query) : term ≠ [] := by
  intro h0
  have := length_of_mem_queryTerms h
  rw [h0] at this
  simp at this

/-- The filter's condition on a term is the specification's `TermOccurs`. -/
theorem filterCondition_iff (toLowerCase : JSString → JSString)
    (hlower : toLowerCase [] = []) (pl : Payload) (content : JSString)
    (hc : pl.content = some content) {term : JSString} (h : term ≠ []) :
    (includes (toLowerCase content) term || includes (lowerOrEmpty toLowerCase pl.module) term
      || includes (lowerOrEmpty toLowerCase pl.source) term) = true ↔
      TermOccurs toLowerCase pl term := by
  unfold TermOccurs
  rw [Bool.or_eq_true, Bool.or_eq_true, includes_iff,
    includes_lowerOrEmpty toLowerCase hlower _ h, includes_lowerOrEmpty toLowerCase hlower _ h,
    hc, or_assoc]
  simp

/-- The comparator's condition on a term is the specification's `TermOccurs`. -/
theorem comparatorCondition_iff (toLowerCase : JSString → JSString)
    (hlower : toLowerCase [] = []) (pl : Payload) (content : JSString)
    (hc : pl.content = some content) {term : JSString} (h : term ≠ []) :
    (includes (toLowerCase content) term || andIncludes toLowerCase pl.module term
      || andIncludes toLowerCase pl.source term) = true ↔
      TermOccurs toLowerCase pl term := by
  unfold TermOccurs
  rw [Bool.or_eq_true, Bool.or_eq_true, includes_iff,
    andIncludes_iff toLowerCase hlower _ h, andIncludes_iff toLowerCase hlower _ h,
    hc, or_assoc]
  simp

/-- The filter's count is the number of query terms, with repetitions, that occur. -/
theorem matchCount_eq_filter (toLowerCase : JSString → JSString)
    (hlower : toLowerCase [] = []) (query : JSString) (pl : Payload) (content : JSString)
    (hc : pl.content = some content) :
    matchCount toLowerCase (queryTerms toLowerCase query) content pl =
      ((queryTerms toLowerCase query).filter
        (fun term => decide (TermOccurs toLowerCase pl term))).length := by
  dsimp only [matchCount]
  congr 1
  apply List.filter_congr
  intro term hterm
  rw [Bool.eq_iff_iff, decide_eq_true_iff]
  exact filterCondition_iff toLowerCase hlower pl content hc (ne_nil_of_mem_queryTerms hterm)

/-- The comparator's count of a retained point is the filter's count. -/
theorem aMatches_eq_matchCount (toLowerCase : JSString → JSString)
    (hlower : toLowerCase [] = []) (query : JSString) (point : Point) (pl : Payload)
    (content : JSString) (hp : point.payload = some pl) (hc : pl.content = some content) :
    aMatches toLowerCase (queryTerms toLowerCase query) point =
      matchCount toLowerCase (queryTerms toLowerCase query) content pl := by
  rw [matchCount_eq_filter toLowerCase hlower query pl content hc]
  unfold aMatches
  rw [hp]
  simp only [hc]
  congr 1
  apply List.filter_congr
  intro term hterm
  rw [Bool.eq_iff_iff, decide_eq_true_iff]
  exact comparatorCondition_iff toLowerCase hlower pl content hc
    (ne_nil_of_mem_queryTerms hterm)

/-- Exactly the points with a payload, a non-empty content and a positive count pass
the filter. -/
theorem isRelevant_iff (toLowerCase : JSString → JSString) (terms : List JSString)
    (point : Point) :
    isRelevant toLowerCase terms point = true ↔
      ∃ pl content, point.payload = some pl ∧ pl.content = some content ∧ content ≠ [] ∧
        0 < matchCount toLowerCase terms content pl := by
  unfold isRelevant
  cases hp : point.payload with
  | none => simp
  | some pl =>
    cases hc : pl.content with
    | none => simp [hc]
    | some content =>
      by_cases h0 : content = []
      · simp [hc, h0]
      · simp [hc, h0]

/-! ## Stable sorting -/

theorem perm_insertSorted (cmp : Point → Point → Int) (a : Point) :
    ∀ l : List Point, (insertSorted cmp a l).Perm (a :: l)
  | [] => List.Perm.refl _
  | b :: l => by
    unfold insertSorted
    split
    · exact List.Perm.refl _
    · exact ((perm_insertSorted cmp a l).cons b).trans (List.Perm.swap a b l)

theorem perm_sortStable (cmp : Point → Point → Int) :
    ∀ l : List Point, (sortStable cmp l).Perm l
  | [] => List.Perm.refl _
  | a :: l => by
    unfold sortStable
    exact (perm_insertSorted cmp a _).trans ((perm_sortStable cmp l).cons a)

theorem pairwise_insertSorted (cmp : Point → Point → Int) (key : Point → Nat)
    (hcmp : ∀ a b, cmp a b ≤ 0 ↔ key b ≤ key a) (a : Point) :
    ∀ l : List Point, l.Pairwise (fun x y => key y ≤ key x) →
      (insertSorted cmp a l).Pairwise (fun x y => key y ≤ key x)
  | [], _ => by simp [insertSorted]
  | b :: l, h => by
    unfold insertSorted
    rw [List.pairwise_cons] at h
    split
    · rename_i hab
      rw [hcmp] at hab
      refine List.pairwise_cons.2 ⟨?_, List.pairwise_cons.2 h⟩
      intro x hx
      rcases List.mem_cons.1 hx with rfl | hx
      · exact hab
      · exact le_trans (h.1 x hx) hab
    · rename_i hab
      rw [hcmp] at hab
      refine List.pairwise_cons.2 ⟨?_, pairwise_insertSorted cmp key hcmp a l h.2⟩
      intro x hx
      rcases List.mem_cons.1 ((perm_insertSorted cmp a l).subset hx) with rfl | hx
      · omega
      · exact h.1 x hx

theorem pairwise_sortStable (cmp : Point → Point → Int) (key : Point → Nat)
    (hcmp : ∀ a b, cmp a b ≤ 0 ↔ key b ≤ key a) :
    ∀ l : List Point, (sortStable cmp l).Pairwise (fun x y => key y ≤ key x)
  | [] => List.Pairwise.nil
  | a :: l => by
    unfold sortStable
    exact pairwise_insertSorted cmp key hcmp a _ (pairwise_sortStable cmp key hcmp l)

theorem filter_insertSorted (cmp : Point → Point → Int) (key : Point → Nat)
    (hcmp : ∀ a b, cmp a b ≤ 0 ↔ key b ≤ key a) (k : Nat) (a : Point) :
    ∀ l : List Point, (insertSorted cmp a l).filter (fun p => key p == k) =
      (a :: l).filter (fun p => key p == k)
  | [] => rfl
  | b :: l => by
    unfold insertSorted
    split
    · rfl
    · rename_i hab
      rw [hcmp] at hab
      rw [List.filter_cons, filter_insertSorted cmp key hcmp k a l]
      by_cases ha : key a = k
      · have hb : ¬ key b = k := by omega
        simp [ha, hb]
      · simp [ha, List.filter_cons]

theorem filter_sortStable (cmp : Point → Point → Int) (key : Point → Nat)
    (hcmp : ∀ a b, cmp a b ≤ 0 ↔ key b ≤ key a) (k : Nat) :
    ∀ l : List Point, (sortStable cmp l).filter (fun p => key p == k) =
      l.filter (fun p => key p == k)
  | [] => rfl
  | a :: l => by
    unfold sortStable
    rw [filter_insertSorted cmp key hcmp k a, List.filter_cons, List.filter_cons,
      filter_sortStable cmp key hcmp k l]

theorem compareMatches_le_zero (toLowerCase : JSString → JSString) (terms : List JSString)
    (a b : Point) :
    compareMatches toLowerCase terms a b ≤ 0 ↔
      aMatches toLowerCase terms b ≤ aMatches toLowerCase terms a := by
  unfold compareMatches
  omega

/-- When every entry has a payload, `retrievedDocs` is the entries mapped, in order, to
the content, source and module of their payloads. -/
theorem retrievedDocs_of_payload :
    ∀ hits : List Point, (∀ hit ∈ hits, hit.payload ≠ none) →
      retrievedDocs hits = some (hits.map (fun hit =>
        ({ content := hit.payload.bind (fun pl => pl.content),
           source := hit.payload.bind (fun pl => pl.source),
           module := hit.payload.bind (fun pl => pl.module) } : Doc)))
  | [], _ => rfl
  | hit :: rest, h => by
    have hrest :=
      retrievedDocs_of_payload rest (fun x hx => h x (List.mem_cons_of_mem _ hx))
    cases hp : hit.payload with
    | none => exact absurd hp (h hit (by simp))
    | some pl => simp [retrievedDocs, hp, hrest]

theorem mem_consHead {c : Nat} {l : List JSString} {piece : JSString}
    (h : piece ∈ consHead c l) : (∃ p, piece = c :: p ∧ (p = [] ∨ p ∈ l)) ∨ piece ∈ l := by
  cases l with
  | nil =>
    simp only [consHead, List.mem_singleton] at h
    exact Or.inl ⟨[], h, Or.inl rfl⟩
  | cons p ps =>
    simp only [consHead, List.mem_cons] at h
    rcases h with h | h
    · exact Or.inl ⟨p, h, Or.inr (List.mem_cons_self _ _)⟩
    · exact Or.inr (List.mem_cons_of_mem _ h)

/-- The pieces of `split(/\s+/)` contain no whitespace. -/
theorem no_white_of_mem_splitWhitespaceAux (s : JSString) :
    ∀ (inSep : Bool), ∀ piece ∈ splitWhitespaceAux inSep s,
      ∀ c ∈ piece, isWhiteSpace c = false := by
  induction s with
  | nil =>
    intro inSep piece hp c hc
    simp only [splitWhitespaceAux, List.mem_singleton] at hp
    subst hp
    exact absurd hc (List.not_mem_nil c)
  | cons d rest ih =>
    intro inSep piece hp c hc
    unfold splitWhitespaceAux at hp
    by_cases hd : isWhiteSpace d = true
    · rw [if_pos hd] at hp
      by_cases hs : inSep = true
      · rw [if_pos hs] at hp
        exact ih true piece hp c hc
      · rw [if_neg hs] at hp
        rcases List.mem_cons.1 hp with rfl | hp
        · exact absurd hc (List.not_mem_nil c)
        · exact ih true piece hp c hc
    · rw [if_neg hd] at hp
      rcases mem_consHead hp with ⟨p, hpiece, hmem⟩ | hmem
      · rw [hpiece] at hc
        rcases List.mem_cons.1 hc with hcd | hcp
        · rw [hcd]; simpa using hd
        · rcases hmem with hnil | hmem
          · rw [hnil] at hcp
            exact absurd hcp (List.not_mem_nil c)
          · exact ih false p hmem c hcp
      · exact ih false piece hmem c hc

/-! ## The claims about the keyword-overlap ranking -/

/-- C3: with the query terms being the whitespace-separated words, longer than 2 code
units, of the lower-cased query, a scrolled point is retained by the filter if and only
if it has a (non-empty) content and at least one query term occurs as a substring of
its lower-cased content, module or source. For the query `"what is ROS"` the point
`"ROS 2 is a framework"` is kept and `"unrelated text"` is excluded. -/
theorem relevantResults_iff_term_occurs :
    (∀ toLowerCase : JSString → JSString, toLowerCase [] = [] →
      ∀ (query : JSString) (points : List Point) (point : Point),
        point ∈ relevantResults toLowerCase (queryTerms toLowerCase query) points ↔
          point ∈ points ∧ ∃ pl content, point.payload = some pl ∧
            pl.content = some content ∧ content ≠ [] ∧
            ∃ term ∈ queryTerms toLowerCase query, TermOccurs toLowerCase pl term) ∧
    (∀ (toLowerCase : JSString → JSString) (query : JSString),
      ∀ term ∈ queryTerms toLowerCase query,
        2 < term.length ∧ ∀ c ∈ term, isWhiteSpace c = false) ∧
    (∀ toLowerCase : JSString → JSString,
      toLowerCase (js "what is ROS") = js "what is ros" →
      toLowerCase (js "ROS 2 is a framework") = js "ros 2 is a framework" →
      toLowerCase (js "unrelated text") = js "unrelated text" →
      relevantResults toLowerCase (queryTerms toLowerCase (js "what is ROS"))
        [{ id := 1, payload := some { content := some (js "ROS 2 is a framework"),
                                       module := none, source := none } },
         { id := 2, payload := some { content := some (js "unrelated text"),
                                       module := none, source := none } }] =
        [{ id := 1, payload := some { content := some (js "ROS 2 is a framework"),
                                       module := none, source := none } }]) := by
  refine ⟨?_, ?_, ?_⟩
  · intro toLowerCase hlower query points point
    unfold relevantResults
    rw [List.mem_filter, isRelevant_iff]
    constructor
    · rintro ⟨hmem, pl, content, hp, hc, hne, hpos⟩
      refine ⟨hmem, pl, content, hp, hc, hne, ?_⟩
      rw [matchCount_eq_filter toLowerCase hlower query pl content hc,
        List.length_pos_iff_exists_mem] at hpos
      obtain ⟨term, hterm⟩ := hpos
      rw [List.mem_filter, decide_eq_true_iff] at hterm
      exact ⟨term, hterm.1, hterm.2⟩
    · rintro ⟨hmem, pl, content, hp, hc, hne, term, hterm, hocc⟩
      refine ⟨hmem, pl, content, hp, hc, hne, ?_⟩
      rw [matchCount_eq_filter toLowerCase hlower query pl content hc,
        List.length_pos_iff_exists_mem]
      exact ⟨term, List.mem_filter.2 ⟨hterm, decide_eq_true hocc⟩⟩
  · intro toLowerCase query term hterm
    refine ⟨length_of_mem_queryTerms hterm, ?_⟩
    unfold queryTerms at hterm
    exact no_white_of_mem_splitWhitespaceAux _ false term (List.mem_filter.1 hterm).1
  · intro toLowerCase h1 h2 h3
    simp only [relevantResults, List.filter, isRelevant, matchCount, lowerOrEmpty, truthy,
      queryTerms, h1, h2, h3, Bool.false_eq_true, if_false]
    decide

/-- C3 with ASCII lowering: the point `"ROS 2 is a framework"` of a two-point scroll is
retained for the query `"what is ROS"`. -/
theorem relevantResults_iff_term_occurs_witness :
    asciiToLowerCase [] = [] ∧
      ({ id := 1, payload := some { content := some (js "ROS 2 is a framework"),
                                     module := none, source := none } } : Point) ∈
        relevantResults asciiToLowerCase (queryTerms asciiToLowerCase (js "what is ROS"))
          [{ id := 1, payload := some { content := some (js "ROS 2 is a framework"),
                                         module := none, source := none } },
           { id := 2, payload := some { content := some (js "unrelated text"),
                                         module := none, source := none } }] :=
  ⟨rfl, (relevantResults_iff_term_occurs.1 asciiToLowerCase rfl (js "what is ROS") _ _).2
    ⟨by decide, _, _, rfl, rfl, by decide, js "ros", by decide, by decide⟩⟩

/-- C4: the documents used for the context are those of `topResults`, the first five
entries of the retained points sorted by descending match count, points of equal count
keeping their scroll order: the sorted list is a permutation of the retained points,
a point with a higher count precedes every point with a lower one, for each count the
points having it appear in their original order, at most five are returned, and
`retrievedDocs` is exactly these entries, in this order, each mapped to the content,
source and module of its payload (every entry has a payload with a non-empty content,
so no read raises). -/
theorem topResults_sorted_stable (toLowerCase : JSString → JSString) (query : JSString)
    (points : List Point) :
    topResults toLowerCase query points =
      (sortStable (compareMatches toLowerCase (queryTerms toLowerCase query))
        (relevantResults toLowerCase (queryTerms toLowerCase query) points)).take 5 ∧
    (sortStable (compareMatches toLowerCase (queryTerms toLowerCase query))
        (relevantResults toLowerCase (queryTerms toLowerCase query) points)).Perm
      (relevantResults toLowerCase (queryTerms toLowerCase query) points) ∧
    (sortStable (compareMatches toLowerCase (queryTerms toLowerCase query))
        (relevantResults toLowerCase (queryTerms toLowerCase query) points)).Pairwise
      (fun a b => aMatches toLowerCase (queryTerms toLowerCase query) b ≤
        aMatches toLowerCase (queryTerms toLowerCase query) a) ∧
    (∀ k : Nat,
      (sortStable (compareMatches toLowerCase (queryTerms toLowerCase query))
        (relevantResults toLowerCase (queryTerms toLowerCase query) points)).filter
          (fun p => aMatches toLowerCase (queryTerms toLowerCase query) p == k) =
      (relevantResults toLowerCase (queryTerms toLowerCase query) points).filter
          (fun p => aMatches toLowerCase (queryTerms toLowerCase query) p == k)) ∧
    (topResults toLowerCase query points).Pairwise
      (fun a b => aMatches toLowerCase (queryTerms toLowerCase query) b ≤
        aMatches toLowerCase (queryTerms toLowerCase query) a) ∧
    (topResults toLowerCase query points).length ≤ 5 ∧
    retrievedDocs (topResults toLowerCase query points) =
      some ((topResults toLowerCase query points).map (fun hit =>
        ({ content := hit.payload.bind (fun pl => pl.content),
           source := hit.payload.bind (fun pl => pl.source),
           module := hit.payload.bind (fun pl => pl.module) } : Doc))) ∧
    (∀ hit ∈ topResults toLowerCase query points,
      ∃ pl content, hit.payload = some pl ∧ pl.content = some content ∧ content ≠ []) ∧
    ∀ docs, retrievedDocs (topResults toLowerCase query points) = some docs →
      docs.length = (topResults toLowerCase query points).length ∧
      docs.map (fun doc => doc.content) =
        (topResults toLowerCase query points).map
          (fun hit => hit.payload.bind (fun pl => pl.content)) ∧
      docs.map (fun doc => doc.source) =
        (topResults toLowerCase query points).map
          (fun hit => hit.payload.bind (fun pl => pl.source)) := by
  have hsorted := pairwise_sortStable
    (compareMatches toLowerCase (queryTerms toLowerCase query))
    (aMatches toLowerCase (queryTerms toLowerCase query))
    (compareMatches_le_zero toLowerCase (queryTerms toLowerCase query))
    (relevantResults toLowerCase (queryTerms toLowerCase query) points)
  have hperm := perm_sortStable
    (compareMatches toLowerCase (queryTerms toLowerCase query))
    (relevantResults toLowerCase (queryTerms toLowerCase query) points)
  have hpayload : ∀ hit ∈ topResults toLowerCase query points,
      ∃ pl content, hit.payload = some pl ∧ pl.content = some content ∧ content ≠ [] := by
    intro hit hhit
    have hmem : hit ∈ relevantResults toLowerCase (queryTerms toLowerCase query) points :=
      hperm.subset ((List.take_sublist 5 _).subset hhit)
    unfold relevantResults at hmem
    obtain ⟨pl, content, hp, hc, hne, _⟩ :=
      (isRelevant_iff _ _ _).1 (List.mem_filter.1 hmem).2
    exact ⟨pl, content, hp, hc, hne⟩
  have hdocs := retrievedDocs_of_payload (topResults toLowerCase query points)
    (fun hit hhit => by
      obtain ⟨pl, _, hp, _⟩ := hpayload hit hhit
      rw [hp]
      exact Option.some_ne_none pl)
  refine ⟨rfl, hperm, hsorted, ?_, ?_, ?_, hdocs, hpayload, ?_⟩
  · intro k
    exact filter_sortStable _ _
      (compareMatches_le_zero toLowerCase (queryTerms toLowerCase query)) k _
  · exact hsorted.sublist (List.take_sublist 5 _)
  · unfold topResults
    simp only [List.length_take]
    omega
  · intro docs hd
    rw [hdocs] at hd
    have hd := (Option.some.inj hd).symm
    subst hd
    refine ⟨List.length_map _ _, ?_, ?_⟩ <;> simp [List.map_map, Function.comp_def]

/-- C5 fails on the code: for the query `"ros ros"` the point with content `"ros 2"`
has match count 2, although a single distinct query term occurs in it, and repeating
the word changed its count, which is 1 for the query `"ros"`. -/
theorem matchCount_counts_repeated_terms :
    matchCount asciiToLowerCase (queryTerms asciiToLowerCase (js "ros ros")) (js "ros 2")
        { content := some (js "ros 2"), module := none, source := none } = 2 ∧
      ((queryTerms asciiToLowerCase (js "ros ros")).dedup.filter
        (fun term => decide (TermOccurs asciiToLowerCase
          { content := some (js "ros 2"), module := none, source := none } term))).length
        = 1 ∧
      matchCount asciiToLowerCase (queryTerms asciiToLowerCase (js "ros")) (js "ros 2")
        { content := some (js "ros 2"), module := none, source := none } = 1 := by
  decide

/-- C5, amended: for a retained point (one with a payload and a content) the count of
the comparator is the count of the filter, and it is the number of query terms that
occur as substrings of the lower-cased content, module or source, a term counted once
for each time it stands in the query; when no term is repeated in the query it is the
number of distinct terms that occur. -/
theorem matchCount_counts_occurrences (toLowerCase : JSString → JSString)
    (hlower : toLowerCase [] = []) (query : JSString) (point : Point) (pl : Payload)
    (content : JSString) (hp : point.payload = some pl) (hc : pl.content = some content) :
    aMatches toLowerCase (queryTerms toLowerCase query) point =
      matchCount toLowerCase (queryTerms toLowerCase query) content pl ∧
    matchCount toLowerCase (queryTerms toLowerCase query) content pl =
      ∑ term ∈ (queryTerms toLowerCase query).toFinset.filter
          (fun term => TermOccurs toLowerCase pl term),
        (queryTerms toLowerCase query).countP (fun t => decide (t = term)) ∧
    ((queryTerms toLowerCase query).Nodup →
      matchCount toLowerCase (queryTerms toLowerCase query) content pl =
        ((queryTerms toLowerCase query).toFinset.filter
          (fun term => TermOccurs toLowerCase pl term)).card) := by
  have hfilter := matchCount_eq_filter toLowerCase hlower query pl content hc
  have hfin : ((queryTerms toLowerCase query).filter
      (fun term => decide (TermOccurs toLowerCase pl term))).toFinset =
      (queryTerms toLowerCase query).toFinset.filter
        (fun term => TermOccurs toLowerCase pl term) := by
    ext term
    simp [List.mem_filter]
  refine ⟨aMatches_eq_matchCount toLowerCase hlower query point pl content hp hc, ?_, ?_⟩
  · rw [hfilter, ← List.sum_toFinset_count_eq_length, hfin]
    apply Finset.sum_congr rfl
    intro term hterm
    have hocc : TermOccurs toLowerCase pl term := (Finset.mem_filter.1 hterm).2
    unfold List.count
    rw [List.countP_filter]
    apply List.countP_congr
    intro t _
    by_cases ht : t = term
    · subst ht; simp [hocc]
    · simp [ht]
  · intro hnodup
    rw [hfilter, ← hfin, List.toFinset_card_of_nodup (hnodup.filter _)]

/-- C5, amended, at the query `"ROS node"` and the point `"ros 2 node"`. -/
theorem matchCount_counts_occurrences_witness :
    asciiToLowerCase [] = [] ∧
    aMatches asciiToLowerCase (queryTerms asciiToLowerCase (js "ROS node"))
        { id := 7, payload := some { content := some (js "ros 2 node"), module := none,
                                      source := some (js "/docs/m1") } } =
      matchCount asciiToLowerCase (queryTerms asciiToLowerCase (js "ROS node"))
        (js "ros 2 node")
        { content := some (js "ros 2 node"), module := none,
          source := some (js "/docs/m1") } :=
  ⟨rfl, (matchCount_counts_occurrences asciiToLowerCase rfl (js "ROS node")
    { id := 7, payload := some { content := some (js "ros 2 node"), module := none,
                                  source := some (js "/docs/m1") } }
    { content := some (js "ros 2 node"), module := none, source := some (js "/docs/m1") }
    (js "ros 2 node") rfl rfl).1⟩

/-! ## No empty chunk -/

/-- A loop whose body keeps `P` whenever it returns ends, if it returns, in a state
satisfying `P`. -/
theorem runLoop_preserves (body : ChunkState → JSString → Option ChunkState)
    (P : ChunkState → Prop)
    (hbody : ∀ st x st', P st → body st x = some st' → P st') :
    ∀ (xs : List JSString) (st st' : ChunkState), P st →
      runLoop body st xs = some st' → P st' := by
  intro xs
  induction xs with
  | nil =>
    intro st st' h hrun
    simp only [runLoop, Option.some.injEq] at hrun
    rw [← hrun]; exact h
  | cons x xs ih =>
    intro st st' h hrun
    unfold runLoop at hrun
    cases hstep : body st x with
    | none => rw [hstep] at hrun; exact absurd hrun (by simp)
    | some st1 =>
      rw [hstep] at hrun
      exact ih st1 st' (hbody st x st1 h hstep) hrun

/-- No part of the hard cut is empty. -/
theorem ne_nil_of_mem_matchPartsAux (L : Nat) (s : JSString) :
    ∀ cur : JSString, ∀ p ∈ matchPartsAux L cur s, p ≠ [] := by
  induction s with
  | nil =>
    intro cur p hp
    by_cases h : cur = [] <;> simp [matchPartsAux, h] at hp
    subst hp; exact h
  | cons c rest ih =>
    intro cur p hp
    unfold matchPartsAux at hp
    by_cases hc : isLineTerminator c = true
    · rw [if_pos hc, List.mem_append] at hp
      rcases hp with hp | hp
      · by_cases h : cur = [] <;> simp [h] at hp
        subst hp; exact h
      · exact ih [] p hp
    · rw [if_neg hc] at hp
      by_cases hlen : cur.length + 1 = L
      · rw [if_pos hlen, List.mem_cons] at hp
        rcases hp with hp | hp
        · subst hp; simp
        · exact ih [] p hp
      · rw [if_neg hlen] at hp
        exact ih (cur ++ [c]) p hp

theorem pushTrimmed_ne_nil {st : ChunkState} (h : ∀ c ∈ st.chunks, c ≠ []) :
    ∀ c ∈ pushTrimmed st, c ≠ [] := by
  unfold pushTrimmed
  by_cases ht : trim st.currentChunk = []
  · rw [if_neg (by simpa using ht)]; exact h
  · rw [if_pos ht]
    intro c hc
    rcases List.mem_append.1 hc with hc | hc
    · exact h c hc
    · rw [List.mem_singleton.1 hc]; exact ht

theorem sentenceStep_ne_nil (L : Nat) (st : ChunkState) (x : JSString) (st' : ChunkState)
    (h : ∀ c ∈ st.chunks, c ≠ []) (hstep : sentenceStep L st x = some st') :
    ∀ c ∈ st'.chunks, c ≠ [] := by
  unfold sentenceStep at hstep
  by_cases hfit : st.currentChunk.length + x.length ≤ L
  · rw [if_pos hfit, Option.some.injEq] at hstep
    rw [← hstep]; exact h
  · rw [if_neg hfit] at hstep
    by_cases hlong : (x ++ [32]).length > L
    · simp only [hlong, if_true] at hstep
      unfold matchParts at hstep
      by_cases h0 : L = 0
      · simp [h0] at hstep
      · simp only [h0, if_false, Option.some.injEq] at hstep
        rw [← hstep]
        intro c hc
        rcases List.mem_append.1 hc with hc | hc
        · exact pushTrimmed_ne_nil h c hc
        · exact ne_nil_of_mem_matchPartsAux L _ [] c (List.mem_of_mem_dropLast hc)
    · simp only [hlong, if_false, Option.some.injEq] at hstep
      rw [← hstep]
      exact pushTrimmed_ne_nil h

theorem paragraphStep_ne_nil (L : Nat) (st : ChunkState) (x : JSString) (st' : ChunkState)
    (h : ∀ c ∈ st.chunks, c ≠ []) (hstep : paragraphStep L st x = some st') :
    ∀ c ∈ st'.chunks, c ≠ [] := by
  unfold paragraphStep at hstep
  by_cases hfit : st.currentChunk.length + x.length ≤ L
  · rw [if_pos hfit, Option.some.injEq] at hstep
    rw [← hstep]; exact h
  · rw [if_neg hfit] at hstep
    by_cases hlong : (x ++ [10, 10]).length > L
    · simp only [hlong, if_true] at hstep
      exact runLoop_preserves (sentenceStep L) (fun st => ∀ c ∈ st.chunks, c ≠ [])
        (sentenceStep_ne_nil L) _ _ st' (pushTrimmed_ne_nil h) hstep
    · simp only [hlong, if_false, Option.some.injEq] at hstep
      rw [← hstep]
      exact pushTrimmed_ne_nil h

/-- Whenever the chunker returns, none of its chunks is empty. -/
theorem splitIntoChunks_ne_nil (s : JSString) (L : Nat) (cs : List JSString)
    (h : splitIntoChunks s L = some cs) : ∀ c ∈ cs, c ≠ [] := by
  unfold splitIntoChunks at h
  cases hrun : runLoop (paragraphStep L) { chunks := [], currentChunk := [] }
      (splitParagraphs s) with
  | none => rw [hrun] at h; exact absurd h (by simp)
  | some st =>
    rw [hrun] at h
    simp only [Option.some.injEq] at h
    rw [← h]
    exact pushTrimmed_ne_nil
      (runLoop_preserves (paragraphStep L) (fun st => ∀ c ∈ st.chunks, c ≠ [])
        (paragraphStep_ne_nil L) _ _ st (by simp) hrun)

/-! ## The claims about trimmed and non-empty chunks -/

/-- C11 fails on the code: with limit 3 the chunks of `"ab cdef"` are `"ab "`, `"cde"`
and `"f"`, and the first ends with a blank: the hard cut pushes its slices as they
are, while every other push trims the buffer first. -/
theorem splitIntoChunks_chunk_not_trimmed :
    splitIntoChunks (js "ab cdef") 3 = some [js "ab ", js "cde", js "f"] ∧
      (js "ab ").getLast? = some 32 ∧ isWhiteSpace 32 = true ∧
      trim (js "ab ") ≠ js "ab " := by
  decide

/-- C12: for every string `s` and every limit `L ≥ 1`, `splitIntoChunks(s, L)` returns
and none of the chunks it returns is the empty string. -/
theorem splitIntoChunks_no_empty_chunk (s : JSString) (L : Nat) (hL : 1 ≤ L) :
    ∃ cs, splitIntoChunks s L = some cs ∧ ∀ c ∈ cs, c ≠ [] := by
  obtain ⟨cs, h, _⟩ := splitIntoChunks_sound s hL
  exact ⟨cs, h, splitIntoChunks_ne_nil s L cs h⟩

/-- C12 at the whitespace-heavy input `" \n\n  a.  \n\n "` with limit 2. -/
theorem splitIntoChunks_no_empty_chunk_witness :
    1 ≤ 2 ∧ ∃ cs, splitIntoChunks (js " \n\n  a.  \n\n ") 2 = some cs ∧ ∀ c ∈ cs, c ≠ [] :=
  ⟨by decide, splitIntoChunks_no_empty_chunk (js " \n\n  a.  \n\n ") 2 (by decide)⟩

/-! ## Facts about retrieval -/

theorem truthy_some_of_ne_nil {query : JSString} (h : query ≠ []) :
    truthy (some query) = true := by
  cases query with
  | nil => exact absurd rfl h
  | cons c rest => rfl

theorem length_formatMatches {S : Type} (queryMatches : List (Match S)) :
    ∀ index : Nat, (formatMatches index queryMatches).length = queryMatches.length := by
  induction queryMatches with
  | nil => intro index; rfl
  | cons m rest ih => intro index; simp [formatMatches, ih]

theorem getElem?_formatMatches {S : Type} (queryMatches : List (Match S)) :
    ∀ index i : Nat, (formatMatches index queryMatches)[i]? =
      (queryMatches[i]?).map (fun m =>
        ({ id := m.id, content := m.metadata.content, source := m.metadata.source,
           score := m.score, rank := index + i + 1 } : RetrievalResult S)) := by
  induction queryMatches with
  | nil => intro index i; simp [formatMatches]
  | cons m rest ih =>
    intro index i
    cases i with
    | zero => simp [formatMatches]
    | succ i =>
      simp only [formatMatches, List.getElem?_cons_succ, ih]
      congr 1
      funext m
      congr 1
      omega

theorem map_score_formatMatches {S : Type} (queryMatches : List (Match S)) :
    ∀ index : Nat, (formatMatches index queryMatches).map (fun r => r.score) =
      queryMatches.map (fun m => m.score) := by
  induction queryMatches with
  | nil => intro index; rfl
  | cons m rest ih => intro index; simp [formatMatches, ih]

theorem map_rank_formatMatches {S : Type} (queryMatches : List (Match S)) :
    ∀ index : Nat, (formatMatches index queryMatches).map (fun r => r.rank) =
      List.range' (index + 1) queryMatches.length := by
  induction queryMatches with
  | nil => intro index; rfl
  | cons m rest ih => intro index; simp [formatMatches, ih, List.range'_succ]

/-- When both calls return, `retrieveFromPinecone` returns the formatted matches. -/
theorem retrieveFromPinecone_of_ok {V S : Type} (sv : Services V S) (query : JSString)
    (topK : Nat) (queryEmbedding : V) (queryMatches : List (Match S))
    (hembed : sv.embed query = .ok queryEmbedding)
    (hquery : sv.vectorQuery queryEmbedding topK = .ok queryMatches) :
    retrieveFromPinecone sv query topK =
      (.ok { results := formatMatches 0 queryMatches, query := query,
             retrievedCount := (formatMatches 0 queryMatches).length },
        [.embed query, .vectorQuery queryEmbedding topK]) := by
  unfold retrieveFromPinecone
  rw [hembed]
  simp only [hquery]

/-- When the embedding call or the vector-store query raises, `retrieveFromPinecone`
raises the same error, having made no other call. -/
theorem retrieveFromPinecone_of_error {V S : Type} (sv : Services V S) (query : JSString)
    (topK : Nat) (message : JSString)
    (h : sv.embed query = .error message ∨
      ∃ v, sv.embed query = .ok v ∧ sv.vectorQuery v topK = .error message) :
    (retrieveFromPinecone sv query topK).1 = .error message ∧
      ∀ prompt, Call.generate prompt ∉ (retrieveFromPinecone sv query topK).2 := by
  unfold retrieveFromPinecone
  rcases h with h | ⟨v, h1, h2⟩
  · rw [h]; simp
  · rw [h1]; simp [h2]

/-- The count returned by `retrieveFromPinecone` is the number of its results. -/
theorem retrievedCount_eq_length {V S : Type} (sv : Services V S) (query : JSString)
    (topK : Nat) (r : Retrieval S) (h : (retrieveFromPinecone sv query topK).1 = .ok r) :
    r.retrievedCount = r.results.length := by
  unfold retrieveFromPinecone at h
  cases hembed : sv.embed query with
  | error e => rw [hembed] at h; simp at h
  | ok v =>
    rw [hembed] at h
    cases hquery : sv.vectorQuery v topK with
    | error e => simp [hquery] at h
    | ok queryMatches =>
      simp only [hquery, Except.ok.injEq] at h
      rw [← h]

/-! ## The claims about retrieval and the handlers -/

/-- C13: for a request whose query is missing or the empty string, the `/api/rag`
handlers of src/server.js and src/rag-api-gemini.js and the `/api/retrieve` handler
respond with status 400 and the body `{error: 'Query is required'}` and make no call of
the embedding service, the vector store or the generation model. -/
theorem handlers_reject_empty_query {V S : Type} (toLowerCase : JSString → JSString)
    (sv : Services V S) (development : Bool) (query : Option JSString)
    (h : query = none ∨ query = some []) :
    ragHandler sv development query =
        ({ status := 400, body := .error (js "Query is required") none }, []) ∧
      geminiRagHandler toLowerCase sv development query =
        ({ status := 400, body := .error (js "Query is required") none }, []) ∧
      retrieveHandler sv development query =
        ({ status := 400, body := .error (js "Query is required") none }, []) := by
  rcases h with h | h <;> subst h <;> exact ⟨rfl, rfl, rfl⟩

/-- C13 at the empty query, with services that would all answer. -/
theorem handlers_reject_empty_query_witness :
    ((some [] : Option JSString) = none ∨ (some [] : Option JSString) = some []) ∧
      ragHandler (exampleServices false false false []) false (some []) =
        ({ status := 400, body := .error (js "Query is required") none }, []) :=
  ⟨Or.inr rfl,
    (handlers_reject_empty_query asciiToLowerCase (exampleServices false false false [])
      false (some []) (Or.inr rfl)).1⟩

/-- C14: when the backend answers with the matches `m_1 .. m_n`, `retrieveFromPinecone`
returns exactly `n` results in the same order, the `i`-th with the id, content, source
and score of `m_i` and rank `i` (from 1), and `retrievedCount = n`; so the results are
ordered by score as the matches are, with ranks `1 .. n`; `/api/retrieve` sends them
on unchanged. -/
theorem retrieveFromPinecone_results {V S : Type} (sv : Services V S) (query : JSString)
    (topK : Nat) (queryEmbedding : V) (queryMatches : List (Match S))
    (hembed : sv.embed query = .ok queryEmbedding)
    (hquery : sv.vectorQuery queryEmbedding topK = .ok queryMatches) :
    ∃ r, (retrieveFromPinecone sv query topK).1 = .ok r ∧
      r.results.length = queryMatches.length ∧
      r.retrievedCount = queryMatches.length ∧
      (∀ i : Nat, r.results[i]? = (queryMatches[i]?).map (fun m =>
        ({ id := m.id, content := m.metadata.content, source := m.metadata.source,
           score := m.score, rank := i + 1 } : RetrievalResult S))) ∧
      (∀ R : S → S → Prop, queryMatches.Pairwise (fun a b => R a.score b.score) →
        r.results.Pairwise (fun a b => R a.score b.score)) ∧
      r.results.map (fun x => x.rank) = List.range' 1 queryMatches.length ∧
      (topK = 5 → query ≠ [] → ∀ development : Bool,
        (retrieveHandler sv development (some query)).1 =
          { status := 200, body := .retrieved r.results query queryMatches.length }) := by
  have hret := retrieveFromPinecone_of_ok sv query topK queryEmbedding queryMatches
    hembed hquery
  refine ⟨_, by rw [hret], length_formatMatches _ 0, length_formatMatches _ 0, ?_, ?_, ?_,
    ?_⟩
  · intro i
    simpa using getElem?_formatMatches queryMatches 0 i
  · intro R hR
    have h1 : (queryMatches.map (fun m => m.score)).Pairwise R := List.pairwise_map.2 hR
    rw [← map_score_formatMatches queryMatches 0] at h1
    exact List.pairwise_map.1 h1
  · simpa using map_rank_formatMatches queryMatches 0
  · intro h5 hne development
    subst h5
    unfold retrieveHandler
    rw [truthy_some_of_ne_nil hne]
    simp [hret, length_formatMatches]

/-- C14 with two matches of scores 9 and 4. -/
theorem retrieveFromPinecone_results_witness :
    ∃ r, (retrieveFromPinecone
        (exampleServices false false false
          [{ id := js "doc_0", metadata := { content := js "ROS 2", source := js "/docs/a" },
             score := 9 },
           { id := js "doc_1", metadata := { content := js "nodes", source := js "/docs/b" },
             score := 4 }]) (js "what is ROS") 5).1 = .ok r ∧
      r.results.length = 2 ∧ r.retrievedCount = 2 :=
  let ⟨r, h1, h2, h3, _⟩ := retrieveFromPinecone_results
    (exampleServices false false false
      [{ id := js "doc_0", metadata := { content := js "ROS 2", source := js "/docs/a" },
         score := 9 },
       { id := js "doc_1", metadata := { content := js "nodes", source := js "/docs/b" },
         score := 4 }]) (js "what is ROS") 5 7 _ rfl rfl
  ⟨r, h1, h2, h3⟩

/-- C15: in the `/api/rag` handler of src/server.js, when the retrieval succeeds and
the generation call fails, the response has status 200 and carries the notice as
response text, the sources and `retrieved_docs_count` of the retrieval, and as
`fallback_context` the retrieved contents joined in rank order by a blank line. -/
theorem ragHandler_generation_failure {V S : Type} (sv : Services V S)
    (development : Bool) (query : JSString) (r : Retrieval S) (message : JSString)
    (hquery : query ≠ [])
    (hret : (retrieveFromPinecone sv query 5).1 = .ok r)
    (hgen : sv.generate (ragPrompt (contextText r.results) query) = .error message) :
    (ragHandler sv development (some query)).1 =
      { status := 200,
        body := .answer generationNotice (r.results.map (fun x => x.source))
          r.retrievedCount
          (some (joinWith (js "\n\n") (r.results.map (fun x => x.content)))) } := by
  have hpair : retrieveFromPinecone sv query 5 = (.ok r, (retrieveFromPinecone sv query 5).2) :=
    Prod.ext hret rfl
  unfold ragHandler
  rw [truthy_some_of_ne_nil hquery]
  simp only [Bool.not_true, Bool.false_eq_true, if_false, Option.getD_some]
  rw [hpair]
  simp [hgen]

/-- C15 with one retrieved document and a failing generation call. -/
theorem ragHandler_generation_failure_witness :
    (ragHandler
      (exampleServices false false true
        [{ id := js "doc_0", metadata := { content := js "ROS 2", source := js "/docs/a" },
           score := 9 }]) false (some (js "what is ROS"))).1 =
      { status := 200,
        body := .answer generationNotice [js "/docs/a"] 1 (some (js "ROS 2")) } :=
  ragHandler_generation_failure
    (exampleServices false false true
      [{ id := js "doc_0", metadata := { content := js "ROS 2", source := js "/docs/a" },
         score := 9 }]) false (js "what is ROS")
    { results := [{ id := js "doc_0", content := js "ROS 2", source := js "/docs/a",
                    score := 9, rank := 1 }],
      query := js "what is ROS", retrievedCount := 1 }
    (js "generate failed") (by decide) rfl rfl

/-- C16 fails on the code: when the embedding call raises, the `/api/rag` handler of
src/server.js responds with status 500 and an error body, not with status 200 and
empty sources. -/
theorem ragHandler_retrieval_failure_status :
    (ragHandler (exampleServices true false false []) false (some (js "what is ROS"))).1 =
        { status := 500,
          body := .error (js "Internal server error during RAG processing") none } ∧
      (ragHandler (exampleServices true false false []) false
        (some (js "what is ROS"))).1.status ≠ 200 := by
  decide

/-- C16, amended: in the `/api/rag` handler of src/server.js, when the embedding call
or the vector-store query raises, the handler makes no generation call and responds
with status 500 and the body `{error: 'Internal server error during RAG processing'}`,
to which the message of the error is added as `details` in development mode. -/
theorem ragHandler_retrieval_failure {V S : Type} (sv : Services V S)
    (development : Bool) (query : JSString) (message : JSString) (hquery : query ≠ [])
    (h : sv.embed query = .error message ∨
      ∃ v, sv.embed query = .ok v ∧ sv.vectorQuery v 5 = .error message) :
    (ragHandler sv development (some query)).1 =
        { status := 500,
          body := .error (js "Internal server error during RAG processing")
            (if development then some message else none) } ∧
      ∀ prompt, Call.generate prompt ∉ (ragHandler sv development (some query)).2 := by
  obtain ⟨herr, hcalls⟩ := retrieveFromPinecone_of_error sv query 5 message h
  have hpair : retrieveFromPinecone sv query 5 =
      (.error message, (retrieveFromPinecone sv query 5).2) := Prod.ext herr rfl
  unfold ragHandler
  rw [truthy_some_of_ne_nil hquery]
  simp only [Bool.not_true, Bool.false_eq_true, if_false, Option.getD_some]
  rw [hpair]
  exact ⟨by simp, by simpa using hcalls⟩

/-- C16, amended, with a failing vector-store query in development mode. -/
theorem ragHandler_retrieval_failure_witness :
    (ragHandler (exampleServices false true false []) true (some (js "what is ROS"))).1 =
      { status := 500,
        body := .error (js "Internal server error during RAG processing")
          (some (js "query failed")) } :=
  (ragHandler_retrieval_failure (exampleServices false true false []) true
    (js "what is ROS") (js "query failed") (by decide) (Or.inr ⟨7, rfl, rfl⟩)).1

/-- When the embedding call or the vector-store query raises, `retrieveDocuments`
raises. -/
theorem retrieveDocuments_of_error {V S : Type} (sv : Services V S) (query : JSString)
    (topK : Nat) (message : JSString)
    (h : sv.embed query = .error message ∨
      ∃ v, sv.embed query = .ok v ∧ sv.vectorQuery v topK = .error message) :
    (retrieveDocuments sv query topK).1 = .error message := by
  unfold retrieveDocuments generateQueryEmbedding
  rcases h with h | ⟨v, h1, h2⟩
  · rw [h]
  · rw [h1]; simp [h2]

/-- C17: `performRAGRetrieval` never raises (it is a total function into its result
object); when the embedding call or the vector-store query fails it returns
`sources = []` and `retrieved_docs_count = 0`, and in every result
`retrieved_docs_count` is the length of `sources`. -/
theorem performRAGRetrieval_degrades {V S : Type} (sv : Services V S) (query : JSString)
    (topK : Nat) :
    (performRAGRetrieval sv query topK).1.retrieved_docs_count =
        (performRAGRetrieval sv query topK).1.sources.length ∧
      ∀ message : JSString,
        (sv.embed query = .error message ∨
          ∃ v, sv.embed query = .ok v ∧ sv.vectorQuery v topK = .error message) →
        (performRAGRetrieval sv query topK).1.sources = [] ∧
          (performRAGRetrieval sv query topK).1.retrieved_docs_count = 0 := by
  constructor
  · unfold performRAGRetrieval
    rcases hret : retrieveDocuments sv query topK with ⟨res, calls⟩
    cases res with
    | error e => rfl
    | ok documents => simp
  · intro message h
    have herr := retrieveDocuments_of_error sv query topK message h
    have hpair : retrieveDocuments sv query topK =
        (.error message, (retrieveDocuments sv query topK).2) := Prod.ext herr rfl
    unfold performRAGRetrieval
    rw [hpair]
    exact ⟨rfl, rfl⟩

/-- C17 with a failing embedding call. -/
theorem performRAGRetrieval_degrades_witness :
    (performRAGRetrieval (exampleServices true false false []) (js "what is ROS") 5).1.sources
        = [] ∧
      (performRAGRetrieval (exampleServices true false false [])
        (js "what is ROS") 5).1.retrieved_docs_count = 0 :=
  (performRAGRetrieval_degrades (exampleServices true false false []) (js "what is ROS") 5).2
    (js "embed failed") (Or.inl rfl)

/-- C18 fails on the code: with a failing embedding call the context returned by
`performRAGRetrieval` is not the string `formatContext` returns for an empty list. -/
theorem performRAGRetrieval_failure_context_ne_sentinel :
    (performRAGRetrieval (exampleServices true false false []) (js "what is ROS") 5).1.context
      ≠ formatContext ([] : List (Document Nat)) := by
  decide

/-- C18, amended: when the embedding call or the vector-store query fails, the context
returned by `performRAGRetrieval` is the string `'An error occurred while retrieving
information. Using fallback response.'`, which is not the string `'No relevant content
found in the knowledge base.'` that `formatContext` returns for an empty list; with an
empty list of matches the context is that second string, and the sources are empty and
the count is 0 as for a failed retrieval. -/
theorem performRAGRetrieval_failure_context {V S : Type} (sv : Services V S)
    (query : JSString) (topK : Nat) :
    (∀ message : JSString,
      (sv.embed query = .error message ∨
        ∃ v, sv.embed query = .ok v ∧ sv.vectorQuery v topK = .error message) →
      (performRAGRetrieval sv query topK).1.context =
          js "An error occurred while retrieving information. Using fallback response." ∧
        (performRAGRetrieval sv query topK).1.context ≠
          formatContext ([] : List (Document S))) ∧
    (∀ v, sv.embed query = .ok v → sv.vectorQuery v topK = .ok [] →
      (performRAGRetrieval sv query topK).1 =
        { context := js "No relevant content found in the knowledge base.",
          sources := [], retrieved_docs_count := 0 }) := by
  constructor
  · intro message h
    have herr := retrieveDocuments_of_error sv query topK message h
    have hpair : retrieveDocuments sv query topK =
        (.error message, (retrieveDocuments sv query topK).2) := Prod.ext herr rfl
    have hctx : (performRAGRetrieval sv query topK).1.context =
        js "An error occurred while retrieving information. Using fallback response." := by
      unfold performRAGRetrieval
      rw [hpair]
    have hsentinel : formatContext ([] : List (Document S)) =
        js "No relevant content found in the knowledge base." := rfl
    refine ⟨hctx, ?_⟩
    rw [hctx, hsentinel]
    decide
  · intro v h1 h2
    unfold performRAGRetrieval retrieveDocuments generateQueryEmbedding
    rw [h1]
    simp only [h2]
    rfl

/-- C18, amended, with a failing embedding call. -/
theorem performRAGRetrieval_failure_context_witness :
    (performRAGRetrieval (exampleServices true false false [])
        (js "what is ROS") 5).1.context =
      js "An error occurred while retrieving information. Using fallback response." :=
  ((performRAGRetrieval_failure_context (exampleServices true false false [])
    (js "what is ROS") 5).1 (js "embed failed") (Or.inl rfl)).1

/-- C19: in the `/api/rag` handler of src/server.js, for a non-empty query for which
the retriever returns an empty result list, the response has status 200 with
`sources = []` and `retrieved_docs_count = 0`, whether the generation call succeeds
(then the response text is the generated one) or fails (then it is the notice, with an
empty `fallback_context`). -/
theorem ragHandler_empty_retrieval {V S : Type} (sv : Services V S) (development : Bool)
    (query : JSString) (r : Retrieval S) (hquery : query ≠ [])
    (hret : (retrieveFromPinecone sv query 5).1 = .ok r) (hempty : r.results = []) :
    (ragHandler sv development (some query)).1.status = 200 ∧
      ((∃ text, sv.generate (ragPrompt [] query) = .ok text ∧
          (ragHandler sv development (some query)).1.body = .answer text [] 0 none) ∨
       (∃ message, sv.generate (ragPrompt [] query) = .error message ∧
          (ragHandler sv development (some query)).1.body =
            .answer generationNotice [] 0 (some []))) := by
  have hcount := retrievedCount_eq_length sv query 5 r hret
  rw [hempty] at hcount
  have hpair : retrieveFromPinecone sv query 5 = (.ok r, (retrieveFromPinecone sv query 5).2) :=
    Prod.ext hret rfl
  have hctx : contextText r.results = [] := by rw [hempty]; rfl
  unfold ragHandler
  rw [truthy_some_of_ne_nil hquery]
  simp only [Bool.not_true, Bool.false_eq_true, if_false, Option.getD_some]
  rw [hpair]
  simp only [hctx]
  cases hgen : sv.generate (ragPrompt [] query) with
  | ok text =>
    refine ⟨rfl, Or.inl ⟨text, rfl, ?_⟩⟩
    simp [hempty, hcount]
  | error message =>
    refine ⟨rfl, Or.inr ⟨message, rfl, ?_⟩⟩
    simp [hempty, hcount, joinWith]

/-- C19 with no match and a failing generation call. -/
theorem ragHandler_empty_retrieval_witness :
    (ragHandler (exampleServices false false true []) false
      (some (js "what is ROS"))).1.status = 200 :=
  (ragHandler_empty_retrieval (exampleServices false false true []) false
    (js "what is ROS") { results := [], query := js "what is ROS", retrievedCount := 0 }
    (by decide) rfl rfl).1

/-! ## The length of the prompt context -/

theorem length_joinWith_le (sep : JSString) (m : Nat) :
    ∀ l : List JSString, l ≠ [] → (∀ x ∈ l, x.length ≤ m) →
      (joinWith sep l).length + sep.length ≤ l.length * (m + sep.length)
  | [], h, _ => absurd rfl h
  | [x], _, hx => by
    have := hx x (by simp)
    simp only [joinWith, List.length_singleton, one_mul]
    omega
  | x :: y :: rest, _, hx => by
    have h1 := hx x (by simp)
    have ih := length_joinWith_le sep m (y :: rest) (by simp)
      (fun z hz => hx z (List.mem_cons_of_mem _ hz))
    simp only [joinWith, List.length_append, List.length_cons] at ih ⊢
    have hmul : (rest.length + 1 + 1) * (m + sep.length) =
        (rest.length + 1) * (m + sep.length) + (m + sep.length) := by ring
    rw [hmul]
    omega

/-- The length of the context of at most `k` results whose contents have at most `c`
and whose sources at most `s` code units. -/
theorem length_contextText_le {S : Type} (results : List (RetrievalResult S)) (k c s : Nat)
    (hk : results.length ≤ k) (hc : ∀ r ∈ results, r.content.length ≤ c)
    (hs : ∀ r ∈ results, r.source.length ≤ s) :
    (contextText results).length ≤ k * (c + s + 18 + 7) - 7 := by
  by_cases hnil : results = []
  · subst hnil
    simp [contextText, joinWith]
  · have hsep : (js "\n\n---\n\n").length = 7 := by decide
    have h := length_joinWith_le (js "\n\n---\n\n") (c + s + 18)
      (results.map (fun result =>
        js "Source: " ++ result.source ++ js "\nContent: " ++ result.content))
      (by simpa using hnil)
      (by
        intro x hx
        obtain ⟨r, hr, rfl⟩ := List.mem_map.1 hx
        have h1 := hc r hr
        have h2 := hs r hr
        have h3 : (js "Source: ").length = 8 := by decide
        have h4 : (js "\nContent: ").length = 10 := by decide
        simp only [List.length_append, h3, h4]
        omega)
    rw [hsep, List.length_map] at h
    unfold contextText
    have hmono : results.length * (c + s + 18 + 7) ≤ k * (c + s + 18 + 7) :=
      Nat.mul_le_mul_right _ hk
    omega

/-- C20 fails on the code: five results whose contents have 1000 code units each (and
whose sources are empty) give a context of 5118 code units, more than 5000. -/
theorem contextText_exceeds_budget :
    (List.replicate 5
        ({ id := [], content := List.replicate 1000 97, source := [], score := 0,
           rank := 1 } : RetrievalResult Nat)).length ≤ 5 ∧
      (∀ r ∈ List.replicate 5
        ({ id := [], content := List.replicate 1000 97, source := [], score := 0,
           rank := 1 } : RetrievalResult Nat), r.content.length ≤ 1000) ∧
      (contextText (List.replicate 5
        ({ id := [], content := List.replicate 1000 97, source := [], score := 0,
           rank := 1 } : RetrievalResult Nat))).length = 5118 ∧
      5000 < 5118 := by
  have key : ∀ c : JSString, c.length = 1000 →
      (contextText (List.replicate 5
        ({ id := [], content := c, source := [], score := 0,
           rank := 1 } : RetrievalResult Nat))).length = 5118 := by
    intro c hc
    have h3 : (js "Source: ").length = 8 := by decide
    have h4 : (js "\nContent: ").length = 10 := by decide
    have hsep : (js "\n\n---\n\n").length = 7 := by decide
    simp [contextText, joinWith, List.replicate, h3, h4, hsep, hc]
  refine ⟨by rw [List.length_replicate], ?_, key _ (List.length_replicate _ _),
    by decide⟩
  intro r hr
  rw [List.eq_of_mem_replicate hr]
  exact (List.length_replicate 1000 97).le

/-- C20, amended: for at most 5 results whose contents have at most 1000 code units and
whose sources have at most `maxSource` code units, the context that the `/api/rag`
handler of src/server.js embeds in the prompt has at most
`5 * (1000 + maxSource + 18) + 28` code units: each result adds its source, its content
and 18 code units of labels, and 7 code units of delimiter stand between two results. -/
theorem contextText_length_le {S : Type} (results : List (RetrievalResult S))
    (maxSource : Nat) (hk : results.length ≤ 5)
    (hc : ∀ r ∈ results, r.content.length ≤ 1000)
    (hs : ∀ r ∈ results, r.source.length ≤ maxSource) :
    (contextText results).length ≤ 5 * (1000 + maxSource + 18) + 28 := by
  have h := length_contextText_le results 5 1000 maxSource hk hc hs
  omega

/-- C20, amended, for one result with source `"/docs/a"`. -/
theorem contextText_length_le_witness :
    (contextText
      [({ id := js "doc_0", content := js "ROS 2", source := js "/docs/a", score := 9,
          rank := 1 } : RetrievalResult Nat)]).length ≤ 5 * (1000 + 7 + 18) + 28 :=
  contextText_length_le
    [({ id := js "doc_0", content := js "ROS 2", source := js "/docs/a", score := 9,
        rank := 1 } : RetrievalResult Nat)] 7 (by decide) (by decide) (by decide)

/-! ## Facts about the pseudo-embeddings -/

theorem length_dummyLoop (text : JSString) :
    ∀ (i : Nat) (vector : List Int), (dummyLoop i text vector).length = vector.length := by
  induction text with
  | nil => intro i vector; rfl
  | cons c rest ih => intro i vector; simp [dummyLoop, ih]

theorem length_queryLoop (text : JSString) :
    ∀ (i : Nat) (vector : List Nat), (queryLoop i text vector).length = vector.length := by
  induction text with
  | nil => intro i vector; rfl
  | cons c rest ih => intro i vector; simp [queryLoop, ih]

theorem dummyLoop_append (a b : JSString) :
    ∀ (i : Nat) (vector : List Int),
      dummyLoop i (a ++ b) vector = dummyLoop (i + a.length) b (dummyLoop i a vector) := by
  induction a with
  | nil => intro i vector; rfl
  | cons c rest ih =>
    intro i vector
    rw [List.cons_append, dummyLoop, dummyLoop, ih, List.length_cons,
      show i + 1 + rest.length = i + (rest.length + 1) by omega]

/-- A component is left as it is by the rounds that write other components. -/
theorem getD_dummyLoop_of_ne (j : Nat) (text : JSString) :
    ∀ (i : Nat) (vector : List Int), (∀ k < text.length, (i + k) % 1536 ≠ j) →
      (dummyLoop i text vector).getD j 0 = vector.getD j 0 := by
  induction text with
  | nil => intro i vector _; rfl
  | cons c rest ih =>
    intro i vector h
    have h0 : i % 1536 ≠ j := by simpa using h 0 (by simp)
    rw [dummyLoop, ih (i + 1) _ (fun k hk => by
      have := h (k + 1) (by simpa using hk)
      rwa [show i + 1 + k = i + (k + 1) by omega])]
    simp [List.getD_eq_getElem?_getD, List.getElem?_set_ne h0]

/-- A text of 1537 code units that begins with `b` and ends with U+0000 gives the first
component the value -2. -/
theorem getD_dummyLoop_minus_two (mid : JSString) (hmid : mid.length = 1535)
    (vector : List Int) (hlen : vector.length = 1536) (h0 : vector.getD 0 0 = 0) :
    (dummyLoop 0 (98 :: (mid ++ [0])) vector).getD 0 0 = -2 := by
  have hfirst : (vector.set 0 (Int.tmod (vector.getD 0 0 + ((98 : Nat) : Int)) 2 - 1)).getD 0 0
      = -1 := by
    rw [h0]
    simp [List.getD_eq_getElem?_getD, List.getElem?_set_self, hlen]
    decide
  rw [dummyLoop, dummyLoop_append, hmid]
  have hkeep := getD_dummyLoop_of_ne 0 mid (0 + 1)
    (vector.set (0 % 1536) (Int.tmod (vector.getD (0 % 1536) 0 + ((98 : Nat) : Int)) 2 - 1))
    (fun k hk => by rw [hmid] at hk; omega)
  rw [show (0 : Nat) % 1536 = 0 from rfl] at hkeep ⊢
  rw [hfirst] at hkeep
  simp only [dummyLoop]
  rw [show (0 + 1 + 1535) % 1536 = 0 from rfl, hkeep, List.getD_eq_getElem?_getD,
    List.getElem?_set_self (by rw [length_dummyLoop, List.length_set, hlen]; decide)]
  decide

/-- While no component is written twice, the loop writes `charCode % 2 - 1` into the
next free component: the components before position `i` are kept, the zeros after the
text are left. -/
theorem dummyLoop_fresh (text : JSString) :
    ∀ (i : Nat) (done : List Int), done.length = i → i + text.length ≤ 1536 →
      dummyLoop i text (done ++ List.replicate (1536 - i) 0) =
        done ++ text.map (fun charCode => ((charCode % 2 : Nat) : Int) - 1) ++
          List.replicate (1536 - i - text.length) 0 := by
  induction text with
  | nil => intro i done _ _; simp [dummyLoop]
  | cons c rest ih =>
    intro i done hdone hle
    rw [List.length_cons] at hle
    have hi : i % 1536 = i := Nat.mod_eq_of_lt (by omega)
    have hrep : List.replicate (1536 - i) (0 : Int) =
        0 :: List.replicate (1536 - (i + 1)) 0 := by
      rw [show 1536 - i = (1536 - (i + 1)) + 1 by omega, List.replicate_succ]
    have hget : (done ++ List.replicate (1536 - i) (0 : Int)).getD i 0 = 0 := by
      rw [hrep, List.getD_eq_getElem?_getD, List.getElem?_append_right (by omega), hdone]
      simp
    have hset : (done ++ List.replicate (1536 - i) (0 : Int)).set i
          (Int.tmod (0 + (c : Int)) 2 - 1) =
        (done ++ [((c % 2 : Nat) : Int) - 1]) ++ List.replicate (1536 - (i + 1)) 0 := by
      rw [hrep, List.set_append_right _ _ (by omega), hdone, Nat.sub_self, List.set_cons_zero,
        List.append_assoc, List.singleton_append, zero_add,
        show Int.tmod (c : Int) 2 = ((c % 2 : Nat) : Int) from rfl]
    rw [dummyLoop]
    simp only [hi, hget, hset]
    rw [ih (i + 1) (done ++ [((c % 2 : Nat) : Int) - 1]) (by simp [hdone]) (by omega)]
    simp only [List.map_cons, List.append_assoc, List.singleton_append, List.length_cons]
    rw [show 1536 - (i + 1) - rest.length = 1536 - i - (rest.length + 1) by omega]

/-- The pseudo-embedding of a text of at most 1536 code units, component by component. -/
theorem generateDummyEmbedding_of_length_le (text : JSString) (h : text.length ≤ 1536) :
    generateDummyEmbedding text =
      text.map (fun charCode => ((charCode % 2 : Nat) : Int) - 1) ++
        List.replicate (1536 - text.length) 0 := by
  unfold generateDummyEmbedding
  split
  · next h0 => subst h0; rfl
  · have := dummyLoop_fresh text 0 [] rfl (by omega)
    simp only [List.nil_append, Nat.sub_zero] at this
    exact this

theorem mem_generateDummyEmbedding_of_length_le (text : JSString) (h : text.length ≤ 1536)
    (x : Int) (hx : x ∈ generateDummyEmbedding text) : x = -1 ∨ x = 0 := by
  rw [generateDummyEmbedding_of_length_le text h, List.mem_append] at hx
  rcases hx with hx | hx
  · obtain ⟨c, _, rfl⟩ := List.mem_map.1 hx
    have : c % 2 = 0 ∨ c % 2 = 1 := by omega
    rcases this with h0 | h1
    · left; rw [h0]; rfl
    · right; rw [h1]; rfl
  · right; exact (List.mem_replicate.1 hx).2

theorem mem_pushChunks {P : Type} (mkPoint : Nat → JSString → CourseDocument → P)
    (doc : CourseDocument) (p : P) :
    ∀ (chunks : List JSString) (k : Nat), p ∈ pushChunks mkPoint doc k chunks →
      ∃ pointId chunk, p = mkPoint pointId chunk doc := by
  intro chunks
  induction chunks with
  | nil => intro k hp; exact absurd hp (List.not_mem_nil p)
  | cons c rest ih =>
    intro k hp
    rw [pushChunks, List.mem_cons] at hp
    rcases hp with hp | hp
    · exact ⟨k, c, hp⟩
    · exact ih (k + 1) hp

/-- Every prepared point was built by `mkPoint` from a counter value, a chunk and a
document. -/
theorem mem_preparePoints {P : Type} (mkPoint : Nat → JSString → CourseDocument → P)
    (p : P) :
    ∀ (docs : List CourseDocument) (k : Nat) (points : List P),
      preparePoints mkPoint k docs = some points → p ∈ points →
        ∃ pointId chunk doc, p = mkPoint pointId chunk doc := by
  intro docs
  induction docs with
  | nil =>
    intro k points h hp
    rw [preparePoints] at h
    rw [← Option.some.inj h] at hp
    exact absurd hp (List.not_mem_nil p)
  | cons d rest ih =>
    intro k points h hp
    rw [preparePoints] at h
    cases hc : splitIntoChunks d.content 1000 with
    | none => rw [hc] at h; exact absurd h (by simp)
    | some chunks =>
      rw [hc] at h
      simp only at h
      cases hr : preparePoints mkPoint (k + chunks.length) rest with
      | none => rw [hr] at h; exact absurd h (by simp)
      | some later =>
        rw [hr] at h
        simp only at h
        rw [← Option.some.inj h, List.mem_append] at hp
        rcases hp with hp | hp
        · obtain ⟨pointId, chunk, e⟩ := mem_pushChunks mkPoint d p chunks k hp
          exact ⟨pointId, chunk, d, e⟩
        · exact ih (k + chunks.length) later hr hp

/-! ## The claims about the pseudo-embeddings -/

/-- C21: for every text, the empty string included, `generateDummyEmbedding` and
`generateEmbeddingsForQuery` each return a vector of exactly 1536 components, the
vector size declared when the `course_content` collection is created. -/
theorem pseudoEmbedding_dimension (text : JSString) :
    (generateDummyEmbedding text).length = collectionVectorSize ∧
      ∀ (F : Type) (ops : FloatOps F),
        (generateEmbeddingsForQuery ops text).length = collectionVectorSize := by
  constructor
  · unfold generateDummyEmbedding collectionVectorSize
    split
    · exact List.length_replicate _ _
    · rw [length_dummyLoop]; exact List.length_replicate _ _
  · intro F ops
    unfold generateEmbeddingsForQuery collectionVectorSize
    split
    · rw [List.length_map]; exact List.length_replicate _ _
    · simp only
      split <;> rw [List.length_map, length_queryLoop] <;> exact List.length_replicate _ _

/-- C29 fails on the code: it is not true that for every text every component of
`generateDummyEmbedding` lies in [-1, 1]. For the text of 1537 code units `b`, 1535
times `a`, U+0000 the first component is -2: the second write to the component computes
`(-1 + 0) % 2 - 1`, and `%` keeps the sign of -1. -/
theorem generateDummyEmbedding_component_minus_two :
    (generateDummyEmbedding (98 :: (List.replicate 1535 97 ++ [0]))).getD 0 0 = -2 ∧
      ((-2 : Int) < -1) ∧
      ¬ ∀ text : JSString, ∀ x ∈ generateDummyEmbedding text, -1 ≤ x ∧ x ≤ 1 := by
  have hget : (generateDummyEmbedding (98 :: (List.replicate 1535 97 ++ [0]))).getD 0 0
      = -2 := by
    unfold generateDummyEmbedding
    rw [if_neg (List.cons_ne_nil _ _)]
    exact getD_dummyLoop_minus_two _ (List.length_replicate _ _) _
      (List.length_replicate _ _) rfl
  refine ⟨hget, by decide, ?_⟩
  intro hall
  rw [List.getD_eq_getElem?_getD] at hget
  cases hx : (generateDummyEmbedding (98 :: (List.replicate 1535 97 ++ [0])))[0]? with
  | none => rw [hx] at hget; exact absurd hget (by decide)
  | some x =>
    rw [hx, Option.getD_some] at hget
    have hrange := hall _ x (List.getElem?_mem hx)
    omega

/-- C29 as amended: for every text of at most 1536 code units the result of
`generateDummyEmbedding` is, component by component, `charCode % 2 - 1` for the code
units of the text followed by zeros, so every component is -1 or 0 and lies in
[-1, 1]. The only call of the function, in `indexContent`, passes the first 100 code
units of a chunk: every vector of a prepared point has all its components in [-1, 1]. -/
theorem generateDummyEmbedding_range (text : JSString) (h : text.length ≤ 1536) :
    generateDummyEmbedding text =
      text.map (fun charCode => ((charCode % 2 : Nat) : Int) - 1) ++
        List.replicate (1536 - text.length) 0 ∧
    (∀ x ∈ generateDummyEmbedding text, (x = -1 ∨ x = 0) ∧ -1 ≤ x ∧ x ≤ 1) ∧
    (∀ (pointId : Nat) (chunk : JSString) (doc : CourseDocument),
      ∀ x ∈ (qdrantPoint pointId chunk doc).vector, (x = -1 ∨ x = 0) ∧ -1 ≤ x ∧ x ≤ 1) ∧
    ∀ (docs : List CourseDocument) (points : List (IndexPoint Nat)),
      preparePoints qdrantPoint 0 docs = some points →
        ∀ p ∈ points, ∀ x ∈ p.vector, (x = -1 ∨ x = 0) ∧ -1 ≤ x ∧ x ≤ 1 := by
  have hpoint : ∀ (pointId : Nat) (chunk : JSString) (doc : CourseDocument),
      ∀ x ∈ (qdrantPoint pointId chunk doc).vector,
        (x = -1 ∨ x = 0) ∧ -1 ≤ x ∧ x ≤ 1 := by
    intro pointId chunk doc x hx
    have hlen : (chunk.take 100).length ≤ 1536 := by
      rw [List.length_take]; omega
    have := mem_generateDummyEmbedding_of_length_le (chunk.take 100) hlen x hx
    omega
  refine ⟨generateDummyEmbedding_of_length_le text h, ?_, hpoint, ?_⟩
  · intro x hx
    have := mem_generateDummyEmbedding_of_length_le text h x hx
    omega
  · intro docs points hprep p hp x hx
    obtain ⟨pointId, chunk, doc, e⟩ := mem_preparePoints qdrantPoint p docs 0 points hprep hp
    rw [e] at hx
    exact hpoint pointId chunk doc x hx

/-- C29 as amended, on the text `ab`: the vector begins with 0 and -1, and all its
components are -1 or 0. -/
theorem generateDummyEmbedding_range_witness :
    (js "ab").length ≤ 1536 ∧
      ∀ x ∈ generateDummyEmbedding (js "ab"), (x = -1 ∨ x = 0) ∧ -1 ≤ x ∧ x ≤ 1 :=
  ⟨by decide, (generateDummyEmbedding_range (js "ab") (by decide)).2.1⟩

/-! ## Batches -/

theorem flatten_batchLoop {α : Type} (points : List α) (b : Nat) (hb : 1 ≤ b) :
    ∀ fuel i : Nat, points.length - i ≤ fuel →
      (batchLoop points b fuel i).flatten = points.drop i := by
  intro fuel
  induction fuel with
  | zero =>
    intro i h
    rw [List.drop_eq_nil_of_le (by omega)]
    rfl
  | succ fuel ih =>
    intro i h
    unfold batchLoop
    by_cases hi : i < points.length
    · rw [if_pos hi, List.flatten_cons, ih (i + b) (by omega), ← List.drop_drop,
        List.take_append_drop]
    · rw [if_neg hi, List.drop_eq_nil_of_le (by omega)]
      rfl

theorem length_batchLoop {α : Type} (points : List α) (b : Nat) (hb : 1 ≤ b) :
    ∀ fuel i : Nat, points.length - i ≤ fuel →
      (batchLoop points b fuel i).length = (points.length - i + b - 1) / b := by
  intro fuel
  induction fuel with
  | zero =>
    intro i h
    have h0 : points.length - i = 0 := by omega
    rw [h0, Nat.div_eq_of_lt (by omega)]
    rfl
  | succ fuel ih =>
    intro i h
    unfold batchLoop
    by_cases hi : i < points.length
    · rw [if_pos hi, List.length_cons, ih (i + b) (by omega)]
      by_cases hfull : b ≤ points.length - i
      · have hsplit : points.length - i + b - 1 = (points.length - (i + b) + b - 1) + b := by
          omega
        rw [hsplit, Nat.add_div_right _ (by omega)]
      · have h1 : points.length - (i + b) + b - 1 < b := by omega
        rw [Nat.div_eq_of_lt h1]
        exact (Nat.div_eq_of_lt_le (by omega) (by omega)).symm
    · rw [if_neg hi]
      have h0 : points.length - i = 0 := by omega
      rw [h0, Nat.div_eq_of_lt (by omega)]
      rfl

theorem length_of_mem_batchLoop {α : Type} (points : List α) (b : Nat) (hb : 1 ≤ b) :
    ∀ (fuel i : Nat), ∀ batch ∈ batchLoop points b fuel i,
      1 ≤ batch.length ∧ batch.length ≤ b := by
  intro fuel
  induction fuel with
  | zero => intro i batch h; simp [batchLoop] at h
  | succ fuel ih =>
    intro i batch h
    unfold batchLoop at h
    by_cases hi : i < points.length
    · rw [if_pos hi, List.mem_cons] at h
      rcases h with h | h
      · rw [h, List.length_take, List.length_drop]
        omega
      · exact ih (i + b) batch h
    · rw [if_neg hi] at h
      exact absurd h (List.not_mem_nil _)

theorem batchLoop_ne_nil {α : Type} (points : List α) (b fuel i : Nat)
    (h : batchLoop points b fuel i ≠ []) : i < points.length := by
  cases fuel with
  | zero => exact absurd rfl h
  | succ fuel =>
    unfold batchLoop at h
    by_contra hi
    rw [if_neg hi] at h
    exact h rfl

theorem length_of_mem_dropLast_batchLoop {α : Type} (points : List α) (b : Nat) :
    ∀ (fuel i : Nat), ∀ batch ∈ (batchLoop points b fuel i).dropLast, batch.length = b := by
  intro fuel
  induction fuel with
  | zero => intro i batch h; simp [batchLoop] at h
  | succ fuel ih =>
    intro i batch h
    unfold batchLoop at h
    by_cases hi : i < points.length
    · rw [if_pos hi] at h
      cases hrest : batchLoop points b fuel (i + b) with
      | nil => rw [hrest] at h; simp at h
      | cons next more =>
        have hnext := batchLoop_ne_nil points b fuel (i + b) (by rw [hrest]; simp)
        rw [hrest, List.dropLast_cons₂, List.mem_cons] at h
        rcases h with h | h
        · rw [h, List.length_take, List.length_drop]
          omega
        · exact ih (i + b) batch (by rw [hrest]; exact h)
    · rw [if_neg hi] at h
      simp at h

/-- C22: for a list of `n` prepared points and a batch size `b ≥ 1` (10 in
src/content-indexer.js and the URL embedders, 50 in src/indexer.js), the batches formed
by the ingestion loop are `⌈n / b⌉` consecutive slices, each of size at least 1 and at
most `b`, every one but the last of size exactly `b`, and their concatenation in order
is the whole list. -/
theorem batches_partition {α : Type} (points : List α) (b : Nat) (hb : 1 ≤ b) :
    (batches points b).length = (points.length + b - 1) / b ∧
      (∀ batch ∈ batches points b, 1 ≤ batch.length ∧ batch.length ≤ b) ∧
      (∀ batch ∈ (batches points b).dropLast, batch.length = b) ∧
      (batches points b).flatten = points ∧
      (∀ k : Nat, (batches points b)[k]? =
        if k * b < points.length then some ((points.drop (k * b)).take b) else none) := by
  unfold batches
  refine ⟨?_, length_of_mem_batchLoop points b hb _ 0,
    length_of_mem_dropLast_batchLoop points b _ 0, ?_, ?_⟩
  · simpa using length_batchLoop points b hb points.length 0 (by omega)
  · simpa using flatten_batchLoop points b hb points.length 0 (by omega)
  · have key : ∀ (fuel i k : Nat), points.length - i ≤ fuel →
        (batchLoop points b fuel i)[k]? =
          if i + k * b < points.length then some ((points.drop (i + k * b)).take b)
          else none := by
      intro fuel
      induction fuel with
      | zero =>
        intro i k h
        rw [if_neg (by omega)]
        rfl
      | succ fuel ih =>
        intro i k h
        unfold batchLoop
        by_cases hi : i < points.length
        · rw [if_pos hi]
          cases k with
          | zero => simp [hi]
          | succ k =>
            rw [List.getElem?_cons_succ, ih (i + b) k (by omega),
              show i + b + k * b = i + (k + 1) * b by ring]
        · rw [if_neg hi, if_neg (by omega)]
          rfl
    intro k
    simpa using key points.length 0 k (by omega)

/-- C22 for seven points and batch size 3: three batches. -/
theorem batches_partition_witness :
    1 ≤ 3 ∧ (batches [0, 1, 2, 3, 4, 5, 6] 3).length = (7 + 3 - 1) / 3 ∧
      (batches [0, 1, 2, 3, 4, 5, 6] 3).flatten = [0, 1, 2, 3, 4, 5, 6] :=
  ⟨by decide, (batches_partition [0, 1, 2, 3, 4, 5, 6] 3 (by decide)).1,
    (batches_partition [0, 1, 2, 3, 4, 5, 6] 3 (by decide)).2.2.2.1⟩

/-! ## Prepared points -/

theorem numberToString_injective : Function.Injective numberToString := by
  have hmap : Function.Injective (fun l : List Nat => l.map (fun d => d + 48)) :=
    List.map_injective_iff.2 (fun a b h => by simpa using h)
  have hpos : ∀ n : Nat, n ≠ 0 → numberToString n ≠ [48] := by
    intro n hn h
    unfold numberToString at h
    rw [if_neg hn] at h
    have h1 : (Nat.digits 10 n).reverse = [0] := hmap (by simpa using h)
    have h2 : Nat.digits 10 n = [0] := by
      have := congrArg List.reverse h1
      simpa using this
    have h3 := Nat.getLast_digit_ne_zero 10 hn
    simp [h2] at h3
  intro n m h
  by_cases hn : n = 0
  · by_cases hm : m = 0
    · rw [hn, hm]
    · subst hn
      exact absurd h.symm (hpos m hm)
  · by_cases hm : m = 0
    · subst hm
      exact absurd h (hpos n hn)
    · unfold numberToString at h
      rw [if_neg hn, if_neg hm] at h
      exact Nat.digits_inj_iff.1 (List.reverse_injective (hmap h))

theorem map_pushChunks {P β : Type} (mkPoint : Nat → JSString → CourseDocument → P)
    (g : P → β) (h : Nat → JSString → β) (doc : CourseDocument)
    (hg : ∀ k c, g (mkPoint k c doc) = h k c) :
    ∀ (chunks : List JSString) (k : Nat),
      (pushChunks mkPoint doc k chunks).map g =
        List.zipWith h (List.range' k chunks.length) chunks := by
  intro chunks
  induction chunks with
  | nil => intro k; rfl
  | cons c rest ih =>
    intro k
    simp [pushChunks, hg, ih, List.range'_succ]

theorem zipWith_range'_snd {β : Type} (f : JSString → β) (chunks : List JSString) :
    ∀ k : Nat, List.zipWith (fun _ c => f c) (List.range' k chunks.length) chunks =
      chunks.map f := by
  induction chunks with
  | nil => intro k; rfl
  | cons c rest ih => intro k; simp [List.range'_succ, ih]

theorem zipWith_range'_fst {β : Type} (g : Nat → β) (chunks : List JSString) :
    ∀ k : Nat, List.zipWith (fun k _ => g k) (List.range' k chunks.length) chunks =
      (List.range' k chunks.length).map g := by
  induction chunks with
  | nil => intro k; rfl
  | cons c rest ih => intro k; simp [List.range'_succ, ih]

theorem length_pushChunks {P : Type} (mkPoint : Nat → JSString → CourseDocument → P)
    (doc : CourseDocument) :
    ∀ (chunks : List JSString) (k : Nat),
      (pushChunks mkPoint doc k chunks).length = chunks.length := by
  intro chunks
  induction chunks with
  | nil => intro k; rfl
  | cons c rest ih => intro k; simp [pushChunks, ih]

/-- The chunks of a document, with the default limit, which never raises. -/
theorem splitIntoChunks_default (content : JSString) :
    splitIntoChunks content 1000 = some ((splitIntoChunks content 1000).getD []) := by
  obtain ⟨cs, h, _⟩ := splitIntoChunks_sound content (show 1 ≤ 1000 by decide)
  rw [h]; rfl

/-- The prepared points: `preparePoints` returns, the payloads are those of the chunks of
the documents in order, and the ids render the numbers from `k` on. -/
theorem preparePoints_spec {P I : Type} (mkPoint : Nat → JSString → CourseDocument → P)
    (payloadOf : P → PointPayload) (idOf : P → I) (render : Nat → I)
    (hpayload : ∀ k c d, payloadOf (mkPoint k c d) =
      { content := c, source := d.source, module := d.module, original_id := d.id })
    (hid : ∀ k c d, idOf (mkPoint k c d) = render k) :
    ∀ (docs : List CourseDocument) (k : Nat),
      ∃ points, preparePoints mkPoint k docs = some points ∧
        points.map payloadOf = docs.flatMap (fun doc =>
          ((splitIntoChunks doc.content 1000).getD []).map (fun chunk =>
            ({ content := chunk, source := doc.source, module := doc.module,
               original_id := doc.id } : PointPayload))) ∧
        points.map idOf = (List.range' k points.length).map render := by
  intro docs
  induction docs with
  | nil => intro k; exact ⟨[], rfl, rfl, rfl⟩
  | cons doc docs ih =>
    intro k
    obtain ⟨points, hrest, hpay, hids⟩ :=
      ih (k + ((splitIntoChunks doc.content 1000).getD []).length)
    refine ⟨pushChunks mkPoint doc k ((splitIntoChunks doc.content 1000).getD []) ++ points,
      ?_, ?_, ?_⟩
    · rw [preparePoints, splitIntoChunks_default doc.content]
      simp only [Option.getD_some, hrest]
    · rw [List.map_append, hpay, List.flatMap_cons,
        map_pushChunks mkPoint payloadOf
          (fun _ c => { content := c, source := doc.source, module := doc.module,
                        original_id := doc.id }) doc (fun k c => hpayload k c doc)]
      congr 1
      exact zipWith_range'_snd _ _ k
    · rw [List.map_append, hids, List.length_append, length_pushChunks,
        map_pushChunks mkPoint idOf (fun k _ => render k) doc (fun k c => hid k c doc),
        Nat.add_comm _ points.length, ← List.range'_append_1, List.map_append]
      congr 1
      exact zipWith_range'_fst _ _ k

/-- C24: in `indexContent`, the prepared points are, in order, one point per chunk of
`splitIntoChunks(doc.content)` of each document in turn, carrying the chunk as payload
content and the document's source, module and id; the ids are the numbers from 0 on in
that order (in src/indexer.js rendered as `doc_0`, `doc_1`, ...), so they strictly
increase with the position and are pairwise distinct. -/
theorem preparePoints_ordered (docs : List CourseDocument) :
    (∃ points, preparePoints qdrantPoint 0 docs = some points ∧
      points.map (fun p => p.payload) = docs.flatMap (fun doc =>
        ((splitIntoChunks doc.content 1000).getD []).map (fun chunk =>
          ({ content := chunk, source := doc.source, module := doc.module,
             original_id := doc.id } : PointPayload))) ∧
      points.map (fun p => p.id) = List.range points.length ∧
      (points.map (fun p => p.id)).Pairwise (fun a b => a < b)) ∧
    (∃ points, preparePoints pineconePoint 0 docs = some points ∧
      points.map (fun p => p.payload) = docs.flatMap (fun doc =>
        ((splitIntoChunks doc.content 1000).getD []).map (fun chunk =>
          ({ content := chunk, source := doc.source, module := doc.module,
             original_id := doc.id } : PointPayload))) ∧
      points.map (fun p => p.id) =
        (List.range points.length).map (fun k => js "doc_" ++ numberToString k) ∧
      (points.map (fun p => p.id)).Nodup) := by
  constructor
  · obtain ⟨points, h1, h2, h3⟩ := preparePoints_spec qdrantPoint (fun p => p.payload)
      (fun p => p.id) (fun k => k) (fun _ _ _ => rfl) (fun _ _ _ => rfl) docs 0
    have hids : points.map (fun p => p.id) = List.range points.length := by
      rw [h3, List.range_eq_range']
      simp
    refine ⟨points, h1, h2, hids, ?_⟩
    rw [hids, List.range_eq_range']
    exact List.pairwise_lt_range' 0 points.length
  · obtain ⟨points, h1, h2, h3⟩ := preparePoints_spec pineconePoint (fun p => p.payload)
      (fun p => p.id) (fun k => js "doc_" ++ numberToString k) (fun _ _ _ => rfl)
      (fun _ _ _ => rfl) docs 0
    have hids : points.map (fun p => p.id) =
        (List.range points.length).map (fun k => js "doc_" ++ numberToString k) := by
      rw [h3, List.range_eq_range']
    refine ⟨points, h1, h2, hids, ?_⟩
    rw [hids]
    exact (List.nodup_range _).map
      (fun a b h => numberToString_injective (List.append_cancel_left h))

/-! ## The collection step and the upserts of `indexContent` -/

/-- The requests of the batch loop are the upserts of the batches, in order, whatever
the upserts return. -/
theorem upsertBatches_calls {σ : Type} (client : QdrantClient σ) :
    ∀ (bs : List (List (IndexPoint Nat))) (store : σ),
      (upsertBatches client bs store).2 =
        bs.map (fun batch => QdrantCall.upsert (js "course_content") batch) := by
  intro bs
  induction bs with
  | nil => intro store; rfl
  | cons batch rest ih =>
    intro store
    unfold upsertBatches
    rcases hres : client.upsert (js "course_content") batch store with ⟨res, store1⟩
    cases res with
    | ok u => simp [ih]
    | error e => simp [ih]

/-- The upserts of the batch loop of src/indexer.js when every embedding call returns:
the loop returns and has tried to upsert every batch, in order. -/
theorem indexBatches_upserts {E : Type} (sv : PineconeServices E)
    (hembed : ∀ texts, ∃ embeddings, sv.embedTexts texts = .ok embeddings) :
    ∀ bs : List (List (IndexPoint JSString)),
      (indexBatches sv bs).1 = .ok () ∧
        ((indexBatches sv bs).2.filter (fun call =>
          match call with
          | .upsert _ => true
          | .embedTexts _ => false)).length = bs.length := by
  intro bs
  induction bs with
  | nil => exact ⟨rfl, rfl⟩
  | cons batch rest ih =>
    obtain ⟨embeddings, hemb⟩ := hembed (batch.map (fun point => point.payload.content))
    unfold indexBatches
    simp only [hemb]
    cases sv.upsert (assignValues embeddings 0 batch) with
    | ok u => simpa using ih
    | error e => simpa using ih

/-- C23: in `indexContent` a failed upsert of a batch is skipped and ingestion goes on:
whatever the upserts return, when the collection step succeeds `indexContent` returns
normally and its requests after that step are the upserts of the `⌈n / 10⌉` batches of
the `n` prepared points, one for each batch, in order; the loop of src/indexer.js
likewise tries to upsert every batch when the embedding calls return. -/
theorem indexContent_upserts_every_batch {σ : Type} (client : QdrantClient σ)
    (documents : List CourseDocument) (store store1 : σ) (calls : List QdrantCall)
    (hensure : ensureCollection client store = (.ok (), store1, calls)) :
    ∃ points, preparePoints qdrantPoint 0 documents = some points ∧
      (indexContent client documents store).1 = .ok () ∧
      (indexContent client documents store).2.2 =
        calls ++ (batches points 10).map
          (fun batch => QdrantCall.upsert (js "course_content") batch) ∧
      ((batches points 10).map
          (fun batch => QdrantCall.upsert (js "course_content") batch)).length =
        (points.length + 10 - 1) / 10 ∧
      (batches points 10).flatten = points ∧
      ∀ (E : Type) (sv : PineconeServices E) (bs : List (List (IndexPoint JSString))),
        (∀ texts, ∃ embeddings, sv.embedTexts texts = .ok embeddings) →
        (indexBatches sv bs).1 = .ok () ∧
          ((indexBatches sv bs).2.filter (fun call =>
            match call with
            | .upsert _ => true
            | .embedTexts _ => false)).length = bs.length := by
  obtain ⟨points, hpoints, _⟩ := preparePoints_spec qdrantPoint (fun p => p.payload)
    (fun p => p.id) (fun k => k) (fun _ _ _ => rfl) (fun _ _ _ => rfl) documents 0
  have hcalls := upsertBatches_calls client (batches points 10) store1
  have hrun : indexContent client documents store =
      (.ok (), (upsertBatches client (batches points 10) store1).1,
        calls ++ (upsertBatches client (batches points 10) store1).2) := by
    unfold indexContent
    rw [hpoints]
    simp only [hensure]
  refine ⟨points, hpoints, by rw [hrun], by rw [hrun, hcalls], ?_, ?_, ?_⟩
  · rw [List.length_map]
    unfold batches
    simpa using length_batchLoop points 10 (by decide) points.length 0 (by omega)
  · unfold batches
    simpa using flatten_batchLoop points 10 (by decide) points.length 0 (by omega)
  · intro E sv bs hembed
    exact indexBatches_upserts sv hembed bs

/-- C23 with one short document, an empty store and upserts that all raise. -/
theorem indexContent_upserts_every_batch_witness :
    (indexContent failingUpsertClient
      [{ id := js "module-1/a.md", content := js "ROS 2", source := js "/docs/module-1/a.md",
         module := js "module-1" }] []).1 = .ok () :=
  let ⟨_, _, h, _⟩ := indexContent_upserts_every_batch failingUpsertClient
    [{ id := js "module-1/a.md", content := js "ROS 2", source := js "/docs/module-1/a.md",
       module := js "module-1" }] [] [js "course_content"]
    [.getCollections, .createCollection (js "course_content") 1536] rfl
  h

/-- The collection step on the set store: it never raises, it issues a create request
exactly when the name is absent, and afterwards the name is there. -/
theorem ensureCollection_setStore (store : List JSString) :
    ensureCollection setStoreClient store =
      if js "course_content" ∈ store then (.ok (), store, [.getCollections])
      else (.ok (), store ++ [js "course_content"],
        [.getCollections, .createCollection (js "course_content") 1536]) := by
  unfold ensureCollection setStoreClient
  by_cases h : js "course_content" ∈ store
  · have hany : store.any (fun name => name == js "course_content") = true := by
      rw [List.any_eq_true]
      exact ⟨_, h, by simp⟩
    simp only [hany, h, if_true]
    rfl
  · have hany : store.any (fun name => name == js "course_content") = false := by
      rw [List.any_eq_false]
      intro x hx hxe
      have : x = js "course_content" := by simpa using hxe
      exact h (this ▸ hx)
    simp only [hany, h, if_false]
    rfl

/-- C27: with the vector store a set of collection names, the collection step of
`indexContent` is idempotent: run twice in succession from any store, the second run
issues no create request, does not raise, changes nothing, and the store then has
exactly one collection named `course_content`. -/
theorem ensureCollection_idempotent (store : List JSString) (hset : store.Nodup) :
    (ensureCollection setStoreClient store).1 = .ok () ∧
      (ensureCollection setStoreClient (ensureCollection setStoreClient store).2.1).1
        = .ok () ∧
      (ensureCollection setStoreClient (ensureCollection setStoreClient store).2.1).2.2
        = [.getCollections] ∧
      (ensureCollection setStoreClient (ensureCollection setStoreClient store).2.1).2.1
        = (ensureCollection setStoreClient store).2.1 ∧
      ((ensureCollection setStoreClient
        (ensureCollection setStoreClient store).2.1).2.1.filter
          (fun name => name == js "course_content")).length = 1 ∧
      (ensureCollection setStoreClient store).2.1.Nodup := by
  have hcount : ∀ l : List JSString, l.Nodup → js "course_content" ∈ l →
      (l.filter (fun name => name == js "course_content")).length = 1 := by
    intro l
    induction l with
    | nil => intro _ hmem; exact absurd hmem (List.not_mem_nil _)
    | cons x xs ih =>
      intro hl hmem
      rw [List.nodup_cons] at hl
      by_cases hx : x = js "course_content"
      · have hnil : xs.filter (fun name => name == js "course_content") = [] := by
          rw [List.filter_eq_nil_iff]
          intro y hy hye
          have hyx : y = js "course_content" := by simpa using hye
          exact hl.1 (hx ▸ hyx ▸ hy)
        rw [List.filter_cons_of_pos (by simpa using hx), hnil]
        rfl
      · rw [List.filter_cons_of_neg (by simpa using hx)]
        rcases List.mem_cons.1 hmem with hm | hm
        · exact absurd hm.symm hx
        · exact ih hl.2 hm
  by_cases h : js "course_content" ∈ store
  · have h1 : ensureCollection setStoreClient store = (.ok (), store, [.getCollections]) := by
      rw [ensureCollection_setStore, if_pos h]
    have e1 : (ensureCollection setStoreClient store).2.1 = store := by rw [h1]
    rw [e1, h1]
    exact ⟨rfl, rfl, rfl, rfl, hcount store hset h, hset⟩
  · have h1 : ensureCollection setStoreClient store =
        (.ok (), store ++ [js "course_content"],
          [.getCollections, .createCollection (js "course_content") 1536]) := by
      rw [ensureCollection_setStore, if_neg h]
    have hmem : js "course_content" ∈ store ++ [js "course_content"] := by simp
    have hnodup : (store ++ [js "course_content"]).Nodup := by
      rw [List.nodup_append]
      refine ⟨hset, List.nodup_singleton _, ?_⟩
      intro a ha hb
      rw [List.mem_singleton] at hb
      exact h (hb ▸ ha)
    have h2 : ensureCollection setStoreClient (store ++ [js "course_content"]) =
        (.ok (), store ++ [js "course_content"], [.getCollections]) := by
      rw [ensureCollection_setStore, if_pos hmem]
    have e1 : (ensureCollection setStoreClient store).2.1 = store ++ [js "course_content"] := by
      rw [h1]
    rw [e1, h2, h1]
    exact ⟨rfl, rfl, rfl, rfl, hcount _ hnodup hmem, hnodup⟩

/-- C27 from the store that holds the single collection `notes`. -/
theorem ensureCollection_idempotent_witness :
    [js "notes"].Nodup ∧
      (ensureCollection setStoreClient (ensureCollection setStoreClient [js "notes"]).2.1).2.2
        = [.getCollections] :=
  ⟨by decide, (ensureCollection_idempotent [js "notes"] (by decide)).2.2.1⟩

/-- C28 fails on the code: the file `"Intro\n---\nsection\n---\nend"` does not begin
with `---`, yet `readCourseContent` stores `"Intro\n\nend"`: the replacement is not
anchored at the start of the file and deletes the first block between two `---`
wherever it stands. -/
theorem readCourseContent_removes_inner_block :
    startsWith (js "Intro\n---\nsection\n---\nend") (js "---") = false ∧
      removeFrontmatter (js "Intro\n---\nsection\n---\nend") = js "Intro\n\nend" ∧
      (readCourseContent (exampleFileSystem (js "Intro\n---\nsection\n---\nend"))).map
        (fun doc => doc.content) = [js "Intro\n\nend"] := by
  decide

/-! ## Filtering the URLs of a sitemap -/

theorem endsWith_iff (s suffix : JSString) : endsWith s suffix = true ↔ suffix <:+ s := by
  unfold endsWith
  rw [startsWith_iff, List.reverse_prefix]

theorem mem_uniqueUrls (url : JSString) :
    ∀ urls : List JSString, url ∈ uniqueUrls urls ↔ url ∈ urls
  | [] => Iff.rfl
  | first :: rest => by
    rw [uniqueUrls, List.mem_cons, List.mem_cons, List.mem_filter, mem_uniqueUrls url rest]
    by_cases h : url = first
    · simp [h]
    · simp [h]

theorem nodup_uniqueUrls : ∀ urls : List JSString, (uniqueUrls urls).Nodup
  | [] => List.nodup_nil
  | first :: rest => by
    rw [uniqueUrls, List.nodup_cons]
    refine ⟨?_, (nodup_uniqueUrls rest).filter _⟩
    intro h
    have := (List.mem_filter.1 h).2
    simp at this

theorem uniqueUrls_of_nodup : ∀ urls : List JSString, urls.Nodup → uniqueUrls urls = urls
  | [], _ => rfl
  | first :: rest, h => by
    rw [List.nodup_cons] at h
    rw [uniqueUrls, uniqueUrls_of_nodup rest h.2, List.filter_eq_self.2]
    intro a ha
    have hne : a ≠ first := fun e => h.1 (e ▸ ha)
    simpa using hne

/-- The distinct URLs stand in the order of their first occurrence. -/
theorem pairwise_indexOf_uniqueUrls :
    ∀ urls : List JSString,
      (uniqueUrls urls).Pairwise (fun a b => urls.indexOf a < urls.indexOf b)
  | [] => List.Pairwise.nil
  | first :: rest => by
    rw [uniqueUrls, List.pairwise_cons]
    constructor
    · intro b hb
      have hne : b ≠ first := by simpa using (List.mem_filter.1 hb).2
      rw [List.indexOf_cons, List.indexOf_cons]
      have h1 : (first == first) = true := by simp
      have h2 : (first == b) = false := by simpa using Ne.symm hne
      rw [h1, h2]
      simp
    · have ih := (pairwise_indexOf_uniqueUrls rest).sublist
        (List.filter_sublist (p := fun other => other != first) (uniqueUrls rest))
      refine List.Pairwise.imp_of_mem ?_ ih
      intro a b ha hb hab
      have hna : a ≠ first := by simpa using (List.mem_filter.1 ha).2
      have hnb : b ≠ first := by simpa using (List.mem_filter.1 hb).2
      rw [List.indexOf_cons, List.indexOf_cons]
      have h1 : (first == a) = false := by simpa using Ne.symm hna
      have h2 : (first == b) = false := by simpa using Ne.symm hnb
      rw [h1, h2]
      simpa using hab

theorem sameHostname_iff (hostname : JSString → Option JSString) (baseUrl url : JSString) :
    sameHostname hostname baseUrl url = true ↔
      ∃ host, hostname url = some host ∧ hostname baseUrl = some host := by
  unfold sameHostname
  cases hostname url with
  | none => simp
  | some urlHost =>
    cases hostname baseUrl with
    | none => simp
    | some baseHost =>
      simp only [beq_iff_eq, Option.some.injEq, exists_eq_left']
      exact eq_comm

theorem isContentUrl_iff (toLowerCase : JSString → JSString) (url : JSString) :
    isContentUrl toLowerCase url = true ↔
      ¬ (js "sitemap" <:+: toLowerCase url) ∧ ¬ (js ".xml" <:+ toLowerCase url) ∧
      ¬ (js ".json" <:+ toLowerCase url) ∧ ¬ (js ".pdf" <:+ toLowerCase url) ∧
      ¬ (js "tag" <:+: toLowerCase url) ∧ ¬ (js "category" <:+: toLowerCase url) := by
  unfold isContentUrl
  simp only [Bool.and_eq_true, Bool.not_eq_true', ← Bool.not_eq_true, includes_iff,
    endsWith_iff]
  tauto

/-- C25: `filterAndCleanUrls(urls, baseUrl)` of src/sitemap-parser.js returns exactly
the URLs of the input that parse with the same hostname as `baseUrl` and whose
lower-cased text neither contains `sitemap`, `tag` or `category` nor ends with `.xml`,
`.json` or `.pdf`, each once and in the order of first occurrence; applying it to its
own result gives that result again. -/
theorem filterAndCleanUrls_spec (toLowerCase : JSString → JSString)
    (hostname : JSString → Option JSString) (urls : List JSString) (baseUrl : JSString) :
    (∀ url, url ∈ filterAndCleanUrls toLowerCase hostname urls baseUrl ↔
      url ∈ urls ∧ (∃ host, hostname url = some host ∧ hostname baseUrl = some host) ∧
      ¬ (js "sitemap" <:+: toLowerCase url) ∧ ¬ (js ".xml" <:+ toLowerCase url) ∧
      ¬ (js ".json" <:+ toLowerCase url) ∧ ¬ (js ".pdf" <:+ toLowerCase url) ∧
      ¬ (js "tag" <:+: toLowerCase url) ∧ ¬ (js "category" <:+: toLowerCase url)) ∧
    (filterAndCleanUrls toLowerCase hostname urls baseUrl).Nodup ∧
    (filterAndCleanUrls toLowerCase hostname urls baseUrl).Pairwise
      (fun a b => urls.indexOf a < urls.indexOf b) ∧
    filterAndCleanUrls toLowerCase hostname
        (filterAndCleanUrls toLowerCase hostname urls baseUrl) baseUrl =
      filterAndCleanUrls toLowerCase hostname urls baseUrl := by
  have hnodup : (filterAndCleanUrls toLowerCase hostname urls baseUrl).Nodup :=
    ((nodup_uniqueUrls urls).filter _).filter _
  refine ⟨?_, hnodup, ?_, ?_⟩
  · intro url
    unfold filterAndCleanUrls
    rw [List.mem_filter, List.mem_filter, mem_uniqueUrls, sameHostname_iff, isContentUrl_iff,
      and_assoc]
  · unfold filterAndCleanUrls
    exact ((pairwise_indexOf_uniqueUrls urls).sublist (List.filter_sublist _)).sublist
      (List.filter_sublist _)
  · have hall : ∀ url ∈ filterAndCleanUrls toLowerCase hostname urls baseUrl,
        sameHostname hostname baseUrl url = true ∧ isContentUrl toLowerCase url = true := by
      intro url hurl
      unfold filterAndCleanUrls at hurl
      rw [List.mem_filter, List.mem_filter] at hurl
      exact ⟨hurl.1.2, hurl.2⟩
    generalize filterAndCleanUrls toLowerCase hostname urls baseUrl = result at hnodup hall
    unfold filterAndCleanUrls
    simp only
    rw [uniqueUrls_of_nodup result hnodup, List.filter_eq_self.2 (fun a ha => (hall a ha).1),
      List.filter_eq_self.2 (fun a ha => (hall a ha).2)]

/-- Lower-casing ASCII letters keeps the markers `sitemap` and `.xml` where they are. -/
theorem asciiToLowerCase_keeps_markers (url : JSString) :
    (js "sitemap" <:+: url → js "sitemap" <:+: asciiToLowerCase url) ∧
      (js ".xml" <:+ url → js ".xml" <:+ asciiToLowerCase url) := by
  constructor
  · intro h
    have h1 := List.IsInfix.map (fun c => if 65 ≤ c ∧ c ≤ 90 then c + 32 else c) h
    have h2 : (js "sitemap").map (fun c => if 65 ≤ c ∧ c ≤ 90 then c + 32 else c) =
        js "sitemap" := by decide
    rw [h2] at h1
    exact h1
  · intro h
    have h1 := List.IsSuffix.map (fun c => if 65 ≤ c ∧ c ≤ 90 then c + 32 else c) h
    have h2 : (js ".xml").map (fun c => if 65 ≤ c ∧ c ≤ 90 then c + 32 else c) =
        js ".xml" := by decide
    rw [h2] at h1
    exact h1

/-- No URL that contains `sitemap` or ends with `.xml` passes the content filter. -/
theorem isContentUrl_of_marker (toLowerCase : JSString → JSString)
    (hlower : ∀ url, (js "sitemap" <:+: url → js "sitemap" <:+: toLowerCase url) ∧
      (js ".xml" <:+ url → js ".xml" <:+ toLowerCase url))
    (url : JSString) (h : js "sitemap" <:+: url ∨ js ".xml" <:+ url) :
    isContentUrl toLowerCase url = false := by
  rw [← Bool.not_eq_true, isContentUrl_iff]
  rcases h with h | h
  · exact fun hc => hc.1 ((hlower url).1 h)
  · exact fun hc => hc.2.1 ((hlower url).2 h)

/-- C30: for a list of URLs each of which contains `sitemap` or ends with `.xml`,
`filterAndCleanUrls` (of either file) returns the empty list; so on a sitemap index,
whose locations are such URLs, `embedSitemapContent` returns 0 after the one fetch of
the index: it fetches no page and no nested sitemap. The lowering function is one that
leaves `sitemap` and `.xml` in place, as `toLowerCase` does. -/
theorem sitemap_index_yields_nothing (toLowerCase : JSString → JSString)
    (hlower : ∀ url, (js "sitemap" <:+: url → js "sitemap" <:+: toLowerCase url) ∧
      (js ".xml" <:+ url → js ".xml" <:+ toLowerCase url)) :
    (∀ (hostname : JSString → Option JSString) (urls : List JSString) (baseUrl : JSString),
      (∀ url ∈ urls, js "sitemap" <:+: url ∨ js ".xml" <:+ url) →
      filterAndCleanUrls toLowerCase hostname urls baseUrl = [] ∧
        filterAndCleanUrlsEmbedder toLowerCase urls baseUrl = []) ∧
    (∀ (E : Type) (hostname : JSString → Option JSString) (sv : WebServices E)
      (sitemapUrl : JSString) (maxUrls : Nat) (locs : List (Option JSString)),
      sv.fetchSitemap sitemapUrl = .ok (.sitemapindex locs) →
      (∀ url ∈ pushLocs locs, js "sitemap" <:+: url ∨ js ".xml" <:+ url) →
      embedSitemapContent toLowerCase hostname sv sitemapUrl maxUrls =
          (.ok 0, [.fetchSitemap sitemapUrl]) ∧
        embedSitemapContentEmbedder toLowerCase sv sitemapUrl maxUrls =
          (.ok 0, [.fetchSitemap sitemapUrl])) := by
  have hfilter : ∀ (hostname : JSString → Option JSString) (urls : List JSString)
      (baseUrl : JSString), (∀ url ∈ urls, js "sitemap" <:+: url ∨ js ".xml" <:+ url) →
      filterAndCleanUrls toLowerCase hostname urls baseUrl = [] ∧
        filterAndCleanUrlsEmbedder toLowerCase urls baseUrl = [] := by
    intro hostname urls baseUrl h
    constructor
    · unfold filterAndCleanUrls
      rw [List.filter_eq_nil_iff]
      intro url hurl
      have hmem : url ∈ urls := (mem_uniqueUrls url urls).1 (List.mem_filter.1 hurl).1
      rw [isContentUrl_of_marker toLowerCase hlower url (h url hmem)]
      simp
    · unfold filterAndCleanUrlsEmbedder
      rw [List.filter_eq_nil_iff]
      intro url hurl
      rw [isContentUrl_of_marker toLowerCase hlower url
        (h url ((mem_uniqueUrls url urls).1 hurl))]
      simp
  refine ⟨hfilter, ?_⟩
  intro E hostname sv sitemapUrl maxUrls locs hfetch hlocs
  have hparse : parseSitemap sv sitemapUrl =
      (.ok (pushLocs locs), [.fetchSitemap sitemapUrl]) := by
    unfold parseSitemap
    rw [hfetch]
  obtain ⟨h1, h2⟩ := hfilter hostname (pushLocs locs) sitemapUrl hlocs
  constructor
  · unfold embedSitemapContent
    rw [hparse]
    simp only [h1, List.take_nil]
    rfl
  · unfold embedSitemapContentEmbedder
    rw [hparse]
    simp only [h2, List.take_nil]
    rfl

/-- C30 with ASCII lowering and a sitemap index of two nested sitemaps. -/
theorem sitemap_index_yields_nothing_witness :
    embedSitemapContent asciiToLowerCase exampleHostname
        (exampleWebServices
          (.sitemapindex [some (js "https://a.b/sitemap-pages.xml"),
                          some (js "https://a.b/docs.xml")]) [] false)
        (js "https://a.b/sitemap.xml") 50 =
      (.ok 0, [.fetchSitemap (js "https://a.b/sitemap.xml")]) :=
  ((sitemap_index_yields_nothing asciiToLowerCase asciiToLowerCase_keeps_markers).2 Nat
    exampleHostname
    (exampleWebServices
      (.sitemapindex [some (js "https://a.b/sitemap-pages.xml"),
                      some (js "https://a.b/docs.xml")]) [] false)
    (js "https://a.b/sitemap.xml") 50
    [some (js "https://a.b/sitemap-pages.xml"), some (js "https://a.b/docs.xml")] rfl
    (by decide)).1

/-! ## Embedding the pages of a sitemap -/

theorem fetchedPages_append {E : Type} (a b : List (WebCall E)) :
    fetchedPages (a ++ b) = fetchedPages a ++ fetchedPages b := by
  induction a with
  | nil => rfl
  | cons call rest ih => cases call <;> simp [fetchedPages, ih]

theorem fetchedPages_embedBatches {E : Type} (sv : WebServices E) (sourceUrl : JSString) :
    ∀ (bs : List (List JSString)) (i : Nat),
      fetchedPages (embedBatches sv sourceUrl i bs).2 = [] := by
  intro bs
  induction bs with
  | nil => intro i; rfl
  | cons batch rest ih =>
    intro i
    unfold embedBatches
    cases sv.embedTexts batch with
    | error e => rfl
    | ok embeddings =>
      simp only
      cases sv.upsert (webVectors embeddings sourceUrl i 0 batch) with
      | ok u => simpa [fetchedPages] using ih (i + 10)
      | error e => simpa [fetchedPages] using ih (i + 10)

theorem fetchedPages_embedContent {E : Type} (sv : WebServices E) (url : JSString)
    (extracted : Except JSString JSString) :
    fetchedPages (embedContent sv url extracted).2 = [] := by
  unfold embedContent
  cases extracted with
  | error e => rfl
  | ok content =>
    simp only
    split
    · rfl
    · split
      · rfl
      · exact fetchedPages_embedBatches sv url _ 0

/-- `embedURL` of src/web-embedder.js returns normally whatever fails, and fetches the
page of its URL and no other. -/
theorem embedURL_returns {E : Type} (sv : WebServices E) (url : JSString) :
    (embedURL sv url).1 = .ok () ∧ fetchedPages (embedURL sv url).2 = [url] := by
  unfold embedURL
  cases sv.fetchPage url with
  | error e => exact ⟨rfl, rfl⟩
  | ok html =>
    simp only
    have h := fetchedPages_embedContent sv url (extractTextFromHTML sv html)
    rcases hres : embedContent sv url (extractTextFromHTML sv html) with ⟨res, calls⟩
    rw [hres] at h
    cases res with
    | error e => exact ⟨rfl, by simpa [fetchedPages] using h⟩
    | ok u => exact ⟨rfl, by simpa [fetchedPages] using h⟩

/-- `embedURL` of src/sitemap-embedder.js returns normally whatever fails, and fetches
the page of its fixed URL and no other. -/
theorem embedURLEmbedder_returns {E : Type} (sv : WebServices E) (url : JSString) :
    (embedURLEmbedder sv url).1 = .ok () ∧
      fetchedPages (embedURLEmbedder sv url).2 = [fixedUrl url] := by
  unfold embedURLEmbedder
  cases sv.fetchPage (fixedUrl url) with
  | error e => exact ⟨rfl, rfl⟩
  | ok html =>
    simp only
    have h := fetchedPages_embedContent sv (fixedUrl url) (extractTextFromHTMLEmbedder sv html)
    rcases hres : embedContent sv (fixedUrl url) (extractTextFromHTMLEmbedder sv html) with
      ⟨res, calls⟩
    rw [hres] at h
    cases res with
    | error e => exact ⟨rfl, by simpa [fetchedPages] using h⟩
    | ok u => exact ⟨rfl, by simpa [fetchedPages] using h⟩

theorem embedMultipleURLs_single {E : Type} (sv : WebServices E) (url : JSString) :
    (embedMultipleURLs sv [url]).1 = .ok () ∧
      fetchedPages (embedMultipleURLs sv [url]).2 = [url] := by
  obtain ⟨h1, h2⟩ := embedURL_returns sv url
  unfold embedMultipleURLs
  rcases hres : embedURL sv url with ⟨res, calls⟩
  rw [hres] at h1 h2
  simp only at h1 h2
  subst h1
  simp [embedMultipleURLs, h2]

/-- The loop over the URLs tries every URL, in order. -/
theorem fetchedPages_processUrls {E : Type}
    (embedOne : JSString → Except JSString Unit × List (WebCall E)) (g : JSString → JSString)
    (h : ∀ url, fetchedPages (embedOne url).2 = [g url]) :
    ∀ urls : List JSString, fetchedPages (processUrls embedOne urls) = urls.map g := by
  intro urls
  induction urls with
  | nil => rfl
  | cons url rest ih =>
    have hurl := h url
    unfold processUrls
    rcases hres : embedOne url with ⟨res, calls⟩
    rw [hres] at hurl
    cases res with
    | error e => simp only; rw [fetchedPages_append, hurl, ih]; rfl
    | ok u => simp only; rw [fetchedPages_append, hurl, ih]; rfl

/-- C26: `embedURL` never raises, whichever of the page fetch, the text extraction, the
embedding or the upsert fails; so, once the sitemap is parsed, `embedSitemapContent`
fetches the page of every one of the first `maxUrls` filtered URLs, in order, and
returns `min(maxUrls, number of filtered URLs)`, whichever URLs fail. This holds for
src/sitemap-parser.js with src/web-embedder.js and for src/sitemap-embedder.js (which
fetches the fixed URLs). -/
theorem embedSitemapContent_attempts_all {E : Type} (toLowerCase : JSString → JSString)
    (hostname : JSString → Option JSString) (sv : WebServices E) (sitemapUrl : JSString)
    (maxUrls : Nat) (urls : List JSString)
    (hparse : (parseSitemap sv sitemapUrl).1 = .ok urls) :
    (∀ url, (embedURL sv url).1 = .ok () ∧ (embedURLEmbedder sv url).1 = .ok ()) ∧
      (embedSitemapContent toLowerCase hostname sv sitemapUrl maxUrls).1 =
        .ok (min maxUrls (filterAndCleanUrls toLowerCase hostname urls sitemapUrl).length) ∧
      fetchedPages (embedSitemapContent toLowerCase hostname sv sitemapUrl maxUrls).2 =
        (filterAndCleanUrls toLowerCase hostname urls sitemapUrl).take maxUrls ∧
      (embedSitemapContentEmbedder toLowerCase sv sitemapUrl maxUrls).1 =
        .ok (min maxUrls (filterAndCleanUrlsEmbedder toLowerCase urls sitemapUrl).length) ∧
      fetchedPages (embedSitemapContentEmbedder toLowerCase sv sitemapUrl maxUrls).2 =
        ((filterAndCleanUrlsEmbedder toLowerCase urls sitemapUrl).take maxUrls).map
          fixedUrl := by
  have hcalls : (parseSitemap sv sitemapUrl).2 = [.fetchSitemap sitemapUrl] := by
    unfold parseSitemap
    cases sv.fetchSitemap sitemapUrl with
    | error e => rfl
    | ok doc => cases doc <;> rfl
  have hpair : parseSitemap sv sitemapUrl = (.ok urls, [.fetchSitemap sitemapUrl]) :=
    Prod.ext hparse hcalls
  refine ⟨fun url => ⟨(embedURL_returns sv url).1, (embedURLEmbedder_returns sv url).1⟩,
    ?_, ?_, ?_, ?_⟩
  · unfold embedSitemapContent
    rw [hpair]
    simp only [List.length_take]
  · unfold embedSitemapContent
    rw [hpair]
    simp only
    rw [fetchedPages_append,
      fetchedPages_processUrls (fun url => embedMultipleURLs sv [url]) (fun url => url)
        (fun url => (embedMultipleURLs_single sv url).2)]
    simp [fetchedPages]
  · unfold embedSitemapContentEmbedder
    rw [hpair]
    simp only [List.length_take]
  · unfold embedSitemapContentEmbedder
    rw [hpair]
    simp only
    rw [fetchedPages_append,
      fetchedPages_processUrls (embedURLEmbedder sv) fixedUrl
        (fun url => (embedURLEmbedder_returns sv url).2)]
    simp [fetchedPages]

/-- C26 on a sitemap of three pages, the second of which cannot be fetched, with
failing embedding and upserts and `maxUrls = 2`. -/
theorem embedSitemapContent_attempts_all_witness :
    (embedSitemapContent asciiToLowerCase exampleHostname
        (exampleWebServices
          (.urlset [some (js "https://a.b/one"), some (js "https://a.b/two"),
                    some (js "https://a.b/three")]) [js "https://a.b/two"] true)
        (js "https://a.b/sitemap.xml") 2).1 = .ok 2 :=
  (embedSitemapContent_attempts_all asciiToLowerCase exampleHostname
    (exampleWebServices
      (.urlset [some (js "https://a.b/one"), some (js "https://a.b/two"),
                some (js "https://a.b/three")]) [js "https://a.b/two"] true)
    (js "https://a.b/sitemap.xml") 2
    [js "https://a.b/one", js "https://a.b/two", js "https://a.b/three"] rfl).2.1

end HumanoidBook
